import Mathlib

/-!
# Platformer playground: level segmentation and collision resolution

A shallow embedding of `src/main.cpp` and of the configuration reader `src/json_parser.h`.

* Coordinates are `float` in the source.  They are embedded as exact rationals
  (`ℚ`), and a statement is about exact arithmetic unless it names the `F32`
  version of a function, in which every sum and difference is rounded to binary32.
* The global variables of the source are collected in the record `Game`.
* The image decoder (`SOIL_load_image`) is an external collaborator; it is a
  parameter `files : String → Option Image`.
* Process exit and out-of-range indexing are embedded as the result `none`; in the
  configuration reader an exception is the result `Outcome.thrown`.
-/

set_option autoImplicit false

namespace Platformer

/-! ## Data model -/

/-- The constant `WINDOW_WIDTH` of the source. -/
def WINDOW_WIDTH : Nat := 800

/-- The constant `WINDOW_HEIGHT` of the source. -/
def WINDOW_HEIGHT : Nat := 600

/-- The source's `struct Object`. -/
structure Object where
  x : ℚ
  y : ℚ
  width : ℚ
  height : ℚ
deriving DecidableEq

/-- The source's `struct Player : Object`. -/
structure Player extends Object where
  dx : ℚ
  dy : ℚ
  onGround : Bool
deriving DecidableEq

/-- The source's `struct Enemy : Object`. -/
structure Enemy extends Object where
  dx : ℚ
  dy : ℚ
deriving DecidableEq

/-- A decoded RGB raster: what `SOIL_load_image` hands back (three bytes per pixel, row major).
A decoded image has `3 * width * height` bytes, so the source never reads past the end of `data`;
such a read is given the value 0 here. -/
structure Image where
  width : Nat
  height : Nat
  data : List Nat

/-- The global variables of the source.  `loadLog` is a ghost trace: the file paths passed to
`loadBitmap` so far, oldest first. -/
structure Game where
  player : Player
  spawnX : ℚ
  spawnY : ℚ
  platforms : List Object
  checkpoints : List Object
  enemies : List Enemy
  enemySpeeds : List (ℚ × ℚ)
  levels : List String
  currentLevel : Nat
  loadLog : List String

/-! ## Collision classification -/

/-- The source's `enum class Direction`. -/
inductive Direction where
  | TOP
  | BOTTOM
  | LEFT
  | RIGHT
deriving DecidableEq

/-- The numeric value of each enumerator (`0b0001`, `0b0010`, `0b0100`, `0b1000`). -/
def Direction.bits : Direction → Nat
  | Direction.TOP => 1
  | Direction.BOTTOM => 2
  | Direction.LEFT => 4
  | Direction.RIGHT => 8

/-- The local `overlapX` of `getCollisionDirection`. -/
def overlapX (player object : Object) : ℚ :=
  min (player.x + player.width) (object.x + object.width) - max player.x object.x

/-- The local `overlapY` of `getCollisionDirection`. -/
def overlapY (player object : Object) : ℚ :=
  min (player.y + player.height) (object.y + object.height) - max player.y object.y

/-- The source's `getCollisionDirection`; the `u8` result is a natural number. -/
def getCollisionDirection (player object : Object) : Nat :=
  if player.y + player.height > object.y ∧ player.y < object.y + object.height then
    if player.x + player.width > object.x ∧ player.x < object.x + object.width then
      if overlapX player object > overlapY player object then
        if player.y < object.y then 0 ||| Direction.TOP.bits
        else 0 ||| Direction.BOTTOM.bits
      else
        if player.x < object.x then 0 ||| Direction.LEFT.bits
        else 0 ||| Direction.RIGHT.bits
    else 0
  else 0

/-! ## Level segmentation -/

/-- The triple test `image[(x + y * width) * 3] == r && ... + 1] == g && ... + 2] == b`. -/
def pixelMatches (img : Image) (r g b : Nat) (x y : Nat) : Bool :=
  img.data.getD ((x + y * img.width) * 3) 0 == r &&
  img.data.getD ((x + y * img.width) * 3 + 1) 0 == g &&
  img.data.getD ((x + y * img.width) * 3 + 2) 0 == b

/-- The matrix `visited`, indexed row first. -/
abbrev Visited := Nat → Nat → Bool

/-- The two nested loops that set `visited[i][j] = true` for `minY ≤ i ≤ maxY`, `minX ≤ j ≤ maxX`. -/
def markVisited (visited : Visited) (minX maxX minY maxY : Nat) : Visited :=
  fun i j => if minY ≤ i ∧ i ≤ maxY ∧ minX ≤ j ∧ j ≤ maxX then true else visited i j

/-- The inner `while` loop of the run extraction, in row `y` for a run that began at `minX`.
The loop state is `(x, maxX, visited)`.  The first argument bounds the number of iterations;
`img.width` iterations always suffice because `x` grows by one per iteration and the loop stops
at `x = img.width` (see `extendRun_fuel`). -/
def extendRun (img : Image) (r g b : Nat) (y minX : Nat) :
    Nat → Nat → Nat → Visited → Nat × Nat × Visited
  | 0, x, maxX, visited => (x, maxX, visited)
  | fuel + 1, x, maxX, visited =>
    if x < img.width ∧ pixelMatches img r g b x y = true then
      extendRun img r g b y minX fuel (x + 1) x (markVisited visited minX maxX y y)
    else (x, maxX, visited)

/-- The loop `for (int x = 0; x < width; ++x)` of the run extraction, for row `y`, resumed at
column `x`.  The first argument bounds the number of iterations (see `scanRow_fuel`). -/
def scanRow (img : Image) (r g b : Nat) (xScale yScale : ℚ) (y : Nat) :
    Nat → Nat → Visited → List Object → Visited × List Object
  | 0, _, visited, tmpObjects => (visited, tmpObjects)
  | fuel + 1, x, visited, tmpObjects =>
    if x < img.width then
      if visited y x = true then
        scanRow img r g b xScale yScale y fuel (x + 1) visited tmpObjects
      else if pixelMatches img r g b x y = true then
        let minX := x
        let minY := y
        let maxY := y
        let res := extendRun img r g b y minX img.width x x visited
        let maxX := res.2.1
        let object : Object :=
          ⟨(minX : ℚ) * xScale, (minY : ℚ) * yScale,
            (((maxX : ℤ) - (minX : ℤ) + 1 : ℤ) : ℚ) * xScale,
            (((maxY : ℤ) - (minY : ℤ) + 1 : ℤ) : ℚ) * yScale⟩
        scanRow img r g b xScale yScale y fuel (res.1 + 1) res.2.2 (tmpObjects ++ [object])
      else
        scanRow img r g b xScale yScale y fuel (x + 1) visited tmpObjects
    else (visited, tmpObjects)

/-- The loop `for (int y = height - 1; y >= 0; --y)`: `scanRows k` handles rows `k - 1, ..., 0`. -/
def scanRows (img : Image) (r g b : Nat) (xScale yScale : ℚ) :
    Nat → Visited → List Object → Visited × List Object
  | 0, visited, tmpObjects => (visited, tmpObjects)
  | k + 1, visited, tmpObjects =>
    let res := scanRow img r g b xScale yScale k img.width 0 visited tmpObjects
    scanRows img r g b xScale yScale k res.1 res.2

/-- The inner loop of the merge pass: the first accepted rectangle that `object` can be fused
with is enlarged in place; `none` stands for `found == false`. -/
def tryMerge (object : Object) : List Object → Option (List Object)
  | [] => none
  | optimizedObject :: rest =>
    if object.x = optimizedObject.x ∧ object.width = optimizedObject.width ∧
        object.y + object.height = optimizedObject.y then
      some ({ optimizedObject with
                y := object.y, height := optimizedObject.height + object.height } :: rest)
    else if object.y = optimizedObject.y ∧ object.height = optimizedObject.height ∧
        object.x + object.width = optimizedObject.x then
      some ({ optimizedObject with
                x := object.x, width := optimizedObject.width + object.width } :: rest)
    else (tryMerge object rest).map (fun l => optimizedObject :: l)

/-- The merge pass: the outer loop over `tmpObjects`, with `optimizedObjects` as accumulator. -/
def mergePass : List Object → List Object → List Object
  | [], optimizedObjects => optimizedObjects
  | object :: rest, optimizedObjects =>
    match tryMerge object optimizedObjects with
    | some merged => mergePass rest merged
    | none => mergePass rest (optimizedObjects ++ [object])

/-- The source's integer quotient `WINDOW_WIDTH / width`, converted to `float`. -/
def xScaleOf (img : Image) : ℚ := ((WINDOW_WIDTH / img.width : Nat) : ℚ)

/-- The source's integer quotient `WINDOW_HEIGHT / height`, converted to `float`. -/
def yScaleOf (img : Image) : ℚ := ((WINDOW_HEIGHT / img.height : Nat) : ℚ)

/-- The run extraction pass of `aggregateObject`: the list `tmpObjects`. -/
def extractRuns (img : Image) (r g b : Nat) : List Object :=
  (scanRows img r g b (xScaleOf img) (yScaleOf img) img.height (fun _ _ => false) []).2

/-- The source's `aggregateObject` (an image of width or height zero makes the source divide by
zero; every statement below excludes it). -/
def aggregateObject (img : Image) (r g b : Nat) : List Object :=
  mergePass (extractRuns img r g b) []

/-! ## Simulation -/

/-- The source's `die`. -/
def die (g : Game) : Game :=
  { g with player :=
      { g.player with x := g.spawnX, y := g.spawnY, dx := 0, dy := 0, onGround := false } }

/-- The source's `unloadBitmap`. -/
def unloadBitmap (g : Game) : Game :=
  { g with platforms := [], checkpoints := [], enemies := [] }

/-- The enemy loop of `loadBitmap`: the enemy numbered `enemyCount` takes
`enemySpeeds[enemyCount]`; an index out of range gives `none`. -/
def makeEnemies (enemySpeeds : List (ℚ × ℚ)) : List Object → Nat → Option (List Enemy)
  | [], _ => some []
  | enemy :: rest, enemyCount =>
    match enemySpeeds[enemyCount]? with
    | none => none
    | some speed =>
      (makeEnemies enemySpeeds rest (enemyCount + 1)).map
        (fun l => ({ toObject := enemy, dx := speed.1, dy := speed.2 } : Enemy) :: l)

/-- The source's `loadBitmap`.  `none` stands for a failed decode (process exit), for the
out-of-range read `playerObject[0]` and for an out-of-range read of `enemySpeeds`. -/
def loadBitmap (files : String → Option Image) (filepath : String) (g0 : Game) : Option Game :=
  let g := { unloadBitmap g0 with loadLog := g0.loadLog ++ [filepath] }
  match files filepath with
  | none => none
  | some image =>
    match aggregateObject image 0 0 255 with
    | [] => none
    | p0 :: _ =>
      let player : Player :=
        { g.player with x := p0.x, y := p0.y, width := p0.width, height := p0.height }
      match makeEnemies g.enemySpeeds (aggregateObject image 255 0 0) 0 with
      | none => none
      | some es =>
        some { g with
          player := player, spawnX := player.x, spawnY := player.y,
          platforms := g.platforms ++ aggregateObject image 255 255 255,
          checkpoints := g.checkpoints ++ aggregateObject image 0 255 0,
          enemies := g.enemies ++ es }

/-- The body of the platform loop of `handleCollision`. -/
def resolvePlatform (p0 : Player) (platform : Object) : Player :=
  let direction := getCollisionDirection p0.toObject platform
  let p1 : Player :=
    if direction &&& Direction.TOP.bits ≠ 0 then
      { p0 with y := platform.y - p0.height, dy := 0, onGround := true }
    else p0
  let p2 : Player :=
    if direction &&& Direction.BOTTOM.bits ≠ 0 then
      { p1 with y := platform.y + platform.height, dy := -p1.dy }
    else p1
  let p3 : Player :=
    if direction &&& Direction.LEFT.bits ≠ 0 then
      { p2 with x := platform.x - p2.width }
    else p2
  if direction &&& Direction.RIGHT.bits ≠ 0 then
    { p3 with x := platform.x + platform.width }
  else p3

/-- The checkpoint loop of `handleCollision`.  The range of the loop is fixed when the loop is
entered; the entries visited after a reload are taken to be those present at entry.  `none`
stands for `levels[++currentLevel]` out of range and for a failed `loadBitmap`. -/
def checkpointLoop (files : String → Option Image) : List Object → Game → Option Game
  | [], g => some g
  | checkpoint :: rest, g =>
    if getCollisionDirection g.player.toObject checkpoint ≠ 0 then
      let g1 := { g with currentLevel := g.currentLevel + 1 }
      match g1.levels[g1.currentLevel]? with
      | none => none
      | some filepath =>
        match loadBitmap files filepath g1 with
        | none => none
        | some g2 => checkpointLoop files rest g2
    else checkpointLoop files rest g

/-- The enemy loop of `handleCollision`. -/
def enemyLoop : List Enemy → Game → Game
  | [], g => g
  | enemy :: rest, g =>
    if getCollisionDirection g.player.toObject enemy.toObject ≠ 0 then enemyLoop rest (die g)
    else enemyLoop rest g

/-- The first statement of `handleCollision`: falling below the window. -/
def fallCheck (g : Game) : Game :=
  if g.player.y + g.player.height > (WINDOW_HEIGHT : ℚ) then die g else g

/-- The second statement of `handleCollision`: clamping to the left and right window edges. -/
def clampPlayer (g : Game) : Game :=
  if g.player.x < 0 then { g with player := { g.player with x := 0 } }
  else if g.player.x + g.player.width > (WINDOW_WIDTH : ℚ) then
    { g with player := { g.player with x := (WINDOW_WIDTH : ℚ) - g.player.width } }
  else g

/-- The platform loop of `handleCollision`. -/
def platformLoop (g : Game) : Game :=
  { g with player := g.platforms.foldl resolvePlatform g.player }

/-- The source's `handleCollision`. -/
def handleCollision (files : String → Option Image) (g : Game) : Option Game :=
  let g3 := platformLoop (clampPlayer (fallCheck g))
  match checkpointLoop files g3.checkpoints g3 with
  | none => none
  | some g4 => some (enemyLoop g4.enemies g4)

/-- The body of the platform loop of `updateEnemies`. -/
def bounceEnemy (e0 : Enemy) (platform : Object) : Enemy :=
  let direction := getCollisionDirection e0.toObject platform
  let e1 : Enemy :=
    if direction &&& Direction.LEFT.bits ≠ 0 then { e0 with dx := -e0.dx } else e0
  if direction &&& Direction.RIGHT.bits ≠ 0 then { e1 with dx := -e1.dx } else e1

/-- The body of the outer loop of `updateEnemies`. -/
def updateEnemy (platforms : List Object) (e0 : Enemy) : Enemy :=
  let e1 : Enemy := { e0 with x := e0.x + e0.dx }
  let e2 : Enemy :=
    if e1.x < 0 ∨ e1.x + e1.width > (WINDOW_WIDTH : ℚ) then { e1 with dx := -e1.dx } else e1
  platforms.foldl bounceEnemy e2

/-- The source's `updateEnemies`. -/
def updateEnemies (g : Game) : Game :=
  { g with enemies := g.enemies.map (updateEnemy g.platforms) }

/-! ## Test data -/

/-- The 2x2 image of Scenario 1: pixel (0,0) is blue, the other three are white. -/
def scenario1 : Image :=
  { width := 2, height := 2,
    data := [0, 0, 255, 255, 255, 255, 255, 255, 255, 255, 255, 255] }

/-- A state with one enemy that, once advanced, reaches into two platforms from their left. -/
def enemyAtTwoPlatforms : Game :=
  { player := { x := 500, y := 100, width := 20, height := 20, dx := 0, dy := 0, onGround := false },
    spawnX := 500, spawnY := 100,
    platforms := [⟨12, 0, 10, 10⟩, ⟨12, 10, 20, 10⟩], checkpoints := [],
    enemies := [⟨⟨0, 0, 10, 20⟩, 5, 5⟩],
    enemySpeeds := [], levels := [], currentLevel := 0, loadLog := [] }

/-- A state with one enemy that, once advanced, reaches into one platform from its left. -/
def enemyAtOnePlatform : Game :=
  { player := { x := 500, y := 100, width := 20, height := 20, dx := 0, dy := 0, onGround := false },
    spawnX := 500, spawnY := 100,
    platforms := [⟨12, 0, 10, 20⟩], checkpoints := [],
    enemies := [⟨⟨0, 0, 10, 20⟩, 5, 5⟩],
    enemySpeeds := [], levels := [], currentLevel := 0, loadLog := [] }

/-- A state in which the player overlaps a checkpoint on the bottom edge of the window and has
already dropped below that edge. -/
def fallenThroughCheckpoint : Game :=
  { player := { x := 100, y := 590, width := 20, height := 20, dx := 0, dy := 10, onGround := false },
    spawnX := 0, spawnY := 0,
    platforms := [], checkpoints := [⟨90, 595, 40, 5⟩], enemies := [],
    enemySpeeds := [], levels := ["a", "b"], currentLevel := 0, loadLog := ["a"] }

/-- A state in which the player overlaps the only checkpoint, inside the window. -/
def touchingCheckpoint : Game :=
  { player := { x := 100, y := 100, width := 20, height := 20, dx := 0, dy := 0, onGround := false },
    spawnX := 0, spawnY := 0,
    platforms := [], checkpoints := [⟨110, 100, 40, 40⟩], enemies := [],
    enemySpeeds := [], levels := ["a", "b"], currentLevel := 0, loadLog := ["a"] }

/-- A decoder that knows no file. -/
def noFiles : String → Option Image := fun _ => none

/-- A decoder that returns the image of Scenario 1 for every path. -/
def scenario1Files : String → Option Image := fun _ => some scenario1

/-! ## Auxiliary notions used in the statements -/

/-- The rectangles `a` and `b` overlap strictly on both axes. -/
def Overlaps (a b : Object) : Prop :=
  a.x < b.x + b.width ∧ b.x < a.x + a.width ∧ a.y < b.y + b.height ∧ b.y < a.y + a.height

/-- The state in which the checkpoint loop of `handleCollision` starts: after the fall check, the
clamp and the platform loop. -/
def beforeCheckpoints (g : Game) : Game := platformLoop (clampPlayer (fallCheck g))

/-- The level data of `g` (spawn point, player size, platforms and checkpoints) are those that a
call of `loadBitmap` has set.  Only `loadBitmap` writes these variables, and `main` calls it
(through `loadExternalData`) before the loop starts, so every state that the loop passes through
satisfies this, whatever the position and the velocity of the player and of the enemies. -/
def LevelLoaded (files : String → Option Image) (g : Game) : Prop :=
  ∃ (g0 : Game) (filepath : String) (loaded : Game),
    loadBitmap files filepath g0 = some loaded ∧
    g.spawnX = loaded.spawnX ∧ g.spawnY = loaded.spawnY ∧
    g.player.width = loaded.player.width ∧ g.player.height = loaded.player.height ∧
    g.platforms = loaded.platforms ∧ g.checkpoints = loaded.checkpoints

/-- The coordinates of the rectangle are whole numbers and the rectangle lies in the window. -/
def InWindow (A : Object) : Prop :=
  ∃ x y w h : Nat, A = ⟨(x : ℚ), (y : ℚ), (w : ℚ), (h : ℚ)⟩ ∧ x + w ≤ 800 ∧ y + h ≤ 600

/-- The enemy as it is after the statement `enemy.x += enemy.dx` of `updateEnemies`. -/
def advanced (e : Enemy) : Enemy := { e with x := e.x + e.dx }

/-- The classification of `e` against `platform` is `LEFT` or `RIGHT`. -/
def hitsSide (e : Enemy) (platform : Object) : Bool :=
  getCollisionDirection e.toObject platform == Direction.LEFT.bits ||
  getCollisionDirection e.toObject platform == Direction.RIGHT.bits

/-- How often `updateEnemies` executes `enemy.dx = -enemy.dx` for the enemy `e`: once if the
advanced enemy sticks out of the window, and once for every platform that the advanced enemy is
classified `LEFT` or `RIGHT` against. -/
def reversals (platforms : List Object) (e : Enemy) : Nat :=
  (if (advanced e).x < 0 ∨ (advanced e).x + (advanced e).width > (WINDOW_WIDTH : ℚ) then 1 else 0)
    + platforms.countP (hitsSide (advanced e))

/-! ## Auxiliary notions for the segmentation proofs -/

/-- A rectangle of whole image pixels: columns `x0 .. x0 + wd - 1`, rows `y0 .. y0 + ht - 1`. -/
structure PRect where
  x0 : Nat
  y0 : Nat
  wd : Nat
  ht : Nat

/-- The pixel `(px, py)` lies in the pixel rectangle. -/
def PRect.covers (a : PRect) (px py : Nat) : Prop :=
  a.x0 ≤ px ∧ px < a.x0 + a.wd ∧ a.y0 ≤ py ∧ py < a.y0 + a.ht

/-- The world rectangle of a pixel rectangle under the scale factors `sx`, `sy`. -/
def PRect.toObject (sx sy : ℚ) (a : PRect) : Object :=
  ⟨(a.x0 : ℚ) * sx, (a.y0 : ℚ) * sy, (a.wd : ℚ) * sx, (a.ht : ℚ) * sy⟩

/-- Column `px` lies in the image and the pixel `(px, py)` has the target colour. -/
def Matching (img : Image) (r g b : Nat) (px py : Nat) : Prop :=
  px < img.width ∧ pixelMatches img r g b px py = true

/-- The runs of row `y` from column `x` on, as pixel rectangles in scan order. -/
structure RowRuns (img : Image) (r g b y x : Nat) (runs : List PRect) : Prop where
  shape : ∀ a ∈ runs, a.y0 = y ∧ a.ht = 1 ∧ x ≤ a.x0 ∧ 1 ≤ a.wd
  sound : ∀ a ∈ runs, ∀ j, a.x0 ≤ j → j < a.x0 + a.wd → Matching img r g b j y
  rightMax : ∀ a ∈ runs, ¬ Matching img r g b (a.x0 + a.wd) y
  sorted : runs.Pairwise (fun a c => a.x0 + a.wd ≤ c.x0)
  complete : ∀ j, x ≤ j → Matching img r g b j y → ∃ a ∈ runs, a.x0 ≤ j ∧ j < a.x0 + a.wd

/-- The runs of rows `k - 1, ..., 0`, as pixel rectangles in scan order. -/
structure ImageRuns (img : Image) (r g b k : Nat) (runs : List PRect) : Prop where
  shape : ∀ a ∈ runs, a.y0 < k ∧ a.ht = 1 ∧ 1 ≤ a.wd
  sound : ∀ a ∈ runs, ∀ j, a.x0 ≤ j → j < a.x0 + a.wd → Matching img r g b j a.y0
  rightMax : ∀ a ∈ runs, ¬ Matching img r g b (a.x0 + a.wd) a.y0
  sorted : runs.Pairwise (fun a c => c.y0 ≤ a.y0 ∧ (a.y0 = c.y0 → a.x0 + a.wd ≤ c.x0))
  complete : ∀ px py, py < k → Matching img r g b px py →
    ∃ a ∈ runs, a.y0 = py ∧ a.x0 ≤ px ∧ px < a.x0 + a.wd

/-- The vertical fusion test of the merge pass on pixel rectangles: `o` sits directly on top of
`p` with the same columns. -/
def VAdj (o p : PRect) : Prop := o.x0 = p.x0 ∧ o.wd = p.wd ∧ o.y0 + o.ht = p.y0

/-- The horizontal fusion test of the merge pass on pixel rectangles: `o` sits directly to the
left of `p` with the same rows. -/
def HAdj (o p : PRect) : Prop := o.y0 = p.y0 ∧ o.ht = p.ht ∧ o.x0 + o.wd = p.x0

instance (o p : PRect) : Decidable (VAdj o p) := by
  unfold VAdj
  infer_instance

instance (o p : PRect) : Decidable (HAdj o p) := by
  unfold HAdj
  infer_instance

/-- The result of the vertical fusion of `o` into `p`. -/
def vFuse (o p : PRect) : PRect := { p with y0 := o.y0, ht := p.ht + o.ht }

/-- The result of the horizontal fusion of `o` into `p`. -/
def hFuse (o p : PRect) : PRect := { p with x0 := o.x0, wd := p.wd + o.wd }

/-- The function `tryMerge` on pixel rectangles. -/
def ptryMerge (o : PRect) : List PRect → Option (List PRect)
  | [] => none
  | p :: rest =>
    if VAdj o p then some (vFuse o p :: rest)
    else if HAdj o p then some (hFuse o p :: rest)
    else (ptryMerge o rest).map (fun l => p :: l)

/-- The function `mergePass` on pixel rectangles. -/
def pmergePass : List PRect → List PRect → List PRect
  | [], acc => acc
  | o :: rest, acc =>
    match ptryMerge o acc with
    | some merged => pmergePass rest merged
    | none => pmergePass rest (acc ++ [o])

/-- Two pixel rectangles share no pixel. -/
def PDisjoint (a c : PRect) : Prop := ∀ px py, ¬ (a.covers px py ∧ c.covers px py)

/-- The rectangle `p'` is what the merge pass turns `p` into when it fuses `o` with it. -/
def Fused (o p p' : PRect) : Prop :=
  (VAdj o p ∧ p' = vFuse o p) ∨ (HAdj o p ∧ p' = hFuse o p)

/-- What the merge pass needs to know about the runs it has not yet processed. -/
structure RunList (img : Image) (r g b : Nat) (rest : List PRect) : Prop where
  shape : ∀ o ∈ rest, o.ht = 1 ∧ 1 ≤ o.wd
  sound : ∀ o ∈ rest, ∀ j, o.x0 ≤ j → j < o.x0 + o.wd → Matching img r g b j o.y0
  rightMax : ∀ o ∈ rest, ¬ Matching img r g b (o.x0 + o.wd) o.y0
  sorted : rest.Pairwise (fun a c => c.y0 ≤ a.y0)

/-- The invariant of the merge pass: `acc` is the list `optimizedObjects`, `rest` the runs not
yet processed. -/
structure MergeInv (img : Image) (r g b : Nat) (acc rest : List PRect) : Prop where
  pos : ∀ a ∈ acc, 1 ≤ a.wd ∧ 1 ≤ a.ht
  sound : ∀ a ∈ acc, ∀ px py, a.covers px py → Matching img r g b px py
  rightMax : ∀ a ∈ acc, ∀ py, a.y0 ≤ py → py < a.y0 + a.ht →
    ¬ Matching img r g b (a.x0 + a.wd) py
  noV : acc.Pairwise (fun a c => ¬ VAdj a c ∧ ¬ VAdj c a)
  above : ∀ a ∈ acc, ∀ o ∈ rest, o.y0 ≤ a.y0

/-- The point `(p, q)` of the plane lies in the half-open world rectangle `o`. -/
def Object.contains (o : Object) (p q : ℚ) : Prop :=
  o.x ≤ p ∧ p < o.x + o.width ∧ o.y ≤ q ∧ q < o.y + o.height

/-- The point `(p, q)` lies in the world cell of the pixel `(px, py)`:
`[px*sx, (px+1)*sx) x [py*sy, (py+1)*sy)`. -/
def inCell (sx sy : ℚ) (px py : Nat) (p q : ℚ) : Prop :=
  (px : ℚ) * sx ≤ p ∧ p < ((px : ℚ) + 1) * sx ∧ (py : ℚ) * sy ≤ q ∧ q < ((py : ℚ) + 1) * sy

/-! ## Player input and the frame loop -/

/-- The constant `PLAYER_SPEED` of the source. -/
def PLAYER_SPEED : ℚ := 5

/-- The constant `GRAVITY` of the source (`0.2f`, taken as the exact rational 1/5). -/
def GRAVITY : ℚ := 1 / 5

/-- The constant `JUMP_FORCE` of the source. -/
def JUMP_FORCE : ℚ := 10

/-- The key codes of the windowing library that `keyCallback` tells apart. -/
inductive Key where
  | ESCAPE
  | LEFT
  | RIGHT
  | SPACE
  | UP
  | OTHER
deriving DecidableEq

/-- The key actions of the windowing library. -/
inductive Action where
  | PRESS
  | RELEASE
  | REPEAT
deriving DecidableEq

/-- The source's `updatePlayer`. -/
def updatePlayer (g : Game) : Game :=
  let p1 : Player := { g.player with dy := g.player.dy + GRAVITY }
  let p2 : Player := { p1 with x := p1.x + p1.dx }
  { g with player := { p2 with y := p2.y + p2.dy } }

/-- The source's `keyCallback`, without the request to close the window on `ESCAPE`. -/
def keyCallback (key : Key) (action : Action) (g : Game) : Game :=
  let p1 : Player :=
    if key = Key.LEFT then
      { g.player with dx := if action ≠ Action.RELEASE then -PLAYER_SPEED else 0 }
    else if key = Key.RIGHT then
      { g.player with dx := if action ≠ Action.RELEASE then PLAYER_SPEED else 0 }
    else g.player
  if (key = Key.SPACE ∨ key = Key.UP) ∧ action = Action.PRESS ∧ p1.onGround = true then
    { g with player := { p1 with dy := -JUMP_FORCE, onGround := false } }
  else { g with player := p1 }

/-- One iteration of the loop of `main`: `updatePlayer`, `updateEnemies`, `handleCollision`. -/
def frame (files : String → Option Image) (g : Game) : Option Game :=
  handleCollision files (updateEnemies (updatePlayer g))

/-- What happens between two states of the game: a frame or a key event. -/
inductive Event where
  | frame
  | key (key : Key) (action : Action)

/-- The game after a sequence of events. -/
def runEvents (files : String → Option Image) : List Event → Game → Option Game
  | [], g => some g
  | Event.frame :: rest, g =>
    match frame files g with
    | none => none
    | some g1 => runEvents files rest g1
  | Event.key k a :: rest, g => runEvents files rest (keyCallback k a g)

/-- The global variables as they are when the program starts, with the given level list. -/
def startGame (levels : List String) : Game :=
  { player := { x := 0, y := 0, width := 0, height := 0, dx := 0, dy := 0, onGround := false },
    spawnX := 0, spawnY := 0, platforms := [], checkpoints := [], enemies := [],
    enemySpeeds := [], levels := levels, currentLevel := 0, loadLog := [] }

/-- A 40x2 level: the player pixel (0,0) stands on the platform pixel (0,1); everything else is
background.  The world cells are 20 wide and 300 high. -/
def ledgeImage : Image :=
  { width := 40, height := 2,
    data := [0, 0, 255] ++ List.replicate 117 0 ++ [255, 255, 255] ++ List.replicate 117 0 }

/-- A decoder that returns `ledgeImage` for every path. -/
def ledgeFiles : String → Option Image := fun _ => some ledgeImage

/-- The player lands, the right key is pressed, and four more frames pass. -/
def walkOffLedge : List Event :=
  [Event.frame, Event.key Key.RIGHT Action.PRESS,
    Event.frame, Event.frame, Event.frame, Event.frame]

/-- Some platform carries the player: its top edge is the player's bottom edge and their
horizontal extents overlap. -/
def Supported (g : Game) : Prop :=
  ∃ p ∈ g.platforms, p.y = g.player.y + g.player.height ∧
    g.player.x < p.x + p.width ∧ p.x < g.player.x + g.player.width

instance (g : Game) : Decidable (Supported g) := by
  unfold Supported
  infer_instance

/-- The state after the level `ledgeImage` was loaded and the events `walkOffLedge` happened. -/
def afterWalkOff : Option Game :=
  match loadBitmap ledgeFiles "ledge" (startGame ["ledge"]) with
  | none => none
  | some g0 => runEvents ledgeFiles walkOffLedge g0

/-! ## Configuration reader (`src/json_parser.h` and `loadExternalData`) -/

/-- The result of a computation that may throw (or end the process), kept apart from the case
that the iteration bound of the embedding ran out. -/
inductive Outcome (α : Type) where
  | ok (a : α)
  | thrown (message : String)
  | outOfFuel
deriving DecidableEq

/-- The source's `enum TokenType`. -/
inductive TokenType where
  | LEFT_BRACE
  | RIGHT_BRACE
  | LEFT_BRACKET
  | RIGHT_BRACKET
  | COMMA
  | COLON
  | STRING
  | NUMBER
  | BOOLEAN
  | NUL
  | END_OF_FILE
deriving DecidableEq

/-- The source's `struct Token`. -/
structure Token where
  type : TokenType
  value : List Char
deriving DecidableEq

/-- The data members of the source's `class Lexer`. -/
structure Lexer where
  input : List Char
  position : Nat
deriving DecidableEq

/-- The C library's `isspace` in the default locale. -/
def isspace (c : Char) : Bool := c.toNat == 32 || (9 ≤ c.toNat && c.toNat ≤ 13)

/-- The C library's `isdigit`. -/
def isdigit (c : Char) : Bool := 48 ≤ c.toNat && c.toNat ≤ 57

/-- The C library's `isalpha` in the default locale. -/
def isalpha (c : Char) : Bool :=
  (65 ≤ c.toNat && c.toNat ≤ 90) || (97 ≤ c.toNat && c.toNat ≤ 122)

/-- The characters that the loop of `Lexer::numberToken` accepts: digits, `.` and `-`. -/
def isNumberChar (c : Char) : Bool := isdigit c || c.toNat == 46 || c.toNat == 45

/-- The source's `Lexer::skipWhitespace`: the position moves past the leading white space of the
rest of the input. -/
def Lexer.skipWhitespace (lx : Lexer) : Lexer :=
  { lx with position := lx.position + ((lx.input.drop lx.position).takeWhile isspace).length }

/-- The source's `Lexer::advanceToken`. -/
def Lexer.advanceToken (lx : Lexer) (type : TokenType) (value : List Char) : Token × Lexer :=
  (⟨type, value⟩, { lx with position := lx.position + 1 })

/-- The source's `Lexer::stringToken`: the position moves past the opening quote and then to the
next quote (code 34); without one the function throws. -/
def Lexer.stringToken (lx : Lexer) : Outcome (Token × Lexer) :=
  let start := lx.position + 1
  let value := (lx.input.drop start).takeWhile (fun c => c.toNat != 34)
  let position := start + value.length
  if position ≥ lx.input.length then Outcome.thrown "Unterminated string in JSON input"
  else Outcome.ok (⟨TokenType.STRING, value⟩, { lx with position := position + 1 })

/-- The source's `Lexer::numberToken`. -/
def Lexer.numberToken (lx : Lexer) : Token × Lexer :=
  let value := (lx.input.drop lx.position).takeWhile isNumberChar
  (⟨TokenType.NUMBER, value⟩, { lx with position := lx.position + value.length })

/-- The source's `Lexer::keywordToken`. -/
def Lexer.keywordToken (lx : Lexer) : Outcome (Token × Lexer) :=
  let value := (lx.input.drop lx.position).takeWhile isalpha
  let lx1 : Lexer := { lx with position := lx.position + value.length }
  if value = "true".toList ∨ value = "false".toList then
    Outcome.ok (⟨TokenType.BOOLEAN, value⟩, lx1)
  else if value = "null".toList then Outcome.ok (⟨TokenType.NUL, value⟩, lx1)
  else Outcome.thrown "Unexpected keyword in JSON input"

/-- The source's `Lexer::nextToken`.  The punctuation characters are given by their codes:
123 and 125 the braces, 91 and 93 the brackets, 44 the comma, 58 the colon, 34 the quote, 45
the minus sign. -/
def Lexer.nextToken (lx0 : Lexer) : Outcome (Token × Lexer) :=
  let lx := lx0.skipWhitespace
  match lx.input[lx.position]? with
  | none => Outcome.ok (⟨TokenType.END_OF_FILE, []⟩, lx)
  | some currentChar =>
    if currentChar.toNat = 123 then Outcome.ok (lx.advanceToken TokenType.LEFT_BRACE [currentChar])
    else if currentChar.toNat = 125 then
      Outcome.ok (lx.advanceToken TokenType.RIGHT_BRACE [currentChar])
    else if currentChar.toNat = 91 then
      Outcome.ok (lx.advanceToken TokenType.LEFT_BRACKET [currentChar])
    else if currentChar.toNat = 93 then
      Outcome.ok (lx.advanceToken TokenType.RIGHT_BRACKET [currentChar])
    else if currentChar.toNat = 44 then Outcome.ok (lx.advanceToken TokenType.COMMA [currentChar])
    else if currentChar.toNat = 58 then Outcome.ok (lx.advanceToken TokenType.COLON [currentChar])
    else if currentChar.toNat = 34 then lx.stringToken
    else if isdigit currentChar = true ∨ currentChar.toNat = 45 then Outcome.ok lx.numberToken
    else if isalpha currentChar = true then lx.keywordToken
    else Outcome.thrown "Unexpected character in JSON input"

/-- The source's `class JsonNode`.  The members of an object are the entries of the
`std::map`, which keeps them in ascending order of their keys. -/
inductive JsonNode where
  | object (members : List (List Char × JsonNode))
  | array (items : List JsonNode)
  | string (value : List Char)
  | number (value : ℚ)
  | boolean (value : Bool)
  | null

/-- The order of `std::string` keys in a `std::map`: lexicographic by character code. -/
def keyLt : List Char → List Char → Bool
  | [], [] => false
  | [], _ :: _ => true
  | _ :: _, [] => false
  | a :: as, c :: cs => a.toNat < c.toNat || (a.toNat == c.toNat && keyLt as cs)

/-- The assignment `jsonObject[key] = value` on a `std::map`: a new key is inserted at its place
in the order, the value of a key already present is replaced. -/
def mapAssign (key : List Char) (value : JsonNode) :
    List (List Char × JsonNode) → List (List Char × JsonNode)
  | [] => [(key, value)]
  | (k, v) :: rest =>
    if keyLt key k = true then (key, value) :: (k, v) :: rest
    else if keyLt k key = true then (k, v) :: mapAssign key value rest
    else (k, value) :: rest

/-- The decimal value of a list of digits. -/
def digitsValue (ds : List Char) : Nat := ds.foldl (fun n c => 10 * n + (c.toNat - 48)) 0

/-- The standard library's `std::stod` on the text of a `NUMBER` token (digits, `.` and `-`
only): an optional minus sign, digits, optionally a point and digits, at least one digit in all;
what follows is ignored.  Without a digit `stod` throws, which is `none` here.  The value is kept
exact; the rounding to `double` and the range error of `stod` are left out. -/
def stod (text : List Char) : Option ℚ :=
  let negative := text.head?.map Char.toNat == some 45
  let unsigned := if negative then text.drop 1 else text
  let whole := unsigned.takeWhile isdigit
  let afterWhole := unsigned.drop whole.length
  let fraction :=
    if afterWhole.head?.map Char.toNat == some 46 then (afterWhole.drop 1).takeWhile isdigit
    else []
  if whole.length + fraction.length = 0 then none
  else
    let magnitude : ℚ :=
      (digitsValue whole : ℚ) + (digitsValue fraction : ℚ) / (10 : ℚ) ^ fraction.length
    some (if negative then -magnitude else magnitude)

/-- The data members of the source's `class Parser`. -/
structure Parser where
  lexer : Lexer
  currentToken : Token

/-- The statement `currentToken = lexer.nextToken();`. -/
def Parser.advance (p : Parser) : Outcome Parser :=
  match p.lexer.nextToken with
  | Outcome.ok (token, lexer) => Outcome.ok { lexer := lexer, currentToken := token }
  | Outcome.thrown m => Outcome.thrown m
  | Outcome.outOfFuel => Outcome.outOfFuel

/-- The source's `Parser::consumeToken`. -/
def Parser.consumeToken (p : Parser) (expectedType : TokenType) : Outcome Parser :=
  if p.currentToken.type ≠ expectedType then Outcome.thrown "Unexpected token in JSON input"
  else p.advance

/-- The source's `Parser::parseString`. -/
def Parser.parseString (p : Parser) : Outcome (JsonNode × Parser) :=
  if p.currentToken.type ≠ TokenType.STRING then Outcome.thrown "Expected a string"
  else
    match p.advance with
    | Outcome.ok p1 => Outcome.ok (JsonNode.string p.currentToken.value, p1)
    | Outcome.thrown m => Outcome.thrown m
    | Outcome.outOfFuel => Outcome.outOfFuel

/-- The source's `Parser::parseNumber`. -/
def Parser.parseNumber (p : Parser) : Outcome (JsonNode × Parser) :=
  if p.currentToken.type ≠ TokenType.NUMBER then Outcome.thrown "Expected a number"
  else
    match stod p.currentToken.value with
    | none => Outcome.thrown "stod"
    | some d =>
      match p.advance with
      | Outcome.ok p1 => Outcome.ok (JsonNode.number d, p1)
      | Outcome.thrown m => Outcome.thrown m
      | Outcome.outOfFuel => Outcome.outOfFuel

/-- The source's `Parser::parseBoolean`. -/
def Parser.parseBoolean (p : Parser) : Outcome (JsonNode × Parser) :=
  if p.currentToken.type ≠ TokenType.BOOLEAN then Outcome.thrown "Expected a boolean"
  else
    match p.advance with
    | Outcome.ok p1 =>
      Outcome.ok (JsonNode.boolean (decide (p.currentToken.value = "true".toList)), p1)
    | Outcome.thrown m => Outcome.thrown m
    | Outcome.outOfFuel => Outcome.outOfFuel

/-- The source's `Parser::parseNull`. -/
def Parser.parseNull (p : Parser) : Outcome (JsonNode × Parser) :=
  if p.currentToken.type ≠ TokenType.NUL then Outcome.thrown "Expected null"
  else
    match p.advance with
    | Outcome.ok p1 => Outcome.ok (JsonNode.null, p1)
    | Outcome.thrown m => Outcome.thrown m
    | Outcome.outOfFuel => Outcome.outOfFuel

/-- The optional comma after an element: `if (currentToken.type == COMMA) consumeToken(COMMA);`. -/
def Parser.skipComma (p : Parser) : Outcome Parser :=
  if p.currentToken.type = TokenType.COMMA then p.consumeToken TokenType.COMMA else Outcome.ok p

mutual

/-- The source's `Parser::parseValue`; `parseObject` and `parseArray` are its last two cases.
The first argument bounds the depth of the calls. -/
def parseValue : Nat → Parser → Outcome (JsonNode × Parser)
  | 0, _ => Outcome.outOfFuel
  | fuel + 1, p =>
    match p.currentToken.type with
    | TokenType.STRING => p.parseString
    | TokenType.NUMBER => p.parseNumber
    | TokenType.BOOLEAN => p.parseBoolean
    | TokenType.NUL => p.parseNull
    | TokenType.LEFT_BRACE =>
      match p.consumeToken TokenType.LEFT_BRACE with
      | Outcome.ok p1 => parseObjectLoop fuel [] p1
      | Outcome.thrown m => Outcome.thrown m
      | Outcome.outOfFuel => Outcome.outOfFuel
    | TokenType.LEFT_BRACKET =>
      match p.consumeToken TokenType.LEFT_BRACKET with
      | Outcome.ok p1 => parseArrayLoop fuel [] p1
      | Outcome.thrown m => Outcome.thrown m
      | Outcome.outOfFuel => Outcome.outOfFuel
    | _ => Outcome.thrown "Unexpected value in JSON input"

/-- The `while` loop of `Parser::parseObject` with the two statements after it; `jsonObject` is
the map built so far. -/
def parseObjectLoop : Nat → List (List Char × JsonNode) → Parser → Outcome (JsonNode × Parser)
  | 0, _, _ => Outcome.outOfFuel
  | fuel + 1, jsonObject, p =>
    if p.currentToken.type ≠ TokenType.RIGHT_BRACE then
      match p.parseString with
      | Outcome.ok (JsonNode.string key, p1) =>
        match p1.consumeToken TokenType.COLON with
        | Outcome.ok p2 =>
          match parseValue fuel p2 with
          | Outcome.ok (value, p3) =>
            match p3.skipComma with
            | Outcome.ok p4 => parseObjectLoop fuel (mapAssign key value jsonObject) p4
            | Outcome.thrown m => Outcome.thrown m
            | Outcome.outOfFuel => Outcome.outOfFuel
          | Outcome.thrown m => Outcome.thrown m
          | Outcome.outOfFuel => Outcome.outOfFuel
        | Outcome.thrown m => Outcome.thrown m
        | Outcome.outOfFuel => Outcome.outOfFuel
      | Outcome.ok (_, _) => Outcome.thrown "Expected a string as key"
      | Outcome.thrown m => Outcome.thrown m
      | Outcome.outOfFuel => Outcome.outOfFuel
    else
      match p.consumeToken TokenType.RIGHT_BRACE with
      | Outcome.ok p5 => Outcome.ok (JsonNode.object jsonObject, p5)
      | Outcome.thrown m => Outcome.thrown m
      | Outcome.outOfFuel => Outcome.outOfFuel

/-- The `while` loop of `Parser::parseArray` with the two statements after it; `jsonArray` is
the vector built so far. -/
def parseArrayLoop : Nat → List JsonNode → Parser → Outcome (JsonNode × Parser)
  | 0, _, _ => Outcome.outOfFuel
  | fuel + 1, jsonArray, p =>
    if p.currentToken.type ≠ TokenType.RIGHT_BRACKET then
      match parseValue fuel p with
      | Outcome.ok (value, p1) =>
        match p1.skipComma with
        | Outcome.ok p2 => parseArrayLoop fuel (jsonArray ++ [value]) p2
        | Outcome.thrown m => Outcome.thrown m
        | Outcome.outOfFuel => Outcome.outOfFuel
      | Outcome.thrown m => Outcome.thrown m
      | Outcome.outOfFuel => Outcome.outOfFuel
    else
      match p.consumeToken TokenType.RIGHT_BRACKET with
      | Outcome.ok p3 => Outcome.ok (JsonNode.array jsonArray, p3)
      | Outcome.thrown m => Outcome.thrown m
      | Outcome.outOfFuel => Outcome.outOfFuel

end

/-- The source's `Parser::parse` on the text `input`, with the root node as result.  Every call
of `parseValue` consumes a token and is entered through at most one loop iteration, so
`2 * input.length + 2` bounds the depth of the calls. -/
def parse (input : List Char) : Outcome JsonNode :=
  match (Lexer.mk input 0).nextToken with
  | Outcome.ok (token, lexer) =>
    match parseValue (2 * input.length + 2) { lexer := lexer, currentToken := token } with
    | Outcome.ok (node, _) => Outcome.ok node
    | Outcome.thrown m => Outcome.thrown m
    | Outcome.outOfFuel => Outcome.outOfFuel
  | Outcome.thrown m => Outcome.thrown m
  | Outcome.outOfFuel => Outcome.outOfFuel

/-- The source's `JsonNode::operator[](const string&)`. -/
def JsonNode.member (node : JsonNode) (key : List Char) : Outcome JsonNode :=
  match node with
  | JsonNode.object members =>
    match members.lookup key with
    | some value => Outcome.ok value
    | none => Outcome.thrown "Key not found in JSON object"
  | _ => Outcome.thrown "Key not found in JSON object"

/-- The inner loop of `loadExternalData`: every speed is appended to `enemySpeeds` as a pair;
`get<double>` throws on a node that is not a number. -/
def readEnemySpeeds : List JsonNode → List (ℚ × ℚ) → Outcome (List (ℚ × ℚ))
  | [], enemySpeeds => Outcome.ok enemySpeeds
  | JsonNode.number speed :: rest, enemySpeeds =>
    readEnemySpeeds rest (enemySpeeds ++ [(speed, speed)])
  | _ :: _, _ => Outcome.thrown "bad variant access"

/-- The outer loop of `loadExternalData` over the entries of the `levels` map. -/
def readLevels : List (List Char × JsonNode) → Game → Outcome Game
  | [], g => Outcome.ok g
  | (name, node) :: rest, g =>
    let g1 := { g with levels := g.levels ++ [String.mk name] }
    match node.member "enemies".toList with
    | Outcome.ok enemiesNode =>
      match enemiesNode.member "speed".toList with
      | Outcome.ok (JsonNode.array enemySpeedsArray) =>
        match readEnemySpeeds enemySpeedsArray g1.enemySpeeds with
        | Outcome.ok enemySpeeds => readLevels rest { g1 with enemySpeeds := enemySpeeds }
        | Outcome.thrown m => Outcome.thrown m
        | Outcome.outOfFuel => Outcome.outOfFuel
      | Outcome.ok _ => Outcome.thrown "Expected an array of enemy speeds"
      | Outcome.thrown m => Outcome.thrown m
      | Outcome.outOfFuel => Outcome.outOfFuel
    | Outcome.thrown m => Outcome.thrown m
    | Outcome.outOfFuel => Outcome.outOfFuel

/-- The part of `loadExternalData` before the call of `loadBitmap`: the text `config` of the
configuration file is parsed and `levels` and `enemySpeeds` are filled. -/
def readConfig (config : List Char) (g : Game) : Outcome Game :=
  match parse config with
  | Outcome.ok root =>
    match root.member "levels".toList with
    | Outcome.ok (JsonNode.object _levels) => readLevels _levels g
    | Outcome.ok _ => Outcome.thrown "Expected an array of levels"
    | Outcome.thrown m => Outcome.thrown m
    | Outcome.outOfFuel => Outcome.outOfFuel
  | Outcome.thrown m => Outcome.thrown m
  | Outcome.outOfFuel => Outcome.outOfFuel

/-- The source's `loadExternalData` on the text `config` of the configuration file.  A failed
`loadBitmap` and the read of `levels[0]` from an empty list count as thrown. -/
def loadExternalData (files : String → Option Image) (config : List Char) (g : Game) :
    Outcome Game :=
  match readConfig config g with
  | Outcome.ok g1 =>
    match g1.levels[0]? with
    | some filepath =>
      match loadBitmap files filepath g1 with
      | some g2 => Outcome.ok g2
      | none => Outcome.thrown "Failed to load bitmap"
    | none => Outcome.thrown "no level"
  | Outcome.thrown m => Outcome.thrown m
  | Outcome.outOfFuel => Outcome.outOfFuel

/-- The value of a computation that did not throw. -/
def Outcome.toOption {α : Type} : Outcome α → Option α
  | Outcome.ok a => some a
  | _ => none

/-- What the parser has still to read: the number of characters after the position of the
lexer, plus one for a current token other than `END_OF_FILE`. -/
def Parser.remaining (p : Parser) : Nat :=
  (p.lexer.input.length - p.lexer.position) +
    (if p.currentToken.type = TokenType.END_OF_FILE then 0 else 1)

/-- The entries of a map are in strictly ascending order of their keys. -/
def SortedMembers (members : List (List Char × JsonNode)) : Prop :=
  members.Pairwise (fun a c => keyLt a.1 c.1 = true)

/-- If the node is an object, its map is in key order and so is the map of every object among
its values. -/
def KeyOrdered (node : JsonNode) : Prop :=
  ∀ members, node = JsonNode.object members →
    SortedMembers members ∧
    ∀ kv ∈ members, ∀ inner, kv.2 = JsonNode.object inner → SortedMembers inner

/-- The text `{"levels": {"b.png": {"enemies": {"speed": []}}, "a.png": {"enemies": {"speed": []}}}}`:
the key `b.png` is written first. -/
def configBA : List Char :=
  ("\x7b\"levels\": \x7b\"b.png\": \x7b\"enemies\": \x7b\"speed\": []\x7d\x7d, " ++
    "\"a.png\": \x7b\"enemies\": \x7b\"speed\": []\x7d\x7d\x7d\x7d").toList

/-- The text `{"levels": {"a.png": {"enemies": {"speed": [1]}}, "b.png": {"enemies": {"speed": [2]}}}}`. -/
def configSpeeds : List Char :=
  ("\x7b\"levels\": \x7b\"a.png\": \x7b\"enemies\": \x7b\"speed\": [1]\x7d\x7d, " ++
    "\"b.png\": \x7b\"enemies\": \x7b\"speed\": [2]\x7d\x7d\x7d\x7d").toList

/-- A 2x1 level: the player pixel (0,0) and one enemy pixel (1,0). -/
def enemyImage : Image := { width := 2, height := 1, data := [0, 0, 255, 255, 0, 0] }

/-- A decoder that returns `enemyImage` for every path. -/
def enemyFiles : String → Option Image := fun _ => some enemyImage

/-- The game after `loadExternalData` on `configSpeeds` and then the load of level 1 that
`handleCollision` performs at a checkpoint: `loadBitmap(levels[++currentLevel])`. -/
def secondLevelLoaded : Option Game :=
  match loadExternalData enemyFiles configSpeeds (startGame []) with
  | Outcome.ok g1 =>
    match g1.levels[g1.currentLevel + 1]? with
    | some filepath => loadBitmap enemyFiles filepath { g1 with currentLevel := g1.currentLevel + 1 }
    | none => none
  | _ => none

/-! ## Further notions for the segmentation statements -/

/-- The inner `while` loop of the run extraction with the `visited` bookkeeping removed: the
loop state is `(x, maxX)`. -/
def extendRunPlain (img : Image) (r g b : Nat) (y : Nat) : Nat → Nat → Nat → Nat × Nat
  | 0, x, maxX => (x, maxX)
  | fuel + 1, x, maxX =>
    if x < img.width ∧ pixelMatches img r g b x y = true then
      extendRunPlain img r g b y fuel (x + 1) x
    else (x, maxX)

/-- The loop over the columns of row `y` with the `visited` bookkeeping removed. -/
def scanRowPlain (img : Image) (r g b : Nat) (xScale yScale : ℚ) (y : Nat) :
    Nat → Nat → List Object → List Object
  | 0, _, tmpObjects => tmpObjects
  | fuel + 1, x, tmpObjects =>
    if x < img.width then
      if pixelMatches img r g b x y = true then
        let minX := x
        let minY := y
        let maxY := y
        let res := extendRunPlain img r g b y img.width x x
        let maxX := res.2
        let object : Object :=
          ⟨(minX : ℚ) * xScale, (minY : ℚ) * yScale,
            (((maxX : ℤ) - (minX : ℤ) + 1 : ℤ) : ℚ) * xScale,
            (((maxY : ℤ) - (minY : ℤ) + 1 : ℤ) : ℚ) * yScale⟩
        scanRowPlain img r g b xScale yScale y fuel (res.1 + 1) (tmpObjects ++ [object])
      else
        scanRowPlain img r g b xScale yScale y fuel (x + 1) tmpObjects
    else tmpObjects

/-- The loop over the rows, last row first, with the `visited` bookkeeping removed. -/
def scanRowsPlain (img : Image) (r g b : Nat) (xScale yScale : ℚ) :
    Nat → List Object → List Object
  | 0, tmpObjects => tmpObjects
  | k + 1, tmpObjects =>
    scanRowsPlain img r g b xScale yScale k
      (scanRowPlain img r g b xScale yScale k img.width 0 tmpObjects)

/-- The run extraction pass with the `visited` bookkeeping removed. -/
def extractRunsPlain (img : Image) (r g b : Nat) : List Object :=
  scanRowsPlain img r g b (xScaleOf img) (yScaleOf img) img.height []

/-- The columns `x0 .. x0 + wd - 1` of row `y` are a maximal horizontal run of matching pixels:
they all match, and neither the pixel before nor the pixel after them is a matching pixel of the
row. -/
def IsMaximalRun (img : Image) (r g b : Nat) (y x0 wd : Nat) : Prop :=
  1 ≤ wd ∧ (∀ j, x0 ≤ j → j < x0 + wd → Matching img r g b j y) ∧
  ¬ Matching img r g b (x0 + wd) y ∧ (∀ j, j + 1 = x0 → ¬ Matching img r g b j y)

/-- A 1x3 image whose pixels (0,0) and (0,2) have the colour (7,7,7); pixel (0,1) is black. -/
def twoRowsImage : Image := { width := 1, height := 3, data := [7, 7, 7, 0, 0, 0, 7, 7, 7] }

/-- A 4x2 image whose pixels (0,0), (2,0) and (2,1) have the colour (7,7,7): a single pixel on
the left and a column of two on the right, both starting in row 0. -/
def hookImage : Image :=
  { width := 4, height := 2,
    data := [7, 7, 7, 0, 0, 0, 7, 7, 7, 0, 0, 0, 0, 0, 0, 0, 0, 0, 7, 7, 7, 0, 0, 0] }

/-- The order in which the merge pass keeps its rectangles: `a` stands before `c` when `a` ends
in a lower row than `c`, or in the same row and to the left of `c`. -/
def Before (a c : PRect) : Prop :=
  c.y0 + c.ht ≤ a.y0 + a.ht ∧ (c.y0 + c.ht = a.y0 + a.ht → a.x0 + a.wd ≤ c.x0)

/-- The order invariant of the merge pass. -/
structure OrderInv (acc rest : List PRect) : Prop where
  accSorted : acc.Pairwise Before
  cross : ∀ a ∈ acc, ∀ o ∈ rest, Before a o
  restSorted : rest.Pairwise Before

/-- A 2x3 image in which the pixels (0,0), (0,1), (1,1) and (0,2) have the colour (7,7,7): a
column of three with one pixel attached to the right of its middle. -/
def tShapeImage : Image :=
  { width := 2, height := 3,
    data := [7, 7, 7, 0, 0, 0, 7, 7, 7, 7, 7, 7, 7, 7, 7, 0, 0, 0] }

/-- Every row of the pixel rectangle `c` is a whole maximal horizontal run: in each of its rows
neither the pixel before it nor the pixel after it is a matching pixel. -/
def RunAligned (img : Image) (r g b : Nat) (c : PRect) : Prop :=
  ∀ py, c.y0 ≤ py → py < c.y0 + c.ht →
    (¬ Matching img r g b (c.x0 + c.wd) py ∧ ∀ j, j + 1 = c.x0 → ¬ Matching img r g b j py)

/-- The pixel rectangles `cs` are non-empty, pairwise non-overlapping, and cover exactly the
pixels of the image that have the target colour. -/
def ExactCover (img : Image) (r g b : Nat) (cs : List PRect) : Prop :=
  cs.Pairwise PDisjoint ∧ (∀ c ∈ cs, 1 ≤ c.wd ∧ 1 ≤ c.ht) ∧
  ∀ px py, (∃ c ∈ cs, c.covers px py) ↔
    (px < img.width ∧ py < img.height ∧ pixelMatches img r g b px py = true)

/-- A 3x1 image whose three pixels all have the colour (7,7,7). -/
def thirdsImage : Image := { width := 3, height := 1, data := [7, 7, 7, 7, 7, 7, 7, 7, 7] }

/-- An 801x1 image whose pixel (0,0) has the colour (7,7,7); every other pixel is black. -/
def wideImage : Image := { width := 801, height := 1, data := [7, 7, 7] ++ List.replicate 2400 0 }

/-! ## Float arithmetic

The `float` type of the source is IEEE binary32.  A `float` value is embedded as the rational
it denotes; every sum and difference is rounded on its own, to nearest with ties to even, as a
compiler does that evaluates `float` expressions in `float` precision.  Comparisons, `min`,
`max`, negation and assignment are exact.  Infinities and NaN are not embedded. -/

/-- The power `2 ^ e` for an integer exponent. -/
def F32.pow2 (e : ℤ) : ℚ :=
  if 0 ≤ e then ((2 ^ e.toNat : ℕ) : ℚ) else 1 / ((2 ^ (-e).toNat : ℕ) : ℚ)

/-- The number of halvings that take `n` below 2, with at most `fuel` of them. -/
def F32.log2Aux : ℕ → ℕ → ℕ
  | 0, _ => 0
  | fuel + 1, n => if n < 2 then 0 else F32.log2Aux fuel (n / 2) + 1

/-- The binary logarithm of a natural number other than zero, rounded down. -/
def F32.log2 (n : ℕ) : ℕ := F32.log2Aux n n

/-- The binary exponent of a rational other than zero: the `e` with `2 ^ e ≤ |q| < 2 ^ (e + 1)`. -/
def F32.exponent (q : ℚ) : ℤ :=
  let e0 : ℤ := (F32.log2 q.num.natAbs : ℤ) - (F32.log2 q.den : ℤ)
  if F32.pow2 e0 ≤ |q| then e0 else e0 - 1

/-- Rounding to the nearest integer, a tie going to the even one. -/
def F32.roundHalfEven (k : ℚ) : ℤ :=
  if k - ⌊k⌋ < 1 / 2 then ⌊k⌋
  else if 1 / 2 < k - ⌊k⌋ then ⌊k⌋ + 1
  else if ⌊k⌋ % 2 = 0 then ⌊k⌋ else ⌊k⌋ + 1

/-- The distance between neighbouring binary32 numbers around `q`: 24 significant bits, and the
fixed spacing `2 ^ (-149)` below the smallest normal number `2 ^ (-126)`. -/
def F32.ulp (q : ℚ) : ℚ := F32.pow2 (max (F32.exponent q) (-126) - 23)

/-- The binary32 number nearest to `q` (round to nearest, ties to even).  The overflow of
results beyond the largest finite binary32 number is not part of the embedding. -/
def F32.round (q : ℚ) : ℚ :=
  if q = 0 then 0 else (F32.roundHalfEven (q / F32.ulp q) : ℚ) * F32.ulp q

/-- The `float` sum `a + b`. -/
def F32.add (a b : ℚ) : ℚ := F32.round (a + b)

/-- The `float` difference `a - b`. -/
def F32.sub (a b : ℚ) : ℚ := F32.round (a - b)

/-- The local `overlapX` of `getCollisionDirection`, in `float` arithmetic. -/
def F32.overlapX (player object : Object) : ℚ :=
  F32.sub (min (F32.add player.x player.width) (F32.add object.x object.width))
    (max player.x object.x)

/-- The local `overlapY` of `getCollisionDirection`, in `float` arithmetic. -/
def F32.overlapY (player object : Object) : ℚ :=
  F32.sub (min (F32.add player.y player.height) (F32.add object.y object.height))
    (max player.y object.y)

/-- The source's `getCollisionDirection` with every sum and difference rounded to binary32. -/
def F32.getCollisionDirection (player object : Object) : Nat :=
  if F32.add player.y player.height > object.y ∧
      player.y < F32.add object.y object.height then
    if F32.add player.x player.width > object.x ∧
        player.x < F32.add object.x object.width then
      if F32.overlapX player object > F32.overlapY player object then
        if player.y < object.y then 0 ||| Direction.TOP.bits
        else 0 ||| Direction.BOTTOM.bits
      else
        if player.x < object.x then 0 ||| Direction.LEFT.bits
        else 0 ||| Direction.RIGHT.bits
    else 0
  else 0

/-- The body of the platform loop of `handleCollision`, in `float` arithmetic. -/
def F32.resolvePlatform (p0 : Player) (platform : Object) : Player :=
  let direction := F32.getCollisionDirection p0.toObject platform
  let p1 : Player :=
    if direction &&& Direction.TOP.bits ≠ 0 then
      { p0 with y := F32.sub platform.y p0.height, dy := 0, onGround := true }
    else p0
  let p2 : Player :=
    if direction &&& Direction.BOTTOM.bits ≠ 0 then
      { p1 with y := F32.add platform.y platform.height, dy := -p1.dy }
    else p1
  let p3 : Player :=
    if direction &&& Direction.LEFT.bits ≠ 0 then
      { p2 with x := F32.sub platform.x p2.width }
    else p2
  if direction &&& Direction.RIGHT.bits ≠ 0 then
    { p3 with x := F32.add platform.x platform.width }
  else p3

/-- The checkpoint loop of `handleCollision`, in `float` arithmetic (see `checkpointLoop`). -/
def F32.checkpointLoop (files : String → Option Image) : List Object → Game → Option Game
  | [], g => some g
  | checkpoint :: rest, g =>
    if F32.getCollisionDirection g.player.toObject checkpoint ≠ 0 then
      let g1 := { g with currentLevel := g.currentLevel + 1 }
      match g1.levels[g1.currentLevel]? with
      | none => none
      | some filepath =>
        match loadBitmap files filepath g1 with
        | none => none
        | some g2 => F32.checkpointLoop files rest g2
    else F32.checkpointLoop files rest g

/-- The enemy loop of `handleCollision`, in `float` arithmetic. -/
def F32.enemyLoop : List Enemy → Game → Game
  | [], g => g
  | enemy :: rest, g =>
    if F32.getCollisionDirection g.player.toObject enemy.toObject ≠ 0 then
      F32.enemyLoop rest (die g)
    else F32.enemyLoop rest g

/-- The first statement of `handleCollision`, in `float` arithmetic. -/
def F32.fallCheck (g : Game) : Game :=
  if F32.add g.player.y g.player.height > (WINDOW_HEIGHT : ℚ) then die g else g

/-- The second statement of `handleCollision`, in `float` arithmetic. -/
def F32.clampPlayer (g : Game) : Game :=
  if g.player.x < 0 then { g with player := { g.player with x := 0 } }
  else if F32.add g.player.x g.player.width > (WINDOW_WIDTH : ℚ) then
    { g with player := { g.player with x := F32.sub (WINDOW_WIDTH : ℚ) g.player.width } }
  else g

/-- The platform loop of `handleCollision`, in `float` arithmetic. -/
def F32.platformLoop (g : Game) : Game :=
  { g with player := g.platforms.foldl F32.resolvePlatform g.player }

/-- The source's `handleCollision` with every `float` sum and difference rounded to binary32
(round to nearest, ties to even), each operation on its own. -/
def F32.handleCollision (files : String → Option Image) (g : Game) : Option Game :=
  let g3 := F32.platformLoop (F32.clampPlayer (F32.fallCheck g))
  match F32.checkpointLoop files g3.checkpoints g3 with
  | none => none
  | some g4 => some (F32.enemyLoop g4.enemies g4)

/-- The state in which the checkpoint loop of `handleCollision` starts, in `float` arithmetic. -/
def F32.beforeCheckpoints (g : Game) : Game :=
  F32.platformLoop (F32.clampPlayer (F32.fallCheck g))

/-! ## Test data: loaded levels -/

/-- A 1x1 level: the only pixel is the player, who fills the window. -/
def soloImage : Image := { width := 1, height := 1, data := [0, 0, 255] }

/-- A decoder that returns `soloImage` for every path. -/
def soloFiles : String → Option Image := fun _ => some soloImage

/-- The state after `loadBitmap` has loaded `soloImage` at the start of the program. -/
def soloLevel : Game :=
  (loadBitmap soloFiles "solo" (startGame ["solo"])).getD (startGame ["solo"])

/-- The level `soloImage` with the player moved down by the `float` nearest to one fifth, as
the first `updatePlayer` leaves it: the player's bottom edge is below the window. -/
def soloFalling : Game :=
  { soloLevel with
    player := { soloLevel.player with y := F32.round (1 / 5), dy := F32.round (1 / 5) } }

/-- A 1x2 level: the player pixel on top of a platform pixel; each fills half of the window. -/
def towerImage : Image := { width := 1, height := 2, data := [0, 0, 255, 255, 255, 255] }

/-- A decoder that returns `towerImage` for every path. -/
def towerFiles : String → Option Image := fun _ => some towerImage

/-- The state after `loadBitmap` has loaded `towerImage` at the start of the program. -/
def towerLevel : Game :=
  (loadBitmap towerFiles "tower" (startGame ["tower"])).getD (startGame ["tower"])

/-- The level `towerImage` with the player moved down by the `float` nearest to one fifth, as
the first `updatePlayer` leaves it. -/
def towerLanding : Game :=
  { towerLevel with
    player := { towerLevel.player with y := F32.round (1 / 5), dy := F32.round (1 / 5) } }

/-! ## Level segmentation: theorems -/

theorem extendRun_fuel (img : Image) (r g b y minX : Nat) :
    ∀ (f1 f2 x maxX : Nat) (vis : Visited), img.width ≤ x + f1 → img.width ≤ x + f2 →
      extendRun img r g b y minX f1 x maxX vis = extendRun img r g b y minX f2 x maxX vis := by
  intro f1
  induction f1 with
  | zero =>
    intro f2 x maxX vis h1 _
    cases f2 with
    | zero => rfl
    | succ m =>
      rw [extendRun, extendRun, if_neg (fun hc => by have := hc.1; omega)]
  | succ n ih =>
    intro f2 x maxX vis h1 h2
    cases f2 with
    | zero =>
      rw [extendRun, extendRun, if_neg (fun hc => by have := hc.1; omega)]
    | succ m =>
      rw [extendRun, extendRun]
      by_cases hc : x < img.width ∧ pixelMatches img r g b x y = true
      · rw [if_pos hc, if_pos hc]
        exact ih m (x + 1) x _ (by omega) (by omega)
      · rw [if_neg hc, if_neg hc]

theorem extendRun_spec (img : Image) (r g b y minX : Nat) :
    ∀ (fuel x maxX : Nat) (vis : Visited), img.width ≤ x + fuel → maxX ≤ x →
      x ≤ (extendRun img r g b y minX fuel x maxX vis).1 ∧
      (∀ j, x ≤ j → j < (extendRun img r g b y minX fuel x maxX vis).1 →
        Matching img r g b j y) ∧
      ¬ Matching img r g b (extendRun img r g b y minX fuel x maxX vis).1 y ∧
      (x < (extendRun img r g b y minX fuel x maxX vis).1 →
        (extendRun img r g b y minX fuel x maxX vis).2.1 + 1
          = (extendRun img r g b y minX fuel x maxX vis).1) ∧
      ((extendRun img r g b y minX fuel x maxX vis).1 = x →
        (extendRun img r g b y minX fuel x maxX vis).2.1 = maxX) ∧
      (∀ i j, (extendRun img r g b y minX fuel x maxX vis).2.2 i j = true →
        vis i j = true ∨ (i = y ∧ j < (extendRun img r g b y minX fuel x maxX vis).1)) := by
  intro fuel
  induction fuel with
  | zero =>
    intro x maxX vis hfuel _
    refine ⟨le_refl x, ?_, ?_, ?_, ?_, ?_⟩
    · intro j h1 h2
      exact absurd h2 (not_lt.mpr h1)
    · intro hm
      have : x < img.width := hm.1
      omega
    · intro h
      exact absurd h (lt_irrefl x)
    · intro _
      rfl
    · intro i j h
      exact Or.inl h
  | succ f ih =>
    intro x maxX vis hfuel hmax
    by_cases hc : x < img.width ∧ pixelMatches img r g b x y = true
    · have hrec : extendRun img r g b y minX (f + 1) x maxX vis
          = extendRun img r g b y minX f (x + 1) x (markVisited vis minX maxX y y) := by
        rw [extendRun, if_pos hc]
      rw [hrec]
      obtain ⟨h1, h2, h3, h4, h6, h5⟩ := ih (x + 1) x (markVisited vis minX maxX y y)
        (by omega) (by omega)
      refine ⟨by omega, ?_, h3, ?_, ?_, ?_⟩
      · intro j hj1 hj2
        rcases Nat.eq_or_lt_of_le hj1 with rfl | hlt
        · exact hc
        · exact h2 j hlt hj2
      · intro _
        rcases Nat.eq_or_lt_of_le h1 with heq | hlt
        · have hone := h6 heq.symm
          omega
        · exact h4 hlt
      · intro heq
        omega
      · intro i j hv
        rcases h5 i j hv with hm | hm
        · unfold markVisited at hm
          by_cases hbox : y ≤ i ∧ i ≤ y ∧ minX ≤ j ∧ j ≤ maxX
          · right
            exact ⟨by omega, by omega⟩
          · rw [if_neg hbox] at hm
            exact Or.inl hm
        · exact Or.inr hm
    · have hrec : extendRun img r g b y minX (f + 1) x maxX vis = (x, maxX, vis) := by
        rw [extendRun, if_neg hc]
      rw [hrec]
      refine ⟨le_refl x, ?_, hc, ?_, ?_, ?_⟩
      · intro j h1 h2
        exact absurd h2 (not_lt.mpr h1)
      · intro h
        exact absurd h (lt_irrefl x)
      · intro _
        rfl
      · intro i j h
        exact Or.inl h

theorem rowRuns_nil (img : Image) (r g b y x : Nat) (h : img.width ≤ x) :
    RowRuns img r g b y x [] where
  shape := fun a ha => by cases ha
  sound := fun a ha => by cases ha
  rightMax := fun a ha => by cases ha
  sorted := List.Pairwise.nil
  complete := fun j hj hm => by
    have : j < img.width := hm.1
    omega

theorem emitted_object_eq (sx sy : ℚ) (x y e maxX : Nat) (hxe : x < e) (hmax : maxX + 1 = e) :
    (⟨(x : ℚ) * sx, (y : ℚ) * sy, (((maxX : ℤ) - (x : ℤ) + 1 : ℤ) : ℚ) * sx,
      (((y : ℤ) - (y : ℤ) + 1 : ℤ) : ℚ) * sy⟩ : Object)
      = PRect.toObject sx sy ⟨x, y, e - x, 1⟩ := by
  have h1 : ((maxX : ℤ) - (x : ℤ) + 1 : ℤ) = ((e - x : ℕ) : ℤ) := by omega
  have h2 : ((y : ℤ) - (y : ℤ) + 1 : ℤ) = ((1 : ℕ) : ℤ) := by omega
  unfold PRect.toObject
  rw [h1, h2, Int.cast_natCast, Int.cast_natCast]

theorem scanRow_spec (img : Image) (r g b : Nat) (sx sy : ℚ) (y : Nat) :
    ∀ (fuel x : Nat) (vis : Visited) (acc : List Object), img.width ≤ x + fuel →
      (∀ i j, vis i j = true → y < i ∨ (i = y ∧ j < x)) →
      ∃ runs : List PRect,
        (scanRow img r g b sx sy y fuel x vis acc).2 = acc ++ runs.map (PRect.toObject sx sy) ∧
        RowRuns img r g b y x runs ∧
        (∀ i j, (scanRow img r g b sx sy y fuel x vis acc).1 i j = true → y ≤ i) := by
  intro fuel
  induction fuel with
  | zero =>
    intro x vis acc hfuel hvis
    refine ⟨[], by simp [scanRow], rowRuns_nil img r g b y x (by omega), ?_⟩
    intro i j h
    rcases hvis i j h with h1 | h1 <;> omega
  | succ f ih =>
    intro x vis acc hfuel hvis
    by_cases hx : x < img.width
    · have hv : ¬ vis y x = true := by
        intro h
        rcases hvis y x h with h1 | h1 <;> omega
      by_cases hm : pixelMatches img r g b x y = true
      · obtain ⟨e1, e2, e3, e4, _, e5⟩ :=
          extendRun_spec img r g b y x img.width x x vis (by omega) (le_refl x)
        generalize hres : extendRun img r g b y x img.width x x vis = res at e1 e2 e3 e4 e5
        have hxe : x < res.1 := by
          rcases Nat.eq_or_lt_of_le e1 with heq | hlt
          · rw [← heq] at e3
            exact absurd ⟨hx, hm⟩ e3
          · exact hlt
        have hstep : scanRow img r g b sx sy y (f + 1) x vis acc
            = scanRow img r g b sx sy y f (res.1 + 1) res.2.2
                (acc ++ [PRect.toObject sx sy ⟨x, y, res.1 - x, 1⟩]) := by
          rw [scanRow, if_pos hx, if_neg hv, if_pos hm]
          simp only [hres]
          rw [emitted_object_eq sx sy x y res.1 res.2.1 hxe (e4 hxe)]
        obtain ⟨runs, hr1, hr2, hr3⟩ := ih (res.1 + 1) res.2.2
          (acc ++ [PRect.toObject sx sy ⟨x, y, res.1 - x, 1⟩]) (by omega) (by
            intro i j h
            rcases e5 i j h with h1 | h1
            · rcases hvis i j h1 with h2 | h2
              · exact Or.inl h2
              · exact Or.inr ⟨h2.1, by omega⟩
            · exact Or.inr ⟨h1.1, by omega⟩)
        refine ⟨⟨x, y, res.1 - x, 1⟩ :: runs, ?_, ?_, ?_⟩
        · rw [hstep, hr1, List.append_assoc]
          rfl
        · constructor
          · intro a ha
            rcases List.mem_cons.mp ha with rfl | ha
            · exact ⟨rfl, rfl, le_refl x, by show 1 ≤ res.1 - x; omega⟩
            · obtain ⟨s1, s2, s3, s4⟩ := hr2.shape a ha
              exact ⟨s1, s2, by omega, s4⟩
          · intro a ha j hj1 hj2
            rcases List.mem_cons.mp ha with rfl | ha
            · exact e2 j hj1 (by
                have : j < x + (res.1 - x) := hj2
                omega)
            · exact hr2.sound a ha j hj1 hj2
          · intro a ha
            rcases List.mem_cons.mp ha with rfl | ha
            · have : x + (res.1 - x) = res.1 := by omega
              show ¬ Matching img r g b (x + (res.1 - x)) y
              rw [this]
              exact e3
            · exact hr2.rightMax a ha
          · refine List.Pairwise.cons ?_ hr2.sorted
            intro c hc
            have := (hr2.shape c hc).2.2.1
            show x + (res.1 - x) ≤ c.x0
            omega
          · intro j hj hmj
            by_cases hlt : j < res.1
            · exact ⟨⟨x, y, res.1 - x, 1⟩, List.mem_cons_self _ _, hj, by
                show j < x + (res.1 - x)
                omega⟩
            · have hne : j ≠ res.1 := by
                intro heq
                rw [heq] at hmj
                exact e3 hmj
              obtain ⟨a, ha, h1, h2⟩ := hr2.complete j (by omega) hmj
              exact ⟨a, List.mem_cons_of_mem _ ha, h1, h2⟩
        · rw [hstep]
          exact hr3
      · have hstep : scanRow img r g b sx sy y (f + 1) x vis acc
            = scanRow img r g b sx sy y f (x + 1) vis acc := by
          rw [scanRow, if_pos hx, if_neg hv, if_neg hm]
        obtain ⟨runs, hr1, hr2, hr3⟩ := ih (x + 1) vis acc (by omega) (by
            intro i j h
            rcases hvis i j h with h2 | h2
            · exact Or.inl h2
            · exact Or.inr ⟨h2.1, by omega⟩)
        refine ⟨runs, by rw [hstep, hr1], ?_, by rw [hstep]; exact hr3⟩
        constructor
        · intro a ha
          obtain ⟨s1, s2, s3, s4⟩ := hr2.shape a ha
          exact ⟨s1, s2, by omega, s4⟩
        · exact hr2.sound
        · exact hr2.rightMax
        · exact hr2.sorted
        · intro j hj hmj
          have hne : j ≠ x := by
            intro heq
            rw [heq] at hmj
            exact hm hmj.2
          exact hr2.complete j (by omega) hmj
    · have hstep : scanRow img r g b sx sy y (f + 1) x vis acc = (vis, acc) := by
        rw [scanRow, if_neg hx]
      refine ⟨[], by rw [hstep]; simp, rowRuns_nil img r g b y x (by omega), ?_⟩
      intro i j h
      rw [hstep] at h
      rcases hvis i j h with h1 | h1 <;> omega

theorem scanRow_fuel (img : Image) (r g b : Nat) (sx sy : ℚ) (y : Nat) :
    ∀ (f1 f2 x : Nat) (vis : Visited) (acc : List Object),
      img.width ≤ x + f1 → img.width ≤ x + f2 →
      scanRow img r g b sx sy y f1 x vis acc = scanRow img r g b sx sy y f2 x vis acc := by
  intro f1
  induction f1 with
  | zero =>
    intro f2 x vis acc h1 _
    cases f2 with
    | zero => rfl
    | succ m => rw [scanRow, scanRow, if_neg (by omega)]
  | succ n ih =>
    intro f2 x vis acc h1 h2
    cases f2 with
    | zero => rw [scanRow, scanRow, if_neg (by omega)]
    | succ m =>
      rw [scanRow, scanRow]
      by_cases hx : x < img.width
      · rw [if_pos hx, if_pos hx]
        by_cases hv : vis y x = true
        · rw [if_pos hv, if_pos hv]
          exact ih m (x + 1) vis acc (by omega) (by omega)
        · rw [if_neg hv, if_neg hv]
          by_cases hm : pixelMatches img r g b x y = true
          · rw [if_pos hm, if_pos hm]
            have hge := (extendRun_spec img r g b y x img.width x x vis (by omega) (le_refl x)).1
            exact ih m _ _ _ (by omega) (by omega)
          · rw [if_neg hm, if_neg hm]
            exact ih m (x + 1) vis acc (by omega) (by omega)
      · rw [if_neg hx, if_neg hx]

theorem scanRows_spec (img : Image) (r g b : Nat) (sx sy : ℚ) :
    ∀ (k : Nat) (vis : Visited) (acc : List Object),
      (∀ i j, vis i j = true → k ≤ i) →
      ∃ runs : List PRect,
        (scanRows img r g b sx sy k vis acc).2 = acc ++ runs.map (PRect.toObject sx sy) ∧
        ImageRuns img r g b k runs := by
  intro k
  induction k with
  | zero =>
    intro vis acc _
    refine ⟨[], by simp [scanRows], ?_⟩
    constructor
    · intro a ha; cases ha
    · intro a ha; cases ha
    · intro a ha; cases ha
    · exact List.Pairwise.nil
    · intro px py hpy; omega
  | succ k ih =>
    intro vis acc hvis
    obtain ⟨row, hrow1, hrow2, hrow3⟩ := scanRow_spec img r g b sx sy k img.width 0 vis acc
      (by omega) (by
        intro i j h
        have := hvis i j h
        left; omega)
    obtain ⟨rest, hrest1, hrest2⟩ := ih (scanRow img r g b sx sy k img.width 0 vis acc).1
      (scanRow img r g b sx sy k img.width 0 vis acc).2 hrow3
    refine ⟨row ++ rest, ?_, ?_⟩
    · rw [scanRows, hrest1, hrow1, List.map_append, List.append_assoc]
    · constructor
      · intro a ha
        rcases List.mem_append.mp ha with ha | ha
        · obtain ⟨s1, s2, _, s4⟩ := hrow2.shape a ha
          exact ⟨by omega, s2, s4⟩
        · obtain ⟨s1, s2, s3⟩ := hrest2.shape a ha
          exact ⟨by omega, s2, s3⟩
      · intro a ha j hj1 hj2
        rcases List.mem_append.mp ha with ha | ha
        · rw [(hrow2.shape a ha).1]
          exact hrow2.sound a ha j hj1 hj2
        · exact hrest2.sound a ha j hj1 hj2
      · intro a ha
        rcases List.mem_append.mp ha with ha | ha
        · rw [(hrow2.shape a ha).1]
          exact hrow2.rightMax a ha
        · exact hrest2.rightMax a ha
      · rw [List.pairwise_append]
        refine ⟨?_, hrest2.sorted, ?_⟩
        · refine List.Pairwise.imp_of_mem ?_ hrow2.sorted
          intro a c ha hc hac
          have h1 := (hrow2.shape a ha).1
          have h2 := (hrow2.shape c hc).1
          exact ⟨by omega, fun _ => hac⟩
        · intro a ha c hc
          have h1 := (hrow2.shape a ha).1
          have h2 := (hrest2.shape c hc).1
          exact ⟨by omega, fun h => by omega⟩
      · intro px py hpy hm
        by_cases hk : py = k
        · subst hk
          obtain ⟨a, ha, h1, h2⟩ := hrow2.complete px (Nat.zero_le px) hm
          exact ⟨a, List.mem_append_left _ ha, (hrow2.shape a ha).1, h1, h2⟩
        · obtain ⟨a, ha, h0, h1, h2⟩ := hrest2.complete px py (by omega) hm
          exact ⟨a, List.mem_append_right _ ha, h0, h1, h2⟩

theorem extractRuns_spec (img : Image) (r g b : Nat) :
    ∃ runs : List PRect,
      extractRuns img r g b = runs.map (PRect.toObject (xScaleOf img) (yScaleOf img)) ∧
      ImageRuns img r g b img.height runs := by
  obtain ⟨runs, h1, h2⟩ := scanRows_spec img r g b (xScaleOf img) (yScaleOf img) img.height
    (fun _ _ => false) [] (by intro i j h; cases h)
  exact ⟨runs, by rw [extractRuns, h1, List.nil_append], h2⟩

theorem scaled_eq_iff (s : ℚ) (hs : 0 < s) (m n : Nat) :
    (m : ℚ) * s = (n : ℚ) * s ↔ m = n := by
  rw [mul_left_inj' (ne_of_gt hs), Nat.cast_inj]

theorem scaled_add_eq_iff (s : ℚ) (hs : 0 < s) (m k n : Nat) :
    (m : ℚ) * s + (k : ℚ) * s = (n : ℚ) * s ↔ m + k = n := by
  rw [← add_mul, ← Nat.cast_add, scaled_eq_iff s hs]

theorem toObject_vadj (sx sy : ℚ) (hsx : 0 < sx) (hsy : 0 < sy) (o p : PRect) :
    ((PRect.toObject sx sy o).x = (PRect.toObject sx sy p).x ∧
      (PRect.toObject sx sy o).width = (PRect.toObject sx sy p).width ∧
      (PRect.toObject sx sy o).y + (PRect.toObject sx sy o).height
        = (PRect.toObject sx sy p).y) ↔ VAdj o p := by
  unfold PRect.toObject VAdj
  simp only
  rw [scaled_eq_iff sx hsx, scaled_eq_iff sx hsx, scaled_add_eq_iff sy hsy]

theorem toObject_hadj (sx sy : ℚ) (hsx : 0 < sx) (hsy : 0 < sy) (o p : PRect) :
    ((PRect.toObject sx sy o).y = (PRect.toObject sx sy p).y ∧
      (PRect.toObject sx sy o).height = (PRect.toObject sx sy p).height ∧
      (PRect.toObject sx sy o).x + (PRect.toObject sx sy o).width
        = (PRect.toObject sx sy p).x) ↔ HAdj o p := by
  unfold PRect.toObject HAdj
  simp only
  rw [scaled_eq_iff sy hsy, scaled_eq_iff sy hsy, scaled_add_eq_iff sx hsx]

theorem toObject_vFuse (sx sy : ℚ) (o p : PRect) :
    ({ PRect.toObject sx sy p with
        y := (PRect.toObject sx sy o).y,
        height := (PRect.toObject sx sy p).height + (PRect.toObject sx sy o).height } : Object)
      = PRect.toObject sx sy (vFuse o p) := by
  unfold PRect.toObject vFuse
  simp only [Object.mk.injEq, true_and, and_true]
  push_cast
  ring

theorem toObject_hFuse (sx sy : ℚ) (o p : PRect) :
    ({ PRect.toObject sx sy p with
        x := (PRect.toObject sx sy o).x,
        width := (PRect.toObject sx sy p).width + (PRect.toObject sx sy o).width } : Object)
      = PRect.toObject sx sy (hFuse o p) := by
  unfold PRect.toObject hFuse
  simp only [Object.mk.injEq, true_and, and_true]
  push_cast
  ring

theorem tryMerge_map (sx sy : ℚ) (hsx : 0 < sx) (hsy : 0 < sy) (o : PRect) (acc : List PRect) :
    tryMerge (PRect.toObject sx sy o) (acc.map (PRect.toObject sx sy))
      = (ptryMerge o acc).map (List.map (PRect.toObject sx sy)) := by
  induction acc with
  | nil => rfl
  | cons p rest ih =>
    rw [List.map_cons, tryMerge, ptryMerge]
    by_cases hv : VAdj o p
    · rw [if_pos ((toObject_vadj sx sy hsx hsy o p).mpr hv), if_pos hv, toObject_vFuse]
      rfl
    · rw [if_neg (fun h => hv ((toObject_vadj sx sy hsx hsy o p).mp h)), if_neg hv]
      by_cases hh : HAdj o p
      · rw [if_pos ((toObject_hadj sx sy hsx hsy o p).mpr hh), if_pos hh, toObject_hFuse]
        rfl
      · rw [if_neg (fun h => hh ((toObject_hadj sx sy hsx hsy o p).mp h)), if_neg hh, ih]
        cases ptryMerge o rest <;> rfl

theorem mergePass_map (sx sy : ℚ) (hsx : 0 < sx) (hsy : 0 < sy) (runs acc : List PRect) :
    mergePass (runs.map (PRect.toObject sx sy)) (acc.map (PRect.toObject sx sy))
      = (pmergePass runs acc).map (PRect.toObject sx sy) := by
  induction runs generalizing acc with
  | nil => rfl
  | cons o rest ih =>
    rw [List.map_cons, mergePass, pmergePass, tryMerge_map sx sy hsx hsy]
    cases h : ptryMerge o acc with
    | none =>
      simp only [Option.map_none']
      have := ih (acc ++ [o])
      rw [List.map_append] at this
      exact this
    | some merged =>
      simp only [Option.map_some']
      exact ih merged

theorem ptryMerge_none (o : PRect) (acc : List PRect) (h : ptryMerge o acc = none) :
    ∀ q ∈ acc, ¬ VAdj o q ∧ ¬ HAdj o q := by
  induction acc with
  | nil => intro q hq; cases hq
  | cons p rest ih =>
    rw [ptryMerge] at h
    by_cases hv : VAdj o p
    · rw [if_pos hv] at h; cases h
    · rw [if_neg hv] at h
      by_cases hh : HAdj o p
      · rw [if_pos hh] at h; cases h
      · rw [if_neg hh] at h
        have hrest : ptryMerge o rest = none := by
          cases hr : ptryMerge o rest with
          | none => rfl
          | some l => rw [hr] at h; cases h
        intro q hq
        rcases List.mem_cons.mp hq with rfl | hq
        · exact ⟨hv, hh⟩
        · exact ih hrest q hq

theorem ptryMerge_some (o : PRect) (acc acc' : List PRect) (h : ptryMerge o acc = some acc') :
    ∃ pre p post p', acc = pre ++ p :: post ∧ acc' = pre ++ p' :: post ∧ Fused o p p' := by
  induction acc generalizing acc' with
  | nil => cases h
  | cons p rest ih =>
    rw [ptryMerge] at h
    by_cases hv : VAdj o p
    · rw [if_pos hv] at h
      cases h
      exact ⟨[], p, rest, vFuse o p, rfl, rfl, Or.inl ⟨hv, rfl⟩⟩
    · rw [if_neg hv] at h
      by_cases hh : HAdj o p
      · rw [if_pos hh] at h
        cases h
        exact ⟨[], p, rest, hFuse o p, rfl, rfl, Or.inr ⟨hh, rfl⟩⟩
      · rw [if_neg hh] at h
        cases hr : ptryMerge o rest with
        | none => rw [hr] at h; cases h
        | some l =>
          rw [hr] at h
          cases h
          obtain ⟨pre, q, post, q', h1, h2, h3⟩ := ih l hr
          exact ⟨p :: pre, q, post, q', by rw [h1]; rfl, by rw [h2]; rfl, h3⟩

theorem covers_fused (o p p' : PRect) (h : Fused o p p') (px py : Nat) :
    p'.covers px py ↔ (o.covers px py ∨ p.covers px py) := by
  rcases h with ⟨⟨h1, h2, h3⟩, rfl⟩ | ⟨⟨h1, h2, h3⟩, rfl⟩
  · unfold PRect.covers vFuse
    simp only
    omega
  · unfold PRect.covers hFuse
    simp only
    omega

theorem pairwise_replace {α : Type} (R : α → α → Prop) (pre post : List α) (p p' : α)
    (h : (pre ++ p :: post).Pairwise R)
    (h1 : ∀ q ∈ pre, R q p → R q p') (h2 : ∀ q ∈ post, R p q → R p' q) :
    (pre ++ p' :: post).Pairwise R := by
  rw [List.pairwise_append, List.pairwise_cons] at h ⊢
  obtain ⟨hpre, ⟨hp, hpost⟩, hcross⟩ := h
  refine ⟨hpre, ⟨fun q hq => h2 q hq (hp q hq), hpost⟩, ?_⟩
  intro a ha c hc
  rcases List.mem_cons.mp hc with rfl | hc
  · exact h1 a ha (hcross a ha p (List.mem_cons_self _ _))
  · exact hcross a ha c (List.mem_cons_of_mem _ hc)

theorem mem_replace {α : Type} (pre post : List α) (p p' a : α)
    (h : a ∈ pre ++ p' :: post) : a = p' ∨ a ∈ pre ++ p :: post := by
  rcases List.mem_append.mp h with h | h
  · exact Or.inr (List.mem_append_left _ h)
  · rcases List.mem_cons.mp h with h | h
    · exact Or.inl h
    · exact Or.inr (List.mem_append_right _ (List.mem_cons_of_mem _ h))

theorem pmergePass_cover (runs : List PRect) :
    ∀ (acc : List PRect) (px py : Nat),
      (∃ a ∈ pmergePass runs acc, a.covers px py) ↔
        ((∃ a ∈ acc, a.covers px py) ∨ (∃ o ∈ runs, o.covers px py)) := by
  induction runs with
  | nil =>
    intro acc px py
    simp [pmergePass]
  | cons o rest ih =>
    intro acc px py
    rw [pmergePass]
    cases h : ptryMerge o acc with
    | none =>
      simp only
      rw [ih (acc ++ [o]) px py]
      constructor
      · rintro (⟨a, ha, hc⟩ | ⟨a, ha, hc⟩)
        · rcases List.mem_append.mp ha with ha | ha
          · exact Or.inl ⟨a, ha, hc⟩
          · exact Or.inr ⟨a, by rw [List.mem_singleton.mp ha]; exact List.mem_cons_self _ _, hc⟩
        · exact Or.inr ⟨a, List.mem_cons_of_mem _ ha, hc⟩
      · rintro (⟨a, ha, hc⟩ | ⟨a, ha, hc⟩)
        · exact Or.inl ⟨a, List.mem_append_left _ ha, hc⟩
        · rcases List.mem_cons.mp ha with rfl | ha
          · exact Or.inl ⟨a, List.mem_append_right _ (List.mem_singleton.mpr rfl), hc⟩
          · exact Or.inr ⟨a, ha, hc⟩
    | some acc' =>
      simp only
      rw [ih acc' px py]
      obtain ⟨pre, p, post, p', h1, h2, h3⟩ := ptryMerge_some o acc acc' h
      have hcov := covers_fused o p p' h3 px py
      have hp : p ∈ acc := by rw [h1]; exact List.mem_append_right _ (List.mem_cons_self _ _)
      have hp' : p' ∈ acc' := by rw [h2]; exact List.mem_append_right _ (List.mem_cons_self _ _)
      constructor
      · rintro (⟨a, ha, hc⟩ | ⟨a, ha, hc⟩)
        · rw [h2] at ha
          rcases mem_replace pre post p p' a ha with rfl | ha
          · rcases hcov.mp hc with hc | hc
            · exact Or.inr ⟨o, List.mem_cons_self _ _, hc⟩
            · exact Or.inl ⟨p, hp, hc⟩
          · exact Or.inl ⟨a, by rw [h1]; exact ha, hc⟩
        · exact Or.inr ⟨a, List.mem_cons_of_mem _ ha, hc⟩
      · rintro (⟨a, ha, hc⟩ | ⟨a, ha, hc⟩)
        · rw [h1] at ha
          rcases mem_replace pre post p' p a ha with rfl | ha
          · exact Or.inl ⟨p', hp', hcov.mpr (Or.inr hc)⟩
          · exact Or.inl ⟨a, by rw [h2]; exact ha, hc⟩
        · rcases List.mem_cons.mp ha with rfl | ha
          · exact Or.inl ⟨p', hp', hcov.mpr (Or.inl hc)⟩
          · exact Or.inr ⟨a, ha, hc⟩

theorem PDisjoint.symm {a c : PRect} (h : PDisjoint a c) : PDisjoint c a :=
  fun px py hcov => h px py ⟨hcov.2, hcov.1⟩

theorem pmergePass_disjoint (runs : List PRect) :
    ∀ (acc : List PRect), acc.Pairwise PDisjoint → runs.Pairwise PDisjoint →
      (∀ a ∈ acc, ∀ o ∈ runs, PDisjoint a o) →
      (pmergePass runs acc).Pairwise PDisjoint := by
  induction runs with
  | nil =>
    intro acc hacc _ _
    exact hacc
  | cons o rest ih =>
    intro acc hacc hruns hcross
    rw [List.pairwise_cons] at hruns
    obtain ⟨ho, hrest⟩ := hruns
    rw [pmergePass]
    cases h : ptryMerge o acc with
    | none =>
      simp only
      apply ih (acc ++ [o]) _ hrest
      · intro a ha c hc
        rcases List.mem_append.mp ha with ha | ha
        · exact hcross a ha c (List.mem_cons_of_mem _ hc)
        · rw [List.mem_singleton.mp ha]
          exact ho c hc
      · rw [List.pairwise_append]
        refine ⟨hacc, List.pairwise_singleton _ _, ?_⟩
        intro a ha c hc
        rw [List.mem_singleton.mp hc]
        exact hcross a ha o (List.mem_cons_self _ _)
    | some acc' =>
      simp only
      obtain ⟨pre, p, post, p', h1, h2, h3⟩ := ptryMerge_some o acc acc' h
      have hfuse : ∀ q, PDisjoint q p → PDisjoint q o → PDisjoint q p' := by
        intro q hqp hqo px py hcov
        rcases (covers_fused o p p' h3 px py).mp hcov.2 with hc | hc
        · exact hqo px py ⟨hcov.1, hc⟩
        · exact hqp px py ⟨hcov.1, hc⟩
      have hp : p ∈ acc := by rw [h1]; exact List.mem_append_right _ (List.mem_cons_self _ _)
      apply ih acc' _ hrest
      · intro a ha c hc
        rw [h2] at ha
        rcases mem_replace pre post p p' a ha with rfl | ha
        · exact (hfuse c (hcross p hp c (List.mem_cons_of_mem _ hc)).symm (ho c hc).symm).symm
        · exact hcross a (by rw [h1]; exact ha) c (List.mem_cons_of_mem _ hc)
      · rw [h2]
        rw [h1] at hacc
        apply pairwise_replace PDisjoint pre post p p' hacc
        · intro q hq hqp
          exact hfuse q hqp (hcross q (by rw [h1]; exact List.mem_append_left _ hq) o
            (List.mem_cons_self _ _))
        · intro q hq hpq
          exact (hfuse q hpq.symm (hcross q (by
            rw [h1]; exact List.mem_append_right _ (List.mem_cons_of_mem _ hq)) o
            (List.mem_cons_self _ _))).symm

theorem RunList.tail {img : Image} {r g b : Nat} {o : PRect} {rest : List PRect}
    (h : RunList img r g b (o :: rest)) : RunList img r g b rest where
  shape := fun a ha => h.shape a (List.mem_cons_of_mem _ ha)
  sound := fun a ha => h.sound a (List.mem_cons_of_mem _ ha)
  rightMax := fun a ha => h.rightMax a (List.mem_cons_of_mem _ ha)
  sorted := (List.pairwise_cons.mp h.sorted).2

theorem ImageRuns.runList {img : Image} {r g b k : Nat} {runs : List PRect}
    (h : ImageRuns img r g b k runs) : RunList img r g b runs where
  shape := fun a ha => (h.shape a ha).2
  sound := h.sound
  rightMax := h.rightMax
  sorted := h.sorted.imp (fun hac => hac.1)

theorem MergeInv.not_hadj {img : Image} {r g b : Nat} {acc rest : List PRect}
    (h : MergeInv img r g b acc rest) (o q : PRect) (hq : q ∈ acc)
    (hmax : ¬ Matching img r g b (o.x0 + o.wd) o.y0) : ¬ HAdj o q := by
  rintro ⟨h1, _, h3⟩
  have hcov : q.covers q.x0 q.y0 := by
    have := h.pos q hq
    unfold PRect.covers
    omega
  have hm := h.sound q hq q.x0 q.y0 hcov
  rw [← h1, ← h3] at hm
  exact hmax hm

theorem MergeInv.step_none {img : Image} {r g b : Nat} {acc rest : List PRect} {o : PRect}
    (hruns : RunList img r g b (o :: rest)) (h : MergeInv img r g b acc (o :: rest))
    (hnone : ptryMerge o acc = none) : MergeInv img r g b (acc ++ [o]) rest := by
  obtain ⟨hht, hwd⟩ := hruns.shape o (List.mem_cons_self _ _)
  have hso := hruns.sound o (List.mem_cons_self _ _)
  have hmo := hruns.rightMax o (List.mem_cons_self _ _)
  have hbelow := (List.pairwise_cons.mp hruns.sorted).1
  constructor
  · intro a ha
    rcases List.mem_append.mp ha with ha | ha
    · exact h.pos a ha
    · rw [List.mem_singleton.mp ha]
      omega
  · intro a ha px py hcov
    rcases List.mem_append.mp ha with ha | ha
    · exact h.sound a ha px py hcov
    · rw [List.mem_singleton.mp ha] at hcov
      unfold PRect.covers at hcov
      have hpy : py = o.y0 := by omega
      rw [hpy]
      exact hso px hcov.1 hcov.2.1
  · intro a ha py h1 h2
    rcases List.mem_append.mp ha with ha | ha
    · exact h.rightMax a ha py h1 h2
    · rw [List.mem_singleton.mp ha] at h1 h2 ⊢
      have hpy : py = o.y0 := by omega
      rw [hpy]
      exact hmo
  · rw [List.pairwise_append]
    refine ⟨h.noV, List.pairwise_singleton _ _, ?_⟩
    intro a ha c hc
    rw [List.mem_singleton.mp hc]
    constructor
    · rintro ⟨_, _, h3⟩
      have h4 := h.above a ha o (List.mem_cons_self _ _)
      have h5 := h.pos a ha
      omega
    · exact (ptryMerge_none o acc hnone a ha).1
  · intro a ha c hc
    rcases List.mem_append.mp ha with ha | ha
    · exact h.above a ha c (List.mem_cons_of_mem _ hc)
    · rw [List.mem_singleton.mp ha]
      exact hbelow c hc

theorem MergeInv.step_some {img : Image} {r g b : Nat} {acc acc' rest : List PRect} {o : PRect}
    (hruns : RunList img r g b (o :: rest)) (h : MergeInv img r g b acc (o :: rest))
    (hsome : ptryMerge o acc = some acc') : MergeInv img r g b acc' rest := by
  obtain ⟨hht, hwd⟩ := hruns.shape o (List.mem_cons_self _ _)
  have hso := hruns.sound o (List.mem_cons_self _ _)
  have hmo := hruns.rightMax o (List.mem_cons_self _ _)
  have hbelow := (List.pairwise_cons.mp hruns.sorted).1
  obtain ⟨pre, p, post, p', h1, h2, h3⟩ := ptryMerge_some o acc acc' hsome
  have hp : p ∈ acc := by rw [h1]; exact List.mem_append_right _ (List.mem_cons_self _ _)
  have hpre : ∀ q ∈ pre, q ∈ acc := fun q hq => by rw [h1]; exact List.mem_append_left _ hq
  have hpost : ∀ q ∈ post, q ∈ acc := fun q hq => by
    rw [h1]; exact List.mem_append_right _ (List.mem_cons_of_mem _ hq)
  have hv : VAdj o p ∧ p' = vFuse o p := by
    rcases h3 with h3 | h3
    · exact h3
    · exact absurd h3.1 (h.not_hadj o p hp hmo)
  obtain ⟨⟨hv1, hv2, hv3⟩, hp'⟩ := hv
  have hpp := h.pos p hp
  have hmem : ∀ a ∈ acc', a = p' ∨ a ∈ acc := by
    intro a ha
    rw [h2] at ha
    rcases mem_replace pre post p p' a ha with ha | ha
    · exact Or.inl ha
    · exact Or.inr (by rw [h1]; exact ha)
  have hrel : ∀ q ∈ acc, (¬ VAdj q p ∧ ¬ VAdj p q) → (¬ VAdj q p' ∧ ¬ VAdj p' q) := by
    intro q hq hqp
    have h4 := h.above q hq o (List.mem_cons_self _ _)
    have h5 := h.pos q hq
    constructor
    · rintro ⟨_, _, e3⟩
      rw [hp'] at e3
      have : q.y0 + q.ht = o.y0 := e3
      omega
    · rintro ⟨e1, e2, e3⟩
      rw [hp'] at e1 e2 e3
      apply hqp.2
      have e1' : p.x0 = q.x0 := e1
      have e2' : p.wd = q.wd := e2
      have e3' : o.y0 + (p.ht + o.ht) = q.y0 := e3
      exact ⟨e1', e2', by omega⟩
  constructor
  · intro a ha
    rcases hmem a ha with rfl | ha
    · rw [hp']
      show 1 ≤ p.wd ∧ 1 ≤ p.ht + o.ht
      omega
    · exact h.pos a ha
  · intro a ha px py hcov
    rcases hmem a ha with rfl | ha
    · rcases (covers_fused o p a h3 px py).mp hcov with hc | hc
      · unfold PRect.covers at hc
        have hpy : py = o.y0 := by omega
        rw [hpy]
        exact hso px hc.1 hc.2.1
      · exact h.sound p hp px py hc
    · exact h.sound a ha px py hcov
  · intro a ha py e1 e2
    rcases hmem a ha with rfl | ha
    · rw [hp'] at e1 e2 ⊢
      have e1' : o.y0 ≤ py := e1
      have e2' : py < o.y0 + (p.ht + o.ht) := e2
      show ¬ Matching img r g b (p.x0 + p.wd) py
      by_cases hpy : py = o.y0
      · rw [hpy, ← hv1, ← hv2]
        exact hmo
      · exact h.rightMax p hp py (by omega) (by omega)
    · exact h.rightMax a ha py e1 e2
  · rw [h2]
    have hnoV := h.noV
    rw [h1] at hnoV
    apply pairwise_replace _ pre post p p' hnoV
    · intro q hq hqp
      exact hrel q (hpre q hq) hqp
    · intro q hq hpq
      have := hrel q (hpost q hq) ⟨hpq.2, hpq.1⟩
      exact ⟨this.2, this.1⟩
  · intro a ha c hc
    rcases hmem a ha with rfl | ha
    · rw [hp']
      exact hbelow c hc
    · exact h.above a ha c (List.mem_cons_of_mem _ hc)

theorem pmergePass_inv (img : Image) (r g b : Nat) (rest : List PRect) :
    ∀ acc, RunList img r g b rest → MergeInv img r g b acc rest →
      MergeInv img r g b (pmergePass rest acc) [] := by
  induction rest with
  | nil =>
    intro acc _ h
    exact h
  | cons o rest ih =>
    intro acc hruns h
    rw [pmergePass]
    cases hm : ptryMerge o acc with
    | none => exact ih _ hruns.tail (h.step_none hruns hm)
    | some acc' => exact ih _ hruns.tail (h.step_some hruns hm)

theorem mergeInv_nil (img : Image) (r g b : Nat) (rest : List PRect) :
    MergeInv img r g b [] rest where
  pos := fun a ha => by cases ha
  sound := fun a ha => by cases ha
  rightMax := fun a ha => by cases ha
  noV := List.Pairwise.nil
  above := fun a ha => by cases ha

theorem ImageRuns.pairwise_disjoint {img : Image} {r g b k : Nat} {runs : List PRect}
    (h : ImageRuns img r g b k runs) : runs.Pairwise PDisjoint := by
  refine List.Pairwise.imp_of_mem ?_ h.sorted
  intro a c ha hc hac px py hcov
  have h1 := (h.shape a ha).2.1
  have h2 := (h.shape c hc).2.1
  obtain ⟨⟨a1, a2, a3, a4⟩, ⟨c1, c2, c3, c4⟩⟩ := hcov
  have : a.y0 = c.y0 := by omega
  have := hac.2 this
  omega

/-- The pixel rectangles produced by the two passes on pixel level. -/
theorem pixel_segmentation (img : Image) (r g b : Nat) :
    ∃ out : List PRect,
      (0 < xScaleOf img → 0 < yScaleOf img →
        aggregateObject img r g b
          = out.map (PRect.toObject (xScaleOf img) (yScaleOf img))) ∧
      out.Pairwise PDisjoint ∧
      (∀ px py, (∃ a ∈ out, a.covers px py) ↔ (py < img.height ∧ Matching img r g b px py)) ∧
      MergeInv img r g b out [] := by
  obtain ⟨runs, hruns1, hruns2⟩ := extractRuns_spec img r g b
  refine ⟨pmergePass runs [], ?_, ?_, ?_, ?_⟩
  · intro hsx hsy
    rw [aggregateObject, hruns1]
    exact mergePass_map _ _ hsx hsy runs []
  · exact pmergePass_disjoint runs [] List.Pairwise.nil hruns2.pairwise_disjoint
      (fun a ha => by cases ha)
  · intro px py
    rw [pmergePass_cover runs [] px py]
    constructor
    · rintro (⟨a, ha, _⟩ | ⟨a, ha, hc⟩)
      · cases ha
      · obtain ⟨s1, s2, s3⟩ := hruns2.shape a ha
        unfold PRect.covers at hc
        have hpy : py = a.y0 := by omega
        rw [hpy]
        exact ⟨s1, hruns2.sound a ha px hc.1 hc.2.1⟩
    · rintro ⟨hpy, hm⟩
      obtain ⟨a, ha, h0, h1, h2⟩ := hruns2.complete px py hpy hm
      have s := hruns2.shape a ha
      exact Or.inr ⟨a, ha, by unfold PRect.covers; omega⟩
  · exact pmergePass_inv img r g b runs [] hruns2.runList (mergeInv_nil img r g b runs)

theorem scaled_interval (s : ℚ) (hs : 0 < s) (m n : Nat) (p : ℚ) :
    ((m : ℚ) * s ≤ p ∧ p < (m : ℚ) * s + (n : ℚ) * s) ↔
      ∃ k : Nat, m ≤ k ∧ k < m + n ∧ (k : ℚ) * s ≤ p ∧ p < ((k : ℚ) + 1) * s := by
  constructor
  · rintro ⟨h1, h2⟩
    have hm : (0 : ℚ) ≤ (m : ℚ) * s := mul_nonneg (Nat.cast_nonneg m) (le_of_lt hs)
    have hp : 0 ≤ p / s := div_nonneg (le_trans hm h1) (le_of_lt hs)
    refine ⟨⌊p / s⌋₊, ?_, ?_, ?_, ?_⟩
    · apply Nat.le_floor
      rw [le_div_iff₀ hs]
      exact h1
    · rw [Nat.floor_lt hp, div_lt_iff₀ hs]
      push_cast
      rw [add_mul]
      exact h2
    · have := Nat.floor_le hp
      rwa [le_div_iff₀ hs] at this
    · have := Nat.lt_floor_add_one (p / s)
      rwa [div_lt_iff₀ hs] at this
  · rintro ⟨k, h1, h2, h3, h4⟩
    have h1' : (m : ℚ) ≤ (k : ℚ) := Nat.cast_le.mpr h1
    have h2' : (k : ℚ) + 1 ≤ (m : ℚ) + (n : ℚ) := by
      have : k + 1 ≤ m + n := h2
      exact_mod_cast this
    constructor
    · exact le_trans (mul_le_mul_of_nonneg_right h1' (le_of_lt hs)) h3
    · rw [← add_mul]
      exact lt_of_lt_of_le h4 (mul_le_mul_of_nonneg_right h2' (le_of_lt hs))

theorem cell_unique (s : ℚ) (hs : 0 < s) (k k' : Nat) (p : ℚ)
    (h1 : (k : ℚ) * s ≤ p) (h2 : p < ((k : ℚ) + 1) * s)
    (h3 : (k' : ℚ) * s ≤ p) (h4 : p < ((k' : ℚ) + 1) * s) : k = k' := by
  have a1 : (k : ℚ) < (k' : ℚ) + 1 := lt_of_mul_lt_mul_right (lt_of_le_of_lt h1 h4) (le_of_lt hs)
  have a2 : (k' : ℚ) < (k : ℚ) + 1 := lt_of_mul_lt_mul_right (lt_of_le_of_lt h3 h2) (le_of_lt hs)
  have b1 : k < k' + 1 := by exact_mod_cast a1
  have b2 : k' < k + 1 := by exact_mod_cast a2
  omega

theorem toObject_contains (sx sy : ℚ) (hsx : 0 < sx) (hsy : 0 < sy) (a : PRect) (p q : ℚ) :
    (PRect.toObject sx sy a).contains p q ↔
      ∃ px py, a.covers px py ∧ inCell sx sy px py p q := by
  unfold Object.contains PRect.toObject
  simp only
  constructor
  · rintro ⟨h1, h2, h3, h4⟩
    obtain ⟨px, x1, x2, x3, x4⟩ := (scaled_interval sx hsx a.x0 a.wd p).mp ⟨h1, h2⟩
    obtain ⟨py, y1, y2, y3, y4⟩ := (scaled_interval sy hsy a.y0 a.ht q).mp ⟨h3, h4⟩
    exact ⟨px, py, ⟨x1, x2, y1, y2⟩, ⟨x3, x4, y3, y4⟩⟩
  · rintro ⟨px, py, ⟨x1, x2, y1, y2⟩, ⟨x3, x4, y3, y4⟩⟩
    obtain ⟨h1, h2⟩ := (scaled_interval sx hsx a.x0 a.wd p).mpr ⟨px, x1, x2, x3, x4⟩
    obtain ⟨h3, h4⟩ := (scaled_interval sy hsy a.y0 a.ht q).mpr ⟨py, y1, y2, y3, y4⟩
    exact ⟨h1, h2, h3, h4⟩

theorem toObject_disjoint (sx sy : ℚ) (hsx : 0 < sx) (hsy : 0 < sy) (a c : PRect)
    (h : PDisjoint a c) (p q : ℚ) :
    ¬ ((PRect.toObject sx sy a).contains p q ∧ (PRect.toObject sx sy c).contains p q) := by
  rintro ⟨h1, h2⟩
  obtain ⟨px, py, hcov, x1, x2, y1, y2⟩ := (toObject_contains sx sy hsx hsy a p q).mp h1
  obtain ⟨px', py', hcov', x1', x2', y1', y2'⟩ := (toObject_contains sx sy hsx hsy c p q).mp h2
  have ex := cell_unique sx hsx px px' p x1 x2 x1' x2'
  have ey := cell_unique sy hsy py py' q y1 y2 y1' y2'
  subst ex
  subst ey
  exact h px py ⟨hcov, hcov'⟩

theorem xScaleOf_pos (img : Image) (h1 : 1 ≤ img.width) (h2 : img.width ≤ 800) :
    0 < xScaleOf img := by
  unfold xScaleOf WINDOW_WIDTH
  exact Nat.cast_pos.mpr (Nat.div_pos h2 h1)

theorem yScaleOf_pos (img : Image) (h1 : 1 ≤ img.height) (h2 : img.height ≤ 600) :
    0 < yScaleOf img := by
  unfold yScaleOf WINDOW_HEIGHT
  exact Nat.cast_pos.mpr (Nat.div_pos h2 h1)

/-- C1 (coverage): for an image of width 1..800 and height 1..600, the rectangles returned by
`aggregateObject` are pairwise non-overlapping, and a point of the plane lies in one of them
exactly when it lies in the world cell of a pixel of the image that has the target colour. -/
theorem aggregateObject_coverage (img : Image) (r g b : Nat)
    (hw1 : 1 ≤ img.width) (hw2 : img.width ≤ 800)
    (hh1 : 1 ≤ img.height) (hh2 : img.height ≤ 600) :
    (aggregateObject img r g b).Pairwise
      (fun A B => ∀ p q : ℚ, ¬ (A.contains p q ∧ B.contains p q)) ∧
    ∀ p q : ℚ, (∃ A ∈ aggregateObject img r g b, A.contains p q) ↔
      ∃ px py : Nat, px < img.width ∧ py < img.height ∧
        pixelMatches img r g b px py = true ∧
        inCell ((800 / img.width : ℕ) : ℚ) ((600 / img.height : ℕ) : ℚ) px py p q := by
  have hsx := xScaleOf_pos img hw1 hw2
  have hsy := yScaleOf_pos img hh1 hh2
  obtain ⟨out, hout, hdis, hcov, _⟩ := pixel_segmentation img r g b
  rw [hout hsx hsy]
  constructor
  · rw [List.pairwise_map]
    exact hdis.imp (fun {a c} hac => toObject_disjoint _ _ hsx hsy a c hac)
  · intro p q
    constructor
    · rintro ⟨A, hA, hc⟩
      obtain ⟨a, ha, rfl⟩ := List.mem_map.mp hA
      obtain ⟨px, py, hcp, hcell⟩ := (toObject_contains _ _ hsx hsy a p q).mp hc
      obtain ⟨hpy, hm⟩ := (hcov px py).mp ⟨a, ha, hcp⟩
      exact ⟨px, py, hm.1, hpy, hm.2, hcell⟩
    · rintro ⟨px, py, hpx, hpy, hm, hcell⟩
      obtain ⟨a, ha, hcp⟩ := (hcov px py).mpr ⟨hpy, hpx, hm⟩
      exact ⟨PRect.toObject _ _ a, List.mem_map_of_mem _ ha,
        (toObject_contains _ _ hsx hsy a p q).mpr ⟨px, py, hcp, hcell⟩⟩

/-- Witness for C1: the white pixels of the image of Scenario 1. -/
theorem aggregateObject_coverage_witness :
    (aggregateObject scenario1 255 255 255).Pairwise
      (fun A B => ∀ p q : ℚ, ¬ (A.contains p q ∧ B.contains p q)) :=
  (aggregateObject_coverage scenario1 255 255 255
    (by decide) (by decide) (by decide) (by decide)).1

/-- C2 (merge soundness): for an image of width 1..800 and height 1..600, no two rectangles at
different positions of the output of `aggregateObject` share a full edge with matching
dimensions, neither vertically nor horizontally. -/
theorem aggregateObject_no_shared_edge (img : Image) (r g b : Nat)
    (hw1 : 1 ≤ img.width) (hw2 : img.width ≤ 800)
    (hh1 : 1 ≤ img.height) (hh2 : img.height ≤ 600)
    (i j : Nat) (A B : Object)
    (hA : (aggregateObject img r g b)[i]? = some A)
    (hB : (aggregateObject img r g b)[j]? = some B) (hij : i ≠ j) :
    ¬ (A.x = B.x ∧ A.width = B.width ∧ A.y + A.height = B.y) ∧
    ¬ (A.y = B.y ∧ A.height = B.height ∧ A.x + A.width = B.x) := by
  have hsx := xScaleOf_pos img hw1 hw2
  have hsy := yScaleOf_pos img hh1 hh2
  obtain ⟨out, hout, _, _, hinv⟩ := pixel_segmentation img r g b
  rw [hout hsx hsy, List.getElem?_map] at hA hB
  obtain ⟨a, ha, rfl⟩ := Option.map_eq_some'.mp hA
  obtain ⟨c, hc, rfl⟩ := Option.map_eq_some'.mp hB
  obtain ⟨hi, hai⟩ := List.getElem?_eq_some.mp ha
  obtain ⟨hj, hcj⟩ := List.getElem?_eq_some.mp hc
  have hmema : a ∈ out := by rw [← hai]; exact List.getElem_mem hi
  have hmemc : c ∈ out := by rw [← hcj]; exact List.getElem_mem hj
  rw [toObject_vadj _ _ hsx hsy, toObject_hadj _ _ hsx hsy]
  constructor
  · have hpw := List.pairwise_iff_getElem.mp hinv.noV
    rcases Nat.lt_or_gt_of_ne hij with hlt | hgt
    · have := (hpw i j hi hj hlt).1
      rw [hai, hcj] at this
      exact this
    · have := (hpw j i hj hi hgt).2
      rw [hai, hcj] at this
      exact this
  · apply hinv.not_hadj a c hmemc
    exact hinv.rightMax a hmema a.y0 (le_refl _) (by have := hinv.pos a hmema; omega)

/-- Witness for C2: the two rectangles returned for the white pixels of Scenario 1. -/
theorem aggregateObject_no_shared_edge_witness :
    (aggregateObject scenario1 255 255 255)[0]? = some ⟨0, 300, 800, 300⟩ ∧
    (aggregateObject scenario1 255 255 255)[1]? = some ⟨400, 0, 400, 300⟩ ∧
    ¬ ((0 : ℚ) = 400 ∧ (800 : ℚ) = 400 ∧ (300 : ℚ) + 300 = 0) ∧
    ¬ ((300 : ℚ) = 0 ∧ (300 : ℚ) = 300 ∧ (0 : ℚ) + 800 = 400) :=
  ⟨by decide!, by decide!,
    aggregateObject_no_shared_edge scenario1 255 255 255
      (by decide) (by decide) (by decide) (by decide) 0 1
      ⟨0, 300, 800, 300⟩ ⟨400, 0, 400, 300⟩ (by decide!) (by decide!) (by decide)⟩

/-- C3, counterexample: for the white (platform) colour `aggregateObject` returns two rectangles
on the image of Scenario 1, not one: the three white pixels form an L. -/
theorem scenario1_platform_not_single :
    ¬ ∃ R : Object, aggregateObject scenario1 255 255 255 = [R] := by
  have h : aggregateObject scenario1 255 255 255
      = [⟨0, 300, 800, 300⟩, ⟨400, 0, 400, 300⟩] := by decide!
  rintro ⟨R, hR⟩
  rw [h] at hR
  have hlen := congrArg List.length hR
  simp at hlen

/-- C3, amended: on the image of Scenario 1, `aggregateObject` returns exactly one rectangle for
the player colour, the world cell (0, 0, 400, 300) of pixel (0,0), and exactly two rectangles for
the platform colour: the bottom row (0, 300, 800, 300) and the cell (400, 0, 400, 300) of pixel
(1,0). -/
theorem scenario1_segmentation :
    aggregateObject scenario1 0 0 255 = [⟨0, 0, 400, 300⟩] ∧
    aggregateObject scenario1 255 255 255 = [⟨0, 300, 800, 300⟩, ⟨400, 0, 400, 300⟩] := by
  decide!

/-! ## Collision classification: theorems -/

theorem getCollisionDirection_of_overlaps (a b : Object) (h : Overlaps a b) :
    getCollisionDirection a b =
      if overlapX a b > overlapY a b then
        (if a.y < b.y then Direction.TOP.bits else Direction.BOTTOM.bits)
      else (if a.x < b.x then Direction.LEFT.bits else Direction.RIGHT.bits) := by
  obtain ⟨h1, h2, h3, h4⟩ := h
  unfold getCollisionDirection
  rw [if_pos ⟨h4, h3⟩, if_pos ⟨h2, h1⟩]
  simp only [Nat.zero_or]

theorem getCollisionDirection_of_not_overlaps (a b : Object) (h : ¬ Overlaps a b) :
    getCollisionDirection a b = 0 := by
  unfold getCollisionDirection
  by_cases hy : a.y + a.height > b.y ∧ a.y < b.y + b.height
  · rw [if_pos hy]
    by_cases hx : a.x + a.width > b.x ∧ a.x < b.x + b.width
    · exact absurd ⟨hx.2, hx.1, hy.2, hy.1⟩ h
    · rw [if_neg hx]
  · rw [if_neg hy]

theorem getCollisionDirection_cases (a b : Object) (h : Overlaps a b) :
    getCollisionDirection a b = 1 ∨ getCollisionDirection a b = 2 ∨
    getCollisionDirection a b = 4 ∨ getCollisionDirection a b = 8 := by
  rw [getCollisionDirection_of_overlaps a b h]
  simp only [Direction.bits]
  split_ifs <;> simp

theorem getCollisionDirection_eq_zero_iff (a b : Object) :
    getCollisionDirection a b = 0 ↔ ¬ Overlaps a b := by
  constructor
  · intro h hov
    rcases getCollisionDirection_cases a b hov with h1 | h1 | h1 | h1 <;> rw [h1] at h <;>
      exact absurd h (by decide)
  · exact getCollisionDirection_of_not_overlaps a b

theorem getCollisionDirection_values (a b : Object) :
    getCollisionDirection a b = 0 ∨ getCollisionDirection a b = 1 ∨
    getCollisionDirection a b = 2 ∨ getCollisionDirection a b = 4 ∨
    getCollisionDirection a b = 8 := by
  by_cases h : Overlaps a b
  · exact Or.inr (getCollisionDirection_cases a b h)
  · exact Or.inl (getCollisionDirection_of_not_overlaps a b h)

/-- C4 (AABB test): `getCollisionDirection a b` is non-zero exactly when the two rectangles
overlap strictly on both axes; rectangles that only touch yield 0. -/
theorem getCollisionDirection_ne_zero_iff (a b : Object) :
    getCollisionDirection a b ≠ 0 ↔
      (a.x < b.x + b.width ∧ b.x < a.x + a.width ∧
        a.y < b.y + b.height ∧ b.y < a.y + a.height) := by
  have h := getCollisionDirection_eq_zero_iff a b
  constructor
  · intro hne
    by_contra hn
    exact hne (h.mpr hn)
  · intro hov h0
    exact (h.mp h0) hov

/-- C5 (direction rule): for overlapping rectangles the result is exactly one flag: `TOP` or
`BOTTOM` (by comparing the `y` origins) when `overlapX > overlapY`, and otherwise `LEFT` or
`RIGHT` (by comparing the `x` origins). -/
theorem getCollisionDirection_direction_rule (moving other : Object)
    (h : moving.x < other.x + other.width ∧ other.x < moving.x + moving.width ∧
         moving.y < other.y + other.height ∧ other.y < moving.y + moving.height) :
    getCollisionDirection moving other =
      if overlapX moving other > overlapY moving other then
        (if moving.y < other.y then Direction.TOP.bits else Direction.BOTTOM.bits)
      else (if moving.x < other.x then Direction.LEFT.bits else Direction.RIGHT.bits) :=
  getCollisionDirection_of_overlaps moving other h

/-- Witness for C5: a rectangle that reaches two units into the top of another one. -/
theorem getCollisionDirection_direction_rule_witness :
    getCollisionDirection ⟨0, 0, 10, 10⟩ ⟨2, 8, 10, 10⟩ = Direction.TOP.bits := by
  have h := getCollisionDirection_direction_rule ⟨0, 0, 10, 10⟩ ⟨2, 8, 10, 10⟩ (by norm_num)
  rw [h]
  norm_num [overlapX, overlapY]

/-- C6, counterexample: two 10x10 squares offset by (5,5) overlap with `overlapX = overlapY = 5`
and the result is `LEFT`, neither `TOP` nor `BOTTOM`. -/
theorem tie_break_not_vertical :
    Overlaps ⟨0, 0, 10, 10⟩ ⟨5, 5, 10, 10⟩ ∧
    overlapX ⟨0, 0, 10, 10⟩ ⟨5, 5, 10, 10⟩ = overlapY ⟨0, 0, 10, 10⟩ ⟨5, 5, 10, 10⟩ ∧
    getCollisionDirection ⟨0, 0, 10, 10⟩ ⟨5, 5, 10, 10⟩ = Direction.LEFT.bits ∧
    ¬ (getCollisionDirection ⟨0, 0, 10, 10⟩ ⟨5, 5, 10, 10⟩ = Direction.TOP.bits ∨
       getCollisionDirection ⟨0, 0, 10, 10⟩ ⟨5, 5, 10, 10⟩ = Direction.BOTTOM.bits) := by
  norm_num [Overlaps, overlapX, overlapY, getCollisionDirection, Direction.bits]

/-- C6, amended: for overlapping rectangles with `overlapX = overlapY` the horizontal branch is
taken: the result is `LEFT` or `RIGHT`, never `TOP` or `BOTTOM`. -/
theorem tie_break_horizontal (a b : Object)
    (h : a.x < b.x + b.width ∧ b.x < a.x + a.width ∧
         a.y < b.y + b.height ∧ b.y < a.y + a.height)
    (htie : overlapX a b = overlapY a b) :
    (getCollisionDirection a b = Direction.LEFT.bits ∨
      getCollisionDirection a b = Direction.RIGHT.bits) ∧
    getCollisionDirection a b ≠ Direction.TOP.bits ∧
    getCollisionDirection a b ≠ Direction.BOTTOM.bits := by
  rw [getCollisionDirection_of_overlaps a b h, if_neg (by rw [htie]; exact lt_irrefl _)]
  simp only [Direction.bits]
  split_ifs <;> simp

/-- Witness for C6 amended: the two offset squares. -/
theorem tie_break_horizontal_witness :
    getCollisionDirection ⟨0, 0, 10, 10⟩ ⟨5, 5, 10, 10⟩ ≠ Direction.TOP.bits :=
  (tie_break_horizontal ⟨0, 0, 10, 10⟩ ⟨5, 5, 10, 10⟩ (by norm_num)
    (by norm_num [overlapX, overlapY])).2.1

/-! ## Simulation: theorems -/

theorem resolvePlatform_of_zero (p : Player) (platform : Object)
    (h : getCollisionDirection p.toObject platform = 0) : resolvePlatform p platform = p := by
  simp [resolvePlatform, h]

theorem resolvePlatform_of_top (p : Player) (platform : Object)
    (h : getCollisionDirection p.toObject platform = 1) :
    resolvePlatform p platform =
      { p with y := platform.y - p.height, dy := 0, onGround := true } := by
  simp [resolvePlatform, h, Direction.bits]

theorem foldl_resolvePlatform_of_zero (ps : List Object) (p : Player)
    (h : ∀ q ∈ ps, getCollisionDirection p.toObject q = 0) :
    ps.foldl resolvePlatform p = p := by
  induction ps with
  | nil => rfl
  | cons q qs ih =>
    rw [List.foldl_cons, resolvePlatform_of_zero p q (h q (List.mem_cons_self q qs))]
    exact ih (fun q' hq' => h q' (List.mem_cons_of_mem q hq'))

theorem checkpointLoop_append_of_zero (files : String → Option Image)
    (cs rest : List Object) (g : Game)
    (h : ∀ c ∈ cs, getCollisionDirection g.player.toObject c = 0) :
    checkpointLoop files (cs ++ rest) g = checkpointLoop files rest g := by
  induction cs with
  | nil => rfl
  | cons c cs ih =>
    have hc := h c (List.mem_cons_self c cs)
    simp only [List.cons_append, checkpointLoop, hc, ne_eq, not_true_eq_false, if_false]
    exact ih (fun c' hc' => h c' (List.mem_cons_of_mem c hc'))

theorem checkpointLoop_of_zero (files : String → Option Image) (cs : List Object) (g : Game)
    (h : ∀ c ∈ cs, getCollisionDirection g.player.toObject c = 0) :
    checkpointLoop files cs g = some g := by
  have h2 := checkpointLoop_append_of_zero files cs [] g h
  rw [List.append_nil] at h2
  rw [h2]
  rfl

theorem checkpointLoop_single (files : String → Option Image) (g : Game) (c : Object)
    (filepath : String) (g2 : Game)
    (hhit : getCollisionDirection g.player.toObject c ≠ 0)
    (hlevel : g.levels[g.currentLevel + 1]? = some filepath)
    (hload : loadBitmap files filepath { g with currentLevel := g.currentLevel + 1 } = some g2) :
    checkpointLoop files [c] g = some g2 := by
  unfold checkpointLoop
  rw [if_pos hhit]
  simp only [hlevel, hload]
  rfl

theorem die_die (g : Game) : die (die g) = die g := rfl

theorem enemyLoop_die (es : List Enemy) (g : Game) : enemyLoop es (die g) = die g := by
  induction es with
  | nil => rfl
  | cons e es ih =>
    unfold enemyLoop
    split_ifs
    · rw [die_die]; exact ih
    · exact ih

theorem enemyLoop_of_zero (es : List Enemy) (g : Game)
    (h : ∀ e ∈ es, getCollisionDirection g.player.toObject e.toObject = 0) :
    enemyLoop es g = g := by
  induction es with
  | nil => rfl
  | cons e es ih =>
    have he := h e (List.mem_cons_self e es)
    simp only [enemyLoop, he, ne_eq, not_true_eq_false, if_false]
    exact ih (fun e' he' => h e' (List.mem_cons_of_mem e he'))

theorem enemyLoop_of_hit (es : List Enemy) (g : Game)
    (h : ∃ e ∈ es, getCollisionDirection g.player.toObject e.toObject ≠ 0) :
    enemyLoop es g = die g := by
  induction es with
  | nil => obtain ⟨e, he, _⟩ := h; cases he
  | cons e es ih =>
    unfold enemyLoop
    by_cases he : getCollisionDirection g.player.toObject e.toObject ≠ 0
    · rw [if_pos he]; exact enemyLoop_die es g
    · rw [if_neg he]
      apply ih
      obtain ⟨e', he', hhit⟩ := h
      rcases List.mem_cons.mp he' with rfl | hmem
      · exact absurd hhit he
      · exact ⟨e', hmem, hhit⟩

theorem enemyLoop_cases (es : List Enemy) (g : Game) :
    enemyLoop es g = g ∨ enemyLoop es g = die g := by
  by_cases h : ∃ e ∈ es, getCollisionDirection g.player.toObject e.toObject ≠ 0
  · exact Or.inr (enemyLoop_of_hit es g h)
  · left
    apply enemyLoop_of_zero
    intro e he
    by_contra hne
    exact h ⟨e, he, hne⟩

theorem clampPlayer_of_inside (g : Game) (h0 : 0 ≤ g.player.x)
    (h1 : g.player.x + g.player.width ≤ (WINDOW_WIDTH : ℚ)) : clampPlayer g = g := by
  unfold clampPlayer
  rw [if_neg (not_lt.mpr h0), if_neg (not_lt.mpr h1)]

theorem beforeCheckpoints_frame (g : Game) :
    (beforeCheckpoints g).checkpoints = g.checkpoints ∧
    (beforeCheckpoints g).enemies = g.enemies ∧
    (beforeCheckpoints g).platforms = g.platforms ∧
    (beforeCheckpoints g).spawnX = g.spawnX ∧
    (beforeCheckpoints g).spawnY = g.spawnY ∧
    (beforeCheckpoints g).levels = g.levels ∧
    (beforeCheckpoints g).currentLevel = g.currentLevel ∧
    (beforeCheckpoints g).enemySpeeds = g.enemySpeeds ∧
    (beforeCheckpoints g).loadLog = g.loadLog := by
  unfold beforeCheckpoints platformLoop clampPlayer fallCheck die
  split_ifs <;> exact ⟨rfl, rfl, rfl, rfl, rfl, rfl, rfl, rfl, rfl⟩

theorem handleCollision_eq (files : String → Option Image) (g : Game) :
    handleCollision files g =
      (checkpointLoop files g.checkpoints (beforeCheckpoints g)).map
        (fun g4 => enemyLoop g4.enemies g4) := by
  have h : handleCollision files g =
      (checkpointLoop files (beforeCheckpoints g).checkpoints (beforeCheckpoints g)).map
        (fun g4 => enemyLoop g4.enemies g4) := by
    show (match checkpointLoop files (beforeCheckpoints g).checkpoints (beforeCheckpoints g) with
      | none => none
      | some g4 => some (enemyLoop g4.enemies g4)) = _
    cases checkpointLoop files (beforeCheckpoints g).checkpoints (beforeCheckpoints g) <;> rfl
  rw [h, (beforeCheckpoints_frame g).1]

theorem loadBitmap_frame (files : String → Option Image) (filepath : String) (g g2 : Game)
    (h : loadBitmap files filepath g = some g2) :
    g2.currentLevel = g.currentLevel ∧ g2.loadLog = g.loadLog ++ [filepath] ∧
    g2.levels = g.levels := by
  unfold loadBitmap at h
  simp only at h
  split at h
  · cases h
  · split at h
    · cases h
    · split at h
      · cases h
      · cases h
        exact ⟨rfl, rfl, rfl⟩

theorem bounceEnemy_eq (e : Enemy) (platform : Object) :
    bounceEnemy e platform = if hitsSide e platform = true then { e with dx := -e.dx } else e := by
  unfold bounceEnemy hitsSide
  have a1 : (1 : Nat) &&& 4 = 0 := by decide
  have a2 : (1 : Nat) &&& 8 = 0 := by decide
  have a3 : (2 : Nat) &&& 4 = 0 := by decide
  have a4 : (2 : Nat) &&& 8 = 0 := by decide
  have a5 : (4 : Nat) &&& 4 = 4 := by decide
  have a6 : (4 : Nat) &&& 8 = 0 := by decide
  have a7 : (8 : Nat) &&& 4 = 0 := by decide
  have a8 : (8 : Nat) &&& 8 = 8 := by decide
  rcases getCollisionDirection_values e.toObject platform with h | h | h | h | h <;>
    simp [h, Direction.bits, a1, a2, a3, a4, a5, a6, a7, a8]

theorem hitsSide_congr (e1 e2 : Enemy) (h : e1.toObject = e2.toObject) :
    hitsSide e1 = hitsSide e2 := by
  funext q
  unfold hitsSide
  rw [h]

theorem foldl_bounceEnemy (ps : List Object) (e : Enemy) :
    (ps.foldl bounceEnemy e).toObject = e.toObject ∧
    (ps.foldl bounceEnemy e).dy = e.dy ∧
    (ps.foldl bounceEnemy e).dx = (-1) ^ (ps.countP (hitsSide e)) * e.dx := by
  induction ps generalizing e with
  | nil => simp
  | cons q qs ih =>
    rw [List.foldl_cons, bounceEnemy_eq]
    by_cases hq : hitsSide e q = true
    · rw [if_pos hq]
      obtain ⟨h1, h2, h3⟩ := ih { e with dx := -e.dx }
      have hc : hitsSide { e with dx := -e.dx } = hitsSide e := hitsSide_congr _ _ rfl
      rw [hc] at h3
      refine ⟨h1, h2, ?_⟩
      rw [h3, List.countP_cons_of_pos _ _ hq, pow_succ]
      ring
    · rw [if_neg hq]
      obtain ⟨h1, h2, h3⟩ := ih e
      refine ⟨h1, h2, ?_⟩
      rw [h3, List.countP_cons_of_neg _ _ hq]

theorem updateEnemy_velocity (ps : List Object) (e : Enemy) :
    (updateEnemy ps e).dx = (-1) ^ (reversals ps e) * e.dx ∧ (updateEnemy ps e).dy = e.dy := by
  unfold updateEnemy reversals
  simp only
  by_cases hout : (advanced e).x < 0 ∨ (advanced e).x + (advanced e).width > (WINDOW_WIDTH : ℚ)
  · have hout2 := hout
    unfold advanced at hout2
    rw [if_pos hout2, if_pos hout]
    obtain ⟨_, h2, h3⟩ := foldl_bounceEnemy ps
      ({ ({ e with x := e.x + e.dx } : Enemy) with dx := -e.dx })
    have hc : hitsSide ({ ({ e with x := e.x + e.dx } : Enemy) with dx := -e.dx })
        = hitsSide (advanced e) := hitsSide_congr _ _ rfl
    rw [hc] at h3
    refine ⟨?_, h2⟩
    rw [h3, pow_add]
    ring
  · have hout2 := hout
    unfold advanced at hout2
    rw [if_neg hout2, if_neg hout]
    obtain ⟨_, h2, h3⟩ := foldl_bounceEnemy ps ({ e with x := e.x + e.dx } : Enemy)
    refine ⟨?_, h2⟩
    rw [h3, zero_add]
    rfl

/-- C9, counterexample: the advanced enemy is classified `LEFT` against each of two platforms;
`updateEnemies` negates `dx` twice and leaves it at 5, not at -5. -/
theorem patrol_bounce_twice :
    enemyAtTwoPlatforms.enemies = [⟨⟨0, 0, 10, 20⟩, 5, 5⟩] ∧
    getCollisionDirection (advanced ⟨⟨0, 0, 10, 20⟩, 5, 5⟩).toObject ⟨12, 0, 10, 10⟩
      = Direction.LEFT.bits ∧
    (updateEnemies enemyAtTwoPlatforms).enemies = [⟨⟨5, 0, 10, 20⟩, 5, 5⟩] := by
  decide!

/-- C9, amended: for every enemy, `updateEnemies` leaves `dy` unchanged and negates `dx` once if
the advanced enemy sticks out of the window and once for every platform that the advanced enemy
is classified `LEFT` or `RIGHT` against, so `dx` ends as `(-1) ^ n` times its value before the
call, `n` being that number of negations; when `n` is odd (in particular: inside the window and
exactly one such platform), `dx` ends as the negation of its value before the call, and when `n`
is even it ends unchanged. -/
theorem patrol_bounce_negations (g : Game) (i : Nat) (e : Enemy)
    (hi : g.enemies[i]? = some e) :
    ∃ e', (updateEnemies g).enemies[i]? = some e' ∧
      e'.dy = e.dy ∧
      e'.dx = (-1) ^ (reversals g.platforms e) * e.dx ∧
      (Odd (reversals g.platforms e) → e'.dx = -e.dx) ∧
      (Even (reversals g.platforms e) → e'.dx = e.dx) ∧
      (¬ ((advanced e).x < 0 ∨ (advanced e).x + (advanced e).width > (WINDOW_WIDTH : ℚ)) →
        g.platforms.countP (hitsSide (advanced e)) = 1 → e'.dx = -e.dx) := by
  have hv := updateEnemy_velocity g.platforms e
  refine ⟨updateEnemy g.platforms e, ?_, hv.2, hv.1, ?_, ?_, ?_⟩
  · show (g.enemies.map (updateEnemy g.platforms))[i]? = _
    rw [List.getElem?_map, hi]
    rfl
  · intro hodd
    rw [hv.1, Odd.neg_one_pow hodd]
    ring
  · intro heven
    rw [hv.1, Even.neg_one_pow heven]
    ring
  · intro hin hone
    have hr : reversals g.platforms e = 1 := by
      unfold reversals
      rw [if_neg hin, hone]
    rw [hv.1, hr]
    ring

/-- Witness for C9 amended: the advanced enemy is classified `LEFT` against one platform. -/
theorem patrol_bounce_negations_witness :
    ∃ e', (updateEnemies enemyAtOnePlatform).enemies[0]? = some e' ∧
      e'.dy = (5 : ℚ) ∧ e'.dx = (-5 : ℚ) :=
  let ⟨e', h1, h2, _, h4, _⟩ :=
    patrol_bounce_negations enemyAtOnePlatform 0 ⟨⟨0, 0, 10, 20⟩, 5, 5⟩ rfl
  ⟨e', h1, h2, h4 (by decide!)⟩

/-- C10, counterexample: the player overlaps a checkpoint but has dropped below the window; the
fall check respawns the player before the checkpoint loop runs, so `currentLevel` stays 0 and no
level is loaded. -/
theorem checkpoint_missed_by_fall :
    fallenThroughCheckpoint.checkpoints = [⟨90, 595, 40, 5⟩] ∧
    Overlaps fallenThroughCheckpoint.player.toObject ⟨90, 595, 40, 5⟩ ∧
    fallenThroughCheckpoint.currentLevel = 0 ∧
    fallenThroughCheckpoint.loadLog = ["a"] ∧
    (handleCollision scenario1Files fallenThroughCheckpoint).map
      (fun g => (g.currentLevel, g.loadLog)) = some (0, ["a"]) := by
  refine ⟨rfl, ?_, rfl, rfl, ?_⟩
  · norm_num [Overlaps, fallenThroughCheckpoint]
  · decide!

/-- C10, amended: if, when the checkpoint loop runs (after the fall check, the clamp and the
platform loop), the player overlaps the last checkpoint of the list and none before it, and
`levels[currentLevel + 1]` exists and `loadBitmap` succeeds on it, then the pass increases
`currentLevel` by exactly 1 and calls `loadBitmap` exactly once, on that level. -/
theorem checkpoint_advance (files : String → Option Image) (g : Game)
    (before : List Object) (checkpoint : Object) (filepath : String)
    (hcps : g.checkpoints = before ++ [checkpoint])
    (hbefore : ∀ c ∈ before, getCollisionDirection (beforeCheckpoints g).player.toObject c = 0)
    (hhit : getCollisionDirection (beforeCheckpoints g).player.toObject checkpoint ≠ 0)
    (hlevel : g.levels[g.currentLevel + 1]? = some filepath)
    (hload : (loadBitmap files filepath
      { beforeCheckpoints g with currentLevel := g.currentLevel + 1 }).isSome = true) :
    ∃ g', handleCollision files g = some g' ∧
      g'.currentLevel = g.currentLevel + 1 ∧ g'.loadLog = g.loadLog ++ [filepath] := by
  have hfr := beforeCheckpoints_frame g
  obtain ⟨g2, hg2⟩ := Option.isSome_iff_exists.mp hload
  have hl := loadBitmap_frame files filepath _ g2 hg2
  have hloop : checkpointLoop files g.checkpoints (beforeCheckpoints g) = some g2 := by
    rw [hcps, checkpointLoop_append_of_zero files before [checkpoint] _ hbefore]
    have hcl : (beforeCheckpoints g).currentLevel = g.currentLevel := hfr.2.2.2.2.2.2.1
    have hlv : (beforeCheckpoints g).levels = g.levels := hfr.2.2.2.2.2.1
    rw [← hcl] at hg2
    rw [← hlv, ← hcl] at hlevel
    exact checkpointLoop_single files (beforeCheckpoints g) checkpoint filepath g2 hhit hlevel hg2
  refine ⟨enemyLoop g2.enemies g2, ?_, ?_⟩
  · rw [handleCollision_eq, hloop]
    rfl
  · have hl1 : g2.currentLevel = g.currentLevel + 1 := hl.1
    have hl2 : g2.loadLog = g.loadLog ++ [filepath] := by
      rw [hl.2.1]
      show (beforeCheckpoints g).loadLog ++ [filepath] = _
      rw [hfr.2.2.2.2.2.2.2.2]
    rcases enemyLoop_cases g2.enemies g2 with h | h
    · rw [h]; exact ⟨hl1, hl2⟩
    · rw [h]; exact ⟨hl1, hl2⟩

/-- Witness for C10 amended: the player overlaps the only checkpoint; the next level is the image
of Scenario 1. -/
theorem checkpoint_advance_witness :
    ∃ g', handleCollision scenario1Files touchingCheckpoint = some g' ∧
      g'.currentLevel = 1 ∧ g'.loadLog = ["a", "b"] :=
  checkpoint_advance scenario1Files touchingCheckpoint [] ⟨110, 100, 40, 40⟩ "b" rfl
    (by intro c hc; cases hc) (by decide!) rfl (by decide!)

/-! ## Level segmentation: further theorems -/

theorem tryMerge_ne_nil (o : Object) (acc acc' : List Object) (h : tryMerge o acc = some acc') :
    acc' ≠ [] := by
  cases acc with
  | nil => cases h
  | cons p rest =>
    rw [tryMerge] at h
    split_ifs at h
    · cases h; exact List.cons_ne_nil _ _
    · cases h; exact List.cons_ne_nil _ _
    · cases hr : tryMerge o rest with
      | none => rw [hr] at h; cases h
      | some l => rw [hr] at h; cases h; exact List.cons_ne_nil _ _

theorem mergePass_ne_nil (rest : List Object) :
    ∀ acc : List Object, acc ≠ [] → mergePass rest acc ≠ [] := by
  induction rest with
  | nil => intro acc h; exact h
  | cons o rest ih =>
    intro acc h
    rw [mergePass]
    cases hm : tryMerge o acc with
    | none => exact ih _ (by simp)
    | some acc' => exact ih _ (tryMerge_ne_nil o acc acc' hm)

theorem mergePass_eq_nil_iff (runs : List Object) : mergePass runs [] = [] ↔ runs = [] := by
  constructor
  · intro h
    cases runs with
    | nil => rfl
    | cons o rest =>
      exfalso
      rw [mergePass] at h
      exact mergePass_ne_nil rest ([] ++ [o]) (by simp) h
  · intro h
    rw [h]
    rfl

theorem extractRuns_eq_nil_iff (img : Image) (r g b : Nat) :
    extractRuns img r g b = [] ↔
      ¬ ∃ px py, px < img.width ∧ py < img.height ∧ pixelMatches img r g b px py = true := by
  obtain ⟨runs, h1, h2⟩ := extractRuns_spec img r g b
  rw [h1, List.map_eq_nil_iff]
  constructor
  · rintro rfl ⟨px, py, hx, hy, hm⟩
    obtain ⟨a, ha, _⟩ := h2.complete px py hy ⟨hx, hm⟩
    cases ha
  · intro hno
    cases runs with
    | nil => rfl
    | cons a rest =>
      exfalso
      have ha : a ∈ a :: rest := List.mem_cons_self _ _
      obtain ⟨s1, _, s3⟩ := h2.shape a ha
      have hm := h2.sound a ha a.x0 (le_refl _) (by omega)
      exact hno ⟨a.x0, a.y0, hm.1, s1, hm.2⟩

theorem aggregateObject_nil_iff (img : Image) (r g b : Nat) :
    aggregateObject img r g b = [] ↔
      ¬ ∃ px py, px < img.width ∧ py < img.height ∧ pixelMatches img r g b px py = true := by
  rw [aggregateObject, mergePass_eq_nil_iff, extractRuns_eq_nil_iff]

/-- C14 (empty result): for an image of width and height at least 1, `aggregateObject` returns
the empty list exactly when no pixel of the image has the target colour; so `playerObject[0]` in
`loadBitmap` is in bounds exactly when some pixel has the colour (0,0,255). -/
theorem aggregateObject_empty_iff (img : Image) (r g b : Nat)
    (_hw : 1 ≤ img.width) (_hh : 1 ≤ img.height) :
    (aggregateObject img r g b = [] ↔
      ¬ ∃ px py, px < img.width ∧ py < img.height ∧ pixelMatches img r g b px py = true) ∧
    (((aggregateObject img 0 0 255)[0]?).isSome = true ↔
      ∃ px py, px < img.width ∧ py < img.height ∧ pixelMatches img 0 0 255 px py = true) := by
  refine ⟨aggregateObject_nil_iff img r g b, ?_⟩
  have h := aggregateObject_nil_iff img 0 0 255
  cases hl : aggregateObject img 0 0 255 with
  | nil =>
    rw [hl] at h
    have hno := h.mp rfl
    constructor
    · intro hs; simp at hs
    · intro hex; exact absurd hex hno
  | cons A rest =>
    rw [hl] at h
    constructor
    · intro _
      by_contra hno
      exact absurd (h.mpr hno) (List.cons_ne_nil _ _)
    · intro _
      simp

/-- Witness for C14: the image of Scenario 1 has a blue pixel and no red pixel. -/
theorem aggregateObject_empty_iff_witness :
    ((aggregateObject scenario1 255 0 0 = [] ↔
      ¬ ∃ px py, px < scenario1.width ∧ py < scenario1.height ∧
        pixelMatches scenario1 255 0 0 px py = true) ∧
    (((aggregateObject scenario1 0 0 255)[0]?).isSome = true ↔
      ∃ px py, px < scenario1.width ∧ py < scenario1.height ∧
        pixelMatches scenario1 0 0 255 px py = true)) :=
  aggregateObject_empty_iff scenario1 255 0 0 (by decide) (by decide)

theorem tryMerge_width_zero (o : Object) (acc acc' : List Object)
    (ho : o.width = 0) (hacc : ∀ A ∈ acc, A.width = 0) (h : tryMerge o acc = some acc') :
    ∀ A ∈ acc', A.width = 0 := by
  induction acc generalizing acc' with
  | nil => cases h
  | cons p rest ih =>
    have hp := hacc p (List.mem_cons_self _ _)
    have hrest : ∀ A ∈ rest, A.width = 0 := fun A hA => hacc A (List.mem_cons_of_mem _ hA)
    rw [tryMerge] at h
    split_ifs at h
    · cases h
      intro A hA
      rcases List.mem_cons.mp hA with rfl | hA
      · exact hp
      · exact hrest A hA
    · cases h
      intro A hA
      rcases List.mem_cons.mp hA with rfl | hA
      · show p.width + o.width = 0
        rw [hp, ho, add_zero]
      · exact hrest A hA
    · cases hr : tryMerge o rest with
      | none => rw [hr] at h; cases h
      | some l =>
        rw [hr] at h
        cases h
        intro A hA
        rcases List.mem_cons.mp hA with rfl | hA
        · exact hp
        · exact ih l hrest hr A hA

theorem mergePass_width_zero (rest : List Object) :
    ∀ acc : List Object, (∀ A ∈ rest, A.width = 0) → (∀ A ∈ acc, A.width = 0) →
      ∀ A ∈ mergePass rest acc, A.width = 0 := by
  induction rest with
  | nil => intro acc _ h; exact h
  | cons o rest ih =>
    intro acc hrest hacc
    have ho := hrest o (List.mem_cons_self _ _)
    have hrest' : ∀ A ∈ rest, A.width = 0 := fun A hA => hrest A (List.mem_cons_of_mem _ hA)
    rw [mergePass]
    cases hm : tryMerge o acc with
    | none =>
      apply ih _ hrest'
      intro A hA
      rcases List.mem_append.mp hA with hA | hA
      · exact hacc A hA
      · rw [List.mem_singleton.mp hA]; exact ho
    | some acc' => exact ih _ hrest' (tryMerge_width_zero o acc acc' ho hacc hm)

theorem aggregateObject_width_zero (img : Image) (r g b : Nat) (h : xScaleOf img = 0) :
    ∀ A ∈ aggregateObject img r g b, A.width = 0 := by
  obtain ⟨runs, h1, _⟩ := extractRuns_spec img r g b
  rw [aggregateObject, h1]
  apply mergePass_width_zero
  · intro A hA
    obtain ⟨a, _, rfl⟩ := List.mem_map.mp hA
    show (a.wd : ℚ) * xScaleOf img = 0
    rw [h, mul_zero]
  · intro A hA
    cases hA

/-- C15, the code at the failing input: for the 801x1 image whose first pixel has the target
colour, `aggregateObject` returns at least one rectangle and every returned rectangle has
width 0. -/
theorem wide_image_zero_width :
    aggregateObject wideImage 7 7 7 ≠ [] ∧ ∀ A ∈ aggregateObject wideImage 7 7 7, A.width = 0 := by
  constructor
  · intro h
    exact (aggregateObject_nil_iff wideImage 7 7 7).mp h ⟨0, 0, by decide, by decide, by decide⟩
  · exact aggregateObject_width_zero wideImage 7 7 7 (by decide!)

/-- C17, the code at the failing input: for the 3x1 image whose pixels all match, the single
rectangle returned is 798 wide (3 times the integer quotient 800 / 3 = 266), not 800. -/
theorem thirds_image_width : aggregateObject thirdsImage 7 7 7 = [⟨0, 0, 798, 600⟩] := by
  decide!

theorem extendRun_plain (img : Image) (r g b y minX : Nat) :
    ∀ (fuel x maxX : Nat) (vis : Visited),
      (extendRun img r g b y minX fuel x maxX vis).1 = (extendRunPlain img r g b y fuel x maxX).1 ∧
      (extendRun img r g b y minX fuel x maxX vis).2.1
        = (extendRunPlain img r g b y fuel x maxX).2 := by
  intro fuel
  induction fuel with
  | zero => intro x maxX vis; exact ⟨rfl, rfl⟩
  | succ f ih =>
    intro x maxX vis
    rw [extendRun, extendRunPlain]
    by_cases hc : x < img.width ∧ pixelMatches img r g b x y = true
    · rw [if_pos hc, if_pos hc]
      exact ih (x + 1) x _
    · rw [if_neg hc, if_neg hc]
      exact ⟨rfl, rfl⟩

theorem scanRow_plain (img : Image) (r g b : Nat) (sx sy : ℚ) (y : Nat) :
    ∀ (fuel x : Nat) (vis : Visited) (acc : List Object),
      (∀ i j, vis i j = true → y < i ∨ (i = y ∧ j < x)) →
      (scanRow img r g b sx sy y fuel x vis acc).2 = scanRowPlain img r g b sx sy y fuel x acc := by
  intro fuel
  induction fuel with
  | zero => intro x vis acc _; rfl
  | succ f ih =>
    intro x vis acc hvis
    rw [scanRow, scanRowPlain]
    by_cases hx : x < img.width
    · have hv : ¬ vis y x = true := by
        intro h
        rcases hvis y x h with h1 | h1 <;> omega
      rw [if_pos hx, if_pos hx, if_neg hv]
      by_cases hm : pixelMatches img r g b x y = true
      · rw [if_pos hm, if_pos hm]
        obtain ⟨e1, _, _, _, _, e5⟩ :=
          extendRun_spec img r g b y x img.width x x vis (by omega) (le_refl x)
        obtain ⟨p1, p2⟩ := extendRun_plain img r g b y x img.width x x vis
        simp only [← p1, ← p2]
        apply ih
        intro i j h
        rcases e5 i j h with h1 | h1
        · rcases hvis i j h1 with h2 | h2
          · exact Or.inl h2
          · exact Or.inr ⟨h2.1, by omega⟩
        · exact Or.inr ⟨h1.1, by omega⟩
      · rw [if_neg hm, if_neg hm]
        apply ih
        intro i j h
        rcases hvis i j h with h2 | h2
        · exact Or.inl h2
        · exact Or.inr ⟨h2.1, by omega⟩
    · rw [if_neg hx, if_neg hx]

theorem scanRows_plain (img : Image) (r g b : Nat) (sx sy : ℚ) :
    ∀ (k : Nat) (vis : Visited) (acc : List Object),
      (∀ i j, vis i j = true → k ≤ i) →
      (scanRows img r g b sx sy k vis acc).2 = scanRowsPlain img r g b sx sy k acc := by
  intro k
  induction k with
  | zero => intro vis acc _; rfl
  | succ k ih =>
    intro vis acc hvis
    have hrow : ∀ i j, vis i j = true → k < i ∨ (i = k ∧ j < 0) := by
      intro i j h
      have := hvis i j h
      left; omega
    obtain ⟨_, _, _, hr3⟩ := scanRow_spec img r g b sx sy k img.width 0 vis acc (by omega) hrow
    rw [scanRows, scanRowsPlain, ih _ _ hr3, scanRow_plain img r g b sx sy k _ _ _ _ hrow]

theorem ImageRuns.run_leftMax {img : Image} {r g b k : Nat} {runs : List PRect}
    (h : ImageRuns img r g b k runs) (a : PRect) (ha : a ∈ runs) (j : Nat) (hj : j + 1 = a.x0) :
    ¬ Matching img r g b j a.y0 := by
  intro hm
  obtain ⟨c, hc, hy, hc1, hc2⟩ := h.complete j a.y0 (h.shape a ha).1 hm
  have hmax := h.rightMax c hc
  have hsa := h.sound a ha
  have hpa := (h.shape a ha).2.2
  have hpc := (h.shape c hc).2.2
  by_cases hlt : c.x0 + c.wd ≤ a.x0
  · have heq : c.x0 + c.wd = a.x0 := by omega
    rw [heq, hy] at hmax
    exact hmax (hsa a.x0 (le_refl _) (by omega))
  · -- the two runs overlap in column `a.x0`, so they are ordered both ways
    have hdis := h.pairwise_disjoint
    have hne : c ≠ a := by
      intro hca
      rw [hca] at hc1
      omega
    have := hdis.forall (fun x y hxy => PDisjoint.symm hxy) hc ha hne
    have hht_a := (h.shape a ha).2.1
    have hht_c := (h.shape c hc).2.1
    exact this a.x0 a.y0 ⟨by unfold PRect.covers; omega, by unfold PRect.covers; omega⟩

/-- C20 (run extraction equals the naive definition): the first pass of `aggregateObject` equals
the same scan with the `visited` bookkeeping removed, and it emits exactly the maximal horizontal
runs of matching pixels, each one pixel row high, rows from the last to the first and the runs of
a row from left to right. -/
theorem extractRuns_eq_plain (img : Image) (r g b : Nat)
    (_hw : 1 ≤ img.width) (_hh : 1 ≤ img.height) :
    extractRuns img r g b = extractRunsPlain img r g b ∧
    ∃ runs : List PRect,
      extractRuns img r g b = runs.map (PRect.toObject (xScaleOf img) (yScaleOf img)) ∧
      runs.Pairwise (fun a c => c.y0 < a.y0 ∨ (a.y0 = c.y0 ∧ a.x0 + a.wd < c.x0)) ∧
      ∀ a : PRect, a ∈ runs ↔
        (a.ht = 1 ∧ a.y0 < img.height ∧ IsMaximalRun img r g b a.y0 a.x0 a.wd) := by
  constructor
  · rw [extractRuns, extractRunsPlain]
    exact scanRows_plain img r g b _ _ img.height _ [] (by intro i j h; cases h)
  · obtain ⟨runs, h1, h2⟩ := extractRuns_spec img r g b
    refine ⟨runs, h1, ?_, ?_⟩
    · refine List.Pairwise.imp_of_mem ?_ h2.sorted
      intro a c ha hc hac
      rcases Nat.lt_or_ge c.y0 a.y0 with hlt | hge
      · exact Or.inl hlt
      · right
        have hy : a.y0 = c.y0 := by omega
        refine ⟨hy, ?_⟩
        have hle := hac.2 hy
        rcases Nat.lt_or_ge (a.x0 + a.wd) c.x0 with h3 | h3
        · exact h3
        · exfalso
          have heq : a.x0 + a.wd = c.x0 := by omega
          have hmax := h2.rightMax a ha
          rw [heq, hy] at hmax
          exact hmax (h2.sound c hc c.x0 (le_refl _) (by have := (h2.shape c hc).2.2; omega))
    · intro a
      constructor
      · intro ha
        obtain ⟨s1, s2, s3⟩ := h2.shape a ha
        exact ⟨s2, s1, s3, h2.sound a ha, h2.rightMax a ha, h2.run_leftMax a ha⟩
      · rintro ⟨hht, hy, hwd, hsound, hright, hleft⟩
        obtain ⟨c, hc, cy, c1, c2⟩ := h2.complete a.x0 a.y0 hy (hsound a.x0 (le_refl _) (by omega))
        obtain ⟨t1, t2, t3⟩ := h2.shape c hc
        have hx : c.x0 = a.x0 := by
          rcases Nat.lt_or_ge c.x0 a.x0 with hlt | hge
          · exfalso
            have hm := h2.sound c hc (a.x0 - 1) (by omega) (by omega)
            rw [cy] at hm
            exact hleft (a.x0 - 1) (by omega) hm
          · omega
        have hw : c.wd = a.wd := by
          rcases Nat.lt_trichotomy c.wd a.wd with hlt | heq | hgt
          · exfalso
            have hmax := h2.rightMax c hc
            rw [cy, hx] at hmax
            exact hmax (hsound (a.x0 + c.wd) (by omega) (by omega))
          · exact heq
          · exfalso
            have hm := h2.sound c hc (a.x0 + a.wd) (by omega) (by omega)
            rw [cy] at hm
            exact hright hm
        have hca : c = a := by
          cases c
          cases a
          simp only [PRect.mk.injEq]
          simp only at hx hw cy t2 hht
          omega
        rw [← hca]
        exact hc

theorem OrderInv.order_step_none {acc rest : List PRect} {o : PRect}
    (h : OrderInv acc (o :: rest)) : OrderInv (acc ++ [o]) rest := by
  obtain ⟨ho, hrest⟩ := List.pairwise_cons.mp h.restSorted
  constructor
  · rw [List.pairwise_append]
    refine ⟨h.accSorted, List.pairwise_singleton _ _, ?_⟩
    intro a ha c hc
    rw [List.mem_singleton.mp hc]
    exact h.cross a ha o (List.mem_cons_self _ _)
  · intro a ha c hc
    rcases List.mem_append.mp ha with ha | ha
    · exact h.cross a ha c (List.mem_cons_of_mem _ hc)
    · rw [List.mem_singleton.mp ha]
      exact ho c hc
  · exact hrest

theorem OrderInv.order_step_some {img : Image} {r g b : Nat} {acc acc' rest : List PRect} {o : PRect}
    (hruns : RunList img r g b (o :: rest)) (hinv : MergeInv img r g b acc (o :: rest))
    (h : OrderInv acc (o :: rest)) (hsome : ptryMerge o acc = some acc') :
    OrderInv acc' rest := by
  obtain ⟨_, hrest⟩ := List.pairwise_cons.mp h.restSorted
  have hmo := hruns.rightMax o (List.mem_cons_self _ _)
  obtain ⟨pre, p, post, p', h1, h2, h3⟩ := ptryMerge_some o acc acc' hsome
  have hp : p ∈ acc := by rw [h1]; exact List.mem_append_right _ (List.mem_cons_self _ _)
  have hv : VAdj o p ∧ p' = vFuse o p := by
    rcases h3 with h3 | h3
    · exact h3
    · exact absurd h3.1 (hinv.not_hadj o p hp hmo)
  obtain ⟨⟨_, _, hv3⟩, hp'⟩ := hv
  have hl : ∀ q, Before q p → Before q p' := by
    intro q hq
    rw [hp']
    unfold Before vFuse at *
    simp only
    constructor
    · omega
    · intro e; exact hq.2 (by omega)
  have hr : ∀ q, Before p q → Before p' q := by
    intro q hq
    rw [hp']
    unfold Before vFuse at *
    simp only
    constructor
    · omega
    · intro e; exact hq.2 (by omega)
  constructor
  · rw [h2]
    have hs := h.accSorted
    rw [h1] at hs
    exact pairwise_replace Before pre post p p' hs (fun q _ hq => hl q hq) (fun q _ hq => hr q hq)
  · intro a ha c hc
    rw [h2] at ha
    rcases mem_replace pre post p p' a ha with rfl | ha
    · exact hr c (h.cross p hp c (List.mem_cons_of_mem _ hc))
    · exact h.cross a (by rw [h1]; exact ha) c (List.mem_cons_of_mem _ hc)
  · exact hrest

theorem pmergePass_order (img : Image) (r g b : Nat) (rest : List PRect) :
    ∀ acc, RunList img r g b rest → MergeInv img r g b acc rest → OrderInv acc rest →
      (pmergePass rest acc).Pairwise Before := by
  induction rest with
  | nil =>
    intro acc _ _ h
    exact h.accSorted
  | cons o rest ih =>
    intro acc hruns hinv h
    rw [pmergePass]
    cases hm : ptryMerge o acc with
    | none => exact ih _ hruns.tail (hinv.step_none hruns hm) h.order_step_none
    | some acc' => exact ih _ hruns.tail (hinv.step_some hruns hm) (h.order_step_some hruns hinv hm)

theorem ImageRuns.before {img : Image} {r g b k : Nat} {runs : List PRect}
    (h : ImageRuns img r g b k runs) : runs.Pairwise Before := by
  refine List.Pairwise.imp_of_mem ?_ h.sorted
  intro a c ha hc hac
  have h1 := (h.shape a ha).2.1
  have h2 := (h.shape c hc).2.1
  unfold Before
  constructor
  · omega
  · intro e
    exact hac.2 (by omega)

/-- The pixel rectangles produced by the two passes, in the order of the output. -/
theorem pixel_segmentation_order (img : Image) (r g b : Nat) :
    ∃ out : List PRect,
      (0 < xScaleOf img → 0 < yScaleOf img →
        aggregateObject img r g b
          = out.map (PRect.toObject (xScaleOf img) (yScaleOf img))) ∧
      out.Pairwise Before ∧ MergeInv img r g b out [] := by
  obtain ⟨runs, hruns1, hruns2⟩ := extractRuns_spec img r g b
  refine ⟨pmergePass runs [], ?_, ?_, ?_⟩
  · intro hsx hsy
    rw [aggregateObject, hruns1]
    exact mergePass_map _ _ hsx hsy runs []
  · exact pmergePass_order img r g b runs [] hruns2.runList (mergeInv_nil img r g b runs)
      ⟨List.Pairwise.nil, (fun a ha => by cases ha), hruns2.before⟩
  · exact pmergePass_inv img r g b runs [] hruns2.runList (mergeInv_nil img r g b runs)

theorem scaled_le_iff (s : ℚ) (hs : 0 < s) (m n : Nat) :
    (m : ℚ) * s ≤ (n : ℚ) * s ↔ m ≤ n := by
  rw [mul_le_mul_right hs, Nat.cast_le]

theorem scaled_lt_iff (s : ℚ) (hs : 0 < s) (m n : Nat) :
    (m : ℚ) * s < (n : ℚ) * s ↔ m < n := by
  rw [mul_lt_mul_right hs, Nat.cast_lt]

/-- C18, counterexample: of the two rectangles returned for the 1x3 image, whose row ranges are
disjoint, the one with the larger `y` (the bottom pixel) comes first and the one with the smaller
`y` (the top pixel) comes second; and of the two rectangles returned for the 4x2 image, which
both start in row 0, the one with the larger `x` comes first. -/
theorem emission_bottom_first :
    aggregateObject twoRowsImage 7 7 7 = [⟨0, 400, 800, 200⟩, ⟨0, 0, 800, 200⟩] ∧
    (0 : ℚ) + 200 ≤ 400 ∧
    aggregateObject hookImage 7 7 7 = [⟨400, 0, 200, 600⟩, ⟨0, 0, 200, 300⟩] := by
  decide!

/-- C18, amended: for an image of width 1..800 and height 1..600 the output of `aggregateObject`
is ordered bottom-to-top, then left-to-right: of two output rectangles with disjoint row ranges
the one nearer the bottom of the image (larger `y`) appears earlier, and of two rectangles that
end in the same row the one with the smaller `x` appears earlier. -/
theorem aggregateObject_order (img : Image) (r g b : Nat)
    (hw1 : 1 ≤ img.width) (hw2 : img.width ≤ 800)
    (hh1 : 1 ≤ img.height) (hh2 : img.height ≤ 600)
    (i j : Nat) (A B : Object)
    (hA : (aggregateObject img r g b)[i]? = some A)
    (hB : (aggregateObject img r g b)[j]? = some B) :
    (B.y + B.height ≤ A.y → i < j) ∧
    (A.y + A.height = B.y + B.height → A.x < B.x → i < j) := by
  have hsx := xScaleOf_pos img hw1 hw2
  have hsy := yScaleOf_pos img hh1 hh2
  obtain ⟨out, hout, hord, hinv⟩ := pixel_segmentation_order img r g b
  rw [hout hsx hsy, List.getElem?_map] at hA hB
  obtain ⟨a, ha, rfl⟩ := Option.map_eq_some'.mp hA
  obtain ⟨c, hc, rfl⟩ := Option.map_eq_some'.mp hB
  obtain ⟨hi, hai⟩ := List.getElem?_eq_some.mp ha
  obtain ⟨hj, hcj⟩ := List.getElem?_eq_some.mp hc
  have hmema : a ∈ out := by rw [← hai]; exact List.getElem_mem hi
  have hpa := hinv.pos a hmema
  have hpw := List.pairwise_iff_getElem.mp hord
  have hback : j < i → Before c a := by
    intro hlt
    have := hpw j i hj hi hlt
    rw [hai, hcj] at this
    exact this
  have hsame : i = j → c = a := by
    intro e
    subst e
    rw [← hai, ← hcj]
  unfold PRect.toObject
  simp only
  constructor
  · intro hle
    rw [← add_mul, ← Nat.cast_add, scaled_le_iff _ hsy] at hle
    by_contra hn
    rcases Nat.lt_or_eq_of_le (not_lt.mp hn) with hlt | heq
    · have := (hback hlt).1
      omega
    · have := hsame heq.symm
      rw [this] at hle
      omega
  · intro heq hlt
    rw [← add_mul, ← add_mul, ← Nat.cast_add, ← Nat.cast_add, scaled_eq_iff _ hsy] at heq
    rw [scaled_lt_iff _ hsx] at hlt
    by_contra hn
    rcases Nat.lt_or_eq_of_le (not_lt.mp hn) with hlt2 | heq2
    · have := (hback hlt2).2 heq
      omega
    · have := hsame heq2.symm
      rw [this] at hlt
      omega

/-- Witness for C18 amended: the two rectangles returned for the 1x3 image. -/
theorem aggregateObject_order_witness :
    (aggregateObject twoRowsImage 7 7 7)[0]? = some ⟨0, 400, 800, 200⟩ ∧
    (aggregateObject twoRowsImage 7 7 7)[1]? = some ⟨0, 0, 800, 200⟩ ∧
    (((0 : ℚ) + 200 ≤ 400 → 0 < 1) ∧
      ((400 : ℚ) + 200 = 0 + 200 → (0 : ℚ) < 0 → 0 < 1)) :=
  ⟨by decide!, by decide!,
    aggregateObject_order twoRowsImage 7 7 7 (by decide) (by decide) (by decide) (by decide)
      0 1 ⟨0, 400, 800, 200⟩ ⟨0, 0, 800, 200⟩ (by decide!) (by decide!)⟩

theorem length_le_of_injOn {α β : Type} (l : List α) (m : List β) (f : α → β)
    (hl : l.Nodup) (hf : ∀ a ∈ l, f a ∈ m)
    (hinj : ∀ a ∈ l, ∀ a' ∈ l, f a = f a' → a = a') : l.length ≤ m.length := by
  have hnd : (l.map f).Nodup := List.Nodup.map_on hinj hl
  have hsub : l.map f ⊆ m := by
    intro y hy
    obtain ⟨a, ha, rfl⟩ := List.mem_map.mp hy
    exact hf a ha
  have := (List.subperm_of_subset hnd hsub).length_le
  rwa [List.length_map] at this

theorem pdisjoint_ne (a c : PRect) (ha : 1 ≤ a.wd ∧ 1 ≤ a.ht) (h : PDisjoint a c) : a ≠ c := by
  intro e
  subst e
  exact h a.x0 a.y0 ⟨by unfold PRect.covers; omega, by unfold PRect.covers; omega⟩

theorem eq_of_common_pixel (l : List PRect) (hl : l.Pairwise PDisjoint) (a c : PRect)
    (ha : a ∈ l) (hc : c ∈ l) (px py : Nat) (h1 : a.covers px py) (h2 : c.covers px py) :
    a = c := by
  by_contra hne
  exact hl.forall (fun x y hxy => PDisjoint.symm hxy) ha hc hne px py ⟨h1, h2⟩

theorem MergeInv.leftMax {img : Image} {r g b : Nat} {out : List PRect}
    (hinv : MergeInv img r g b out []) (hdis : out.Pairwise PDisjoint)
    (hcov : ∀ px py, (∃ a ∈ out, a.covers px py) ↔ (py < img.height ∧ Matching img r g b px py))
    (a : PRect) (ha : a ∈ out) (py : Nat) (h1 : a.y0 ≤ py) (h2 : py < a.y0 + a.ht)
    (j : Nat) (hj : j + 1 = a.x0) : ¬ Matching img r g b j py := by
  intro hm
  have hpa := hinv.pos a ha
  have hin : a.covers a.x0 py := by unfold PRect.covers; omega
  have hpy : py < img.height := ((hcov a.x0 py).mp ⟨a, ha, hin⟩).1
  obtain ⟨c, hc, hcc⟩ := (hcov j py).mpr ⟨hpy, hm⟩
  have hmax := hinv.rightMax c hc py hcc.2.2.1 hcc.2.2.2
  by_cases hend : c.x0 + c.wd = a.x0
  · rw [hend] at hmax
    exact hmax (hinv.sound a ha a.x0 py hin)
  · have hcin : c.covers a.x0 py := by
      unfold PRect.covers at hcc ⊢
      omega
    have := eq_of_common_pixel out hdis c a hc ha a.x0 py hcin hin
    rw [this] at hcc
    unfold PRect.covers at hcc
    omega

theorem same_extent {img : Image} {r g b : Nat} {out cs : List PRect}
    (hinv : MergeInv img r g b out []) (hdis : out.Pairwise PDisjoint)
    (hcov : ∀ px py, (∃ a ∈ out, a.covers px py) ↔ (py < img.height ∧ Matching img r g b px py))
    (hcs : ExactCover img r g b cs) (hal : ∀ c ∈ cs, RunAligned img r g b c)
    (a c : PRect) (ha : a ∈ out) (hc : c ∈ cs) (px py : Nat)
    (h1 : a.covers px py) (h2 : c.covers px py) : a.x0 = c.x0 ∧ a.wd = c.wd := by
  have hcm : ∀ qx, c.x0 ≤ qx → qx < c.x0 + c.wd → Matching img r g b qx py := by
    intro qx q1 q2
    have := (hcs.2.2 qx py).mp ⟨c, hc, by unfold PRect.covers at h2 ⊢; omega⟩
    exact ⟨this.1, this.2.2⟩
  have ham : ∀ qx, a.x0 ≤ qx → qx < a.x0 + a.wd → Matching img r g b qx py := by
    intro qx q1 q2
    exact hinv.sound a ha qx py (by unfold PRect.covers at h1 ⊢; omega)
  have hca := hal c hc py h2.2.2.1 h2.2.2.2
  have haR := hinv.rightMax a ha py h1.2.2.1 h1.2.2.2
  have haL := hinv.leftMax hdis hcov a ha py h1.2.2.1 h1.2.2.2
  unfold PRect.covers at h1 h2
  have hx : a.x0 = c.x0 := by
    rcases Nat.lt_trichotomy a.x0 c.x0 with hlt | heq | hgt
    · exact absurd (ham (c.x0 - 1) (by omega) (by omega)) (hca.2 (c.x0 - 1) (by omega))
    · exact heq
    · exact absurd (hcm (a.x0 - 1) (by omega) (by omega)) (haL (a.x0 - 1) (by omega))
  refine ⟨hx, ?_⟩
  rcases Nat.lt_trichotomy a.wd c.wd with hlt | heq | hgt
  · exact absurd (hcm (a.x0 + a.wd) (by omega) (by omega)) haR
  · exact heq
  · exfalso
    apply hca.1
    exact ham (c.x0 + c.wd) (by omega) (by omega)

theorem no_two_tops_in_one {img : Image} {r g b : Nat} {out cs : List PRect}
    (hinv : MergeInv img r g b out []) (hdis : out.Pairwise PDisjoint)
    (hcov : ∀ px py, (∃ a ∈ out, a.covers px py) ↔ (py < img.height ∧ Matching img r g b px py))
    (hcs : ExactCover img r g b cs) (hal : ∀ c ∈ cs, RunAligned img r g b c)
    (a a' c : PRect) (ha : a ∈ out) (ha' : a' ∈ out) (hc : c ∈ cs)
    (h1 : c.covers a.x0 a.y0) (h2 : c.covers a'.x0 a'.y0) (hlt : a.y0 < a'.y0) : False := by
  have hpa := hinv.pos a ha
  have hpa' := hinv.pos a' ha'
  have hpc := hcs.2.1 c hc
  have ha0 : a.covers a.x0 a.y0 := by unfold PRect.covers; omega
  have ha0' : a'.covers a'.x0 a'.y0 := by unfold PRect.covers; omega
  obtain ⟨e1, e2⟩ := same_extent hinv hdis hcov hcs hal a c ha hc a.x0 a.y0 ha0 h1
  obtain ⟨e1', e2'⟩ := same_extent hinv hdis hcov hcs hal a' c ha' hc a'.x0 a'.y0 ha0' h2
  have hne : a ≠ a' := by
    intro e
    rw [e] at hlt
    exact lt_irrefl _ hlt
  -- the top of `a'` lies below the last row of `a`
  have hbelow : a.y0 + a.ht ≤ a'.y0 := by
    by_contra hn
    have : a.covers a'.x0 a'.y0 := by unfold PRect.covers; omega
    exact hne (eq_of_common_pixel out hdis a a' ha ha' a'.x0 a'.y0 this ha0')
  unfold PRect.covers at h1 h2
  -- the pixel below the bottom-left corner of `a` lies in `c`, hence in some output rectangle
  have hcr : c.covers a.x0 (a.y0 + a.ht) := by unfold PRect.covers; omega
  have hm := (hcs.2.2 a.x0 (a.y0 + a.ht)).mp ⟨c, hc, hcr⟩
  obtain ⟨R, hR, hRc⟩ := (hcov a.x0 (a.y0 + a.ht)).mpr ⟨hm.2.1, hm.1, hm.2.2⟩
  obtain ⟨f1, f2⟩ := same_extent hinv hdis hcov hcs hal R c hR hc a.x0 (a.y0 + a.ht) hRc hcr
  have hneR : a ≠ R := by
    intro e
    rw [← e] at hRc
    unfold PRect.covers at hRc
    omega
  have hRtop : R.y0 = a.y0 + a.ht := by
    by_contra hn
    unfold PRect.covers at hRc
    have hRin : R.covers a.x0 (a.y0 + a.ht - 1) := by unfold PRect.covers; omega
    have hain : a.covers a.x0 (a.y0 + a.ht - 1) := by unfold PRect.covers; omega
    exact hneR (eq_of_common_pixel out hdis a R ha hR _ _ hain hRin)
  have hnoV := hinv.noV.forall (fun x y hxy => ⟨hxy.2, hxy.1⟩) ha hR hneR
  exact hnoV.1 ⟨by omega, by omega, hRtop.symm⟩

theorem pixel_minimal_among_run_aligned {img : Image} {r g b : Nat} {out cs : List PRect}
    (hinv : MergeInv img r g b out []) (hdis : out.Pairwise PDisjoint)
    (hcov : ∀ px py, (∃ a ∈ out, a.covers px py) ↔ (py < img.height ∧ Matching img r g b px py))
    (hcs : ExactCover img r g b cs) (hal : ∀ c ∈ cs, RunAligned img r g b c) :
    out.length ≤ cs.length := by
  have hex : ∀ a : PRect, ∃ c : PRect, a ∈ out → (c ∈ cs ∧ c.covers a.x0 a.y0) := by
    intro a
    by_cases ha : a ∈ out
    · have hpa := hinv.pos a ha
      have ha0 : a.covers a.x0 a.y0 := by unfold PRect.covers; omega
      have hm := (hcov a.x0 a.y0).mp ⟨a, ha, ha0⟩
      obtain ⟨c, hc, hcc⟩ := (hcs.2.2 a.x0 a.y0).mpr ⟨hm.2.1, hm.1, hm.2.2⟩
      exact ⟨c, fun _ => ⟨hc, hcc⟩⟩
    · exact ⟨a, fun h => absurd h ha⟩
  choose f hf using hex
  apply length_le_of_injOn out cs f
  · exact hdis.imp_of_mem (fun {a c} ha _ hac => pdisjoint_ne a c (hinv.pos a ha) hac)
  · intro a ha
    exact (hf a ha).1
  · intro a ha a' ha' hfa
    have h1 := (hf a ha).2
    have h2 := (hf a' ha').2
    rw [← hfa] at h2
    have hpa := hinv.pos a ha
    have hpa' := hinv.pos a' ha'
    have ha0 : a.covers a.x0 a.y0 := by unfold PRect.covers; omega
    have ha0' : a'.covers a'.x0 a'.y0 := by unfold PRect.covers; omega
    rcases Nat.lt_trichotomy a.y0 a'.y0 with hlt | heq | hgt
    · exact absurd (no_two_tops_in_one hinv hdis hcov hcs hal a a' (f a) ha ha' (hf a ha).1
        h1 h2 hlt) id
    · obtain ⟨e1, _⟩ := same_extent hinv hdis hcov hcs hal a (f a) ha (hf a ha).1 _ _ ha0 h1
      obtain ⟨e1', _⟩ := same_extent hinv hdis hcov hcs hal a' (f a) ha' (hf a ha).1 _ _ ha0' h2
      have : a'.covers a.x0 a.y0 := by unfold PRect.covers; omega
      exact eq_of_common_pixel out hdis a a' ha ha' _ _ ha0 this
    · exact absurd (no_two_tops_in_one hinv hdis hcov hcs hal a' a (f a) ha' ha (hf a ha).1
        h2 h1 hgt) id

/-- C13, counterexample: for the T-shaped 2x3 image `aggregateObject` returns three rectangles,
while two pixel rectangles, the column (0,0)-(0,2) and the pixel (1,1), are non-overlapping and
cover exactly the matching pixels. -/
theorem tShape_not_minimal :
    (aggregateObject tShapeImage 7 7 7).length = 3 ∧
    ExactCover tShapeImage 7 7 7 [⟨0, 0, 1, 3⟩, ⟨1, 1, 1, 1⟩] := by
  refine ⟨by decide!, ?_, ?_, ?_⟩
  · rw [List.pairwise_cons]
    refine ⟨?_, List.pairwise_singleton _ _⟩
    intro c hc px py hcov
    rw [List.mem_singleton.mp hc] at hcov
    unfold PRect.covers at hcov
    simp only at hcov
    omega
  · intro c hc
    simp only [List.mem_cons, List.mem_singleton, List.not_mem_nil, or_false] at hc
    rcases hc with rfl | rfl <;> exact ⟨le_refl _, by decide⟩
  · intro px py
    by_cases hx : px < 2
    · by_cases hy : py < 3
      · interval_cases px <;> interval_cases py <;>
          simp [PRect.covers, tShapeImage, pixelMatches]
      · simp only [List.mem_cons, List.mem_singleton, List.not_mem_nil, or_false, exists_eq_or_imp,
          exists_eq_left, PRect.covers, tShapeImage]
        constructor
        · intro h; omega
        · intro h; omega
    · simp only [List.mem_cons, List.mem_singleton, List.not_mem_nil, or_false, exists_eq_or_imp,
        exists_eq_left, PRect.covers, tShapeImage]
      constructor
      · intro h; omega
      · intro h; omega

/-- C13, amended: for an image of width 1..800 and height 1..600, the number of rectangles
returned by `aggregateObject` is minimal among the covers whose rectangles are built from whole
runs: no list of fewer pairwise non-overlapping pixel rectangles, each row of each being a
maximal horizontal run of matching pixels, covers exactly the matching pixels. -/
theorem aggregateObject_minimal_among_run_aligned (img : Image) (r g b : Nat)
    (hw1 : 1 ≤ img.width) (hw2 : img.width ≤ 800)
    (hh1 : 1 ≤ img.height) (hh2 : img.height ≤ 600)
    (cs : List PRect) (hcs : ExactCover img r g b cs)
    (hal : ∀ c ∈ cs, RunAligned img r g b c) :
    (aggregateObject img r g b).length ≤ cs.length := by
  have hsx := xScaleOf_pos img hw1 hw2
  have hsy := yScaleOf_pos img hh1 hh2
  obtain ⟨out, hout, hdis, hcov, hinv⟩ := pixel_segmentation img r g b
  rw [hout hsx hsy, List.length_map]
  exact pixel_minimal_among_run_aligned hinv hdis hcov hcs hal

theorem scenario1_cover :
    ExactCover scenario1 255 255 255 [⟨0, 1, 2, 1⟩, ⟨1, 0, 1, 1⟩] := by
  refine ⟨?_, ?_, ?_⟩
  · rw [List.pairwise_cons]
    refine ⟨?_, List.pairwise_singleton _ _⟩
    intro c hc px py hcov
    rw [List.mem_singleton.mp hc] at hcov
    unfold PRect.covers at hcov
    simp only at hcov
    omega
  · intro c hc
    simp only [List.mem_cons, List.mem_singleton, List.not_mem_nil, or_false] at hc
    rcases hc with rfl | rfl <;> exact ⟨by decide, by decide⟩
  · intro px py
    by_cases hx : px < 2
    · by_cases hy : py < 2
      · interval_cases px <;> interval_cases py <;>
          simp [PRect.covers, scenario1, pixelMatches]
      · simp only [List.mem_cons, List.mem_singleton, List.not_mem_nil, or_false, exists_eq_or_imp,
          exists_eq_left, PRect.covers, scenario1]
        constructor
        · intro h; omega
        · intro h; omega
    · simp only [List.mem_cons, List.mem_singleton, List.not_mem_nil, or_false, exists_eq_or_imp,
        exists_eq_left, PRect.covers, scenario1]
      constructor
      · intro h; omega
      · intro h; omega

theorem scenario1_cover_aligned :
    ∀ c ∈ [(⟨0, 1, 2, 1⟩ : PRect), ⟨1, 0, 1, 1⟩], RunAligned scenario1 255 255 255 c := by
  intro c hc
  simp only [List.mem_cons, List.mem_singleton, List.not_mem_nil, or_false] at hc
  rcases hc with rfl | rfl
  · intro py h1 h2
    simp only at h1 h2
    constructor
    · intro hm
      have := hm.1
      simp [scenario1] at this
    · intro j hj
      simp at hj
  · intro py h1 h2
    simp only at h1 h2
    have hpy : py = 0 := by omega
    subst hpy
    constructor
    · intro hm
      have := hm.1
      simp [scenario1] at this
    · intro j hj hm
      have hj0 : j = 0 := by simpa using hj
      subst hj0
      have := hm.2
      simp [scenario1, pixelMatches] at this

/-- Witness for C13 amended: the white pixels of the image of Scenario 1, covered by their two
runs. -/
theorem aggregateObject_minimal_among_run_aligned_witness :
    (aggregateObject scenario1 255 255 255).length ≤ 2 :=
  aggregateObject_minimal_among_run_aligned scenario1 255 255 255
    (by decide) (by decide) (by decide) (by decide)
    [⟨0, 1, 2, 1⟩, ⟨1, 0, 1, 1⟩] scenario1_cover scenario1_cover_aligned

/-- Witness for C20: the white pixels of the image of Scenario 1. -/
theorem extractRuns_eq_plain_witness :
    extractRuns scenario1 255 255 255 = extractRunsPlain scenario1 255 255 255 :=
  (extractRuns_eq_plain scenario1 255 255 255 (by decide) (by decide)).1

/-- C19, the code at the failing input: the level `ledgeImage` is loaded, the player lands on the
platform, the right key is pressed and four frames pass.  The player then is at x = 20, beside
the platform (which spans 0..20), 0.2 below its former height, and `onGround` is still true
although no platform carries the player. -/
theorem grounded_after_walking_off :
    afterWalkOff.map (fun g => (g.player.x, g.player.y, g.player.height, g.player.onGround))
      = some (20, 1 / 5, 300, true) ∧
    afterWalkOff.map (fun g => g.platforms) = some [⟨0, 300, 20, 300⟩] ∧
    afterWalkOff.map (fun g => decide (Supported g)) = some false := by
  decide!

/-! ## Configuration reader: theorems -/

theorem keyLt_trans : ∀ (a c e : List Char), keyLt a c = true → keyLt c e = true →
    keyLt a e = true := by
  intro a
  induction a with
  | nil =>
    intro c e h1 h2
    cases c with
    | nil => cases h1
    | cons c cs =>
      cases e with
      | nil => cases h2
      | cons e es => rfl
  | cons a as ih =>
    intro c e h1 h2
    cases c with
    | nil => cases h1
    | cons c cs =>
      cases e with
      | nil => cases h2
      | cons e es =>
        simp only [keyLt, Bool.or_eq_true, Bool.and_eq_true, decide_eq_true_eq, beq_iff_eq] at *
        rcases h1 with h1 | ⟨h1, h1'⟩
        · rcases h2 with h2 | ⟨h2, _⟩
          · left; omega
          · left; omega
        · rcases h2 with h2 | ⟨h2, h2'⟩
          · left; omega
          · right
            exact ⟨by omega, ih cs es h1' h2'⟩

theorem mapAssign_keys (key : List Char) (value : JsonNode) :
    ∀ (members : List (List Char × JsonNode)) (kv : List Char × JsonNode),
      kv ∈ mapAssign key value members →
      (kv = (key, value) ∨ kv ∈ members ∨ (kv.2 = value ∧ ∃ kv' ∈ members, kv'.1 = kv.1)) := by
  intro members
  induction members with
  | nil =>
    intro kv h
    rw [mapAssign] at h
    exact Or.inl (List.mem_singleton.mp h)
  | cons m rest ih =>
    intro kv h
    obtain ⟨k, v⟩ := m
    rw [mapAssign] at h
    split_ifs at h
    · rcases List.mem_cons.mp h with h | h
      · exact Or.inl h
      · exact Or.inr (Or.inl h)
    · rcases List.mem_cons.mp h with h | h
      · exact Or.inr (Or.inl (by rw [h]; exact List.mem_cons_self _ _))
      · rcases ih kv h with h | h | ⟨h, kv', hkv', e⟩
        · exact Or.inl h
        · exact Or.inr (Or.inl (List.mem_cons_of_mem _ h))
        · exact Or.inr (Or.inr ⟨h, kv', List.mem_cons_of_mem _ hkv', e⟩)
    · rcases List.mem_cons.mp h with h | h
      · right; right
        rw [h]
        exact ⟨rfl, (k, v), List.mem_cons_self _ _, rfl⟩
      · exact Or.inr (Or.inl (List.mem_cons_of_mem _ h))

theorem mapAssign_sorted (key : List Char) (value : JsonNode) :
    ∀ members : List (List Char × JsonNode), SortedMembers members →
      SortedMembers (mapAssign key value members) := by
  intro members
  induction members with
  | nil =>
    intro _
    rw [mapAssign]
    exact List.pairwise_singleton _ _
  | cons m rest ih =>
    intro hs
    obtain ⟨k, v⟩ := m
    obtain ⟨hk, hrest⟩ := List.pairwise_cons.mp hs
    rw [mapAssign]
    split_ifs with h1 h2
    · refine List.Pairwise.cons ?_ hs
      intro c hc
      rcases List.mem_cons.mp hc with rfl | hc
      · exact h1
      · exact keyLt_trans _ _ _ h1 (hk c hc)
    · refine List.Pairwise.cons ?_ (ih hrest)
      intro c hc
      rcases mapAssign_keys key value rest c hc with rfl | hc | ⟨_, kv', hkv', e⟩
      · exact h2
      · exact hk c hc
      · have := hk kv' hkv'
        rw [e] at this
        exact this
    · exact List.Pairwise.cons hk hrest

theorem mapAssign_values (key : List Char) (value : JsonNode)
    (members : List (List Char × JsonNode)) (Q : JsonNode → Prop)
    (hv : Q value) (hm : ∀ kv ∈ members, Q kv.2) :
    ∀ kv ∈ mapAssign key value members, Q kv.2 := by
  intro kv hkv
  rcases mapAssign_keys key value members kv hkv with rfl | h | ⟨h, _⟩
  · exact hv
  · exact hm kv h
  · rw [h]; exact hv

theorem Parser.parseString_node (p p1 : Parser) (node : JsonNode)
    (h : p.parseString = Outcome.ok (node, p1)) : ∃ s, node = JsonNode.string s := by
  unfold Parser.parseString at h
  split_ifs at h
  split at h
  · cases h; exact ⟨_, rfl⟩
  · cases h
  · cases h

theorem Parser.parseNumber_node (p p1 : Parser) (node : JsonNode)
    (h : p.parseNumber = Outcome.ok (node, p1)) : ∃ d, node = JsonNode.number d := by
  unfold Parser.parseNumber at h
  split_ifs at h
  split at h
  · cases h
  · split at h
    · cases h; exact ⟨_, rfl⟩
    · cases h
    · cases h

theorem Parser.parseBoolean_node (p p1 : Parser) (node : JsonNode)
    (h : p.parseBoolean = Outcome.ok (node, p1)) : ∃ v, node = JsonNode.boolean v := by
  unfold Parser.parseBoolean at h
  split_ifs at h
  split at h
  · cases h; exact ⟨_, rfl⟩
  · cases h
  · cases h

theorem Parser.parseNull_node (p p1 : Parser) (node : JsonNode)
    (h : p.parseNull = Outcome.ok (node, p1)) : node = JsonNode.null := by
  unfold Parser.parseNull at h
  split_ifs at h
  split at h
  · cases h; rfl
  · cases h
  · cases h

theorem keyOrdered_of_not_object (node : JsonNode)
    (h : ∀ members, node ≠ JsonNode.object members) : KeyOrdered node :=
  fun members e => absurd e (h members)

/-- The invariant of the parser: every node it returns is key ordered; the loop of `parseObject`
keeps its map sorted and returns an object, the loop of `parseArray` returns an array. -/
theorem parser_keyOrdered : ∀ fuel : Nat,
    (∀ p node p', parseValue fuel p = Outcome.ok (node, p') → KeyOrdered node) ∧
    (∀ members p node p', SortedMembers members →
      (∀ kv ∈ members, ∀ inner, kv.2 = JsonNode.object inner → SortedMembers inner) →
      parseObjectLoop fuel members p = Outcome.ok (node, p') → KeyOrdered node) ∧
    (∀ items p node p', parseArrayLoop fuel items p = Outcome.ok (node, p') →
      ∃ ys, node = JsonNode.array ys) := by
  intro fuel
  induction fuel with
  | zero =>
    refine ⟨?_, ?_, ?_⟩
    · intro p node p' h; rw [parseValue] at h; cases h
    · intro ms p node p' _ _ h; rw [parseObjectLoop] at h; cases h
    · intro xs p node p' h; rw [parseArrayLoop] at h; cases h
  | succ f ih =>
    obtain ⟨ihV, ihO, ihA⟩ := ih
    refine ⟨?_, ?_, ?_⟩
    · intro p node p' h
      rw [parseValue] at h
      split at h
      · obtain ⟨s, rfl⟩ := Parser.parseString_node _ _ _ h
        exact keyOrdered_of_not_object _ (fun _ e => by cases e)
      · obtain ⟨s, rfl⟩ := Parser.parseNumber_node _ _ _ h
        exact keyOrdered_of_not_object _ (fun _ e => by cases e)
      · obtain ⟨s, rfl⟩ := Parser.parseBoolean_node _ _ _ h
        exact keyOrdered_of_not_object _ (fun _ e => by cases e)
      · have := Parser.parseNull_node _ _ _ h
        rw [this]
        exact keyOrdered_of_not_object _ (fun _ e => by cases e)
      · split at h
        · exact ihO [] _ node p' List.Pairwise.nil (fun kv hkv => by cases hkv) h
        · cases h
        · cases h
      · split at h
        · obtain ⟨ys, rfl⟩ := ihA [] _ node p' h
          exact keyOrdered_of_not_object _ (fun _ e => by cases e)
        · cases h
        · cases h
      · cases h
    · intro ms p node p' hs hin h
      rw [parseObjectLoop] at h
      split_ifs at h
      · split at h
        · split at h
          · split at h
            · rename_i value p3 hval
              split at h
              · refine ihO _ _ node p' (mapAssign_sorted _ _ ms hs) ?_ h
                have hvo := ihV _ _ _ hval
                exact mapAssign_values _ value ms
                  (fun n => ∀ inner, n = JsonNode.object inner → SortedMembers inner)
                  (fun inner e => (hvo inner e).1) hin
              · cases h
              · cases h
            · cases h
            · cases h
          · cases h
          · cases h
        · cases h
        · cases h
        · cases h
      · split at h
        · cases h
          intro members e
          cases e
          exact ⟨hs, hin⟩
        · cases h
        · cases h
    · intro xs p node p' h
      rw [parseArrayLoop] at h
      split_ifs at h
      · split at h
        · split at h
          · exact ihA _ _ node p' h
          · cases h
          · cases h
        · cases h
        · cases h
      · split at h
        · cases h; exact ⟨_, rfl⟩
        · cases h
        · cases h

theorem parse_keyOrdered (input : List Char) (root : JsonNode)
    (h : parse input = Outcome.ok root) : KeyOrdered root := by
  unfold parse at h
  split at h
  · split at h
    · rename_i node p' hv
      cases h
      exact (parser_keyOrdered _).1 _ _ _ hv
    · cases h
    · cases h
  · cases h
  · cases h


theorem lookup_mem (key : List Char) (value : JsonNode) :
    ∀ members : List (List Char × JsonNode), members.lookup key = some value →
      ∃ kv ∈ members, kv.2 = value := by
  intro members
  induction members with
  | nil => intro h; cases h
  | cons m rest ih =>
    intro h
    obtain ⟨k, v⟩ := m
    rw [List.lookup] at h
    split at h
    · exact ⟨(k, v), List.mem_cons_self _ _, Option.some.inj h⟩
    · obtain ⟨kv, hkv, e⟩ := ih h
      exact ⟨kv, List.mem_cons_of_mem _ hkv, e⟩

theorem member_sorted (root : JsonNode) (key : List Char) (members : List (List Char × JsonNode))
    (hroot : KeyOrdered root) (h : root.member key = Outcome.ok (JsonNode.object members)) :
    SortedMembers members := by
  unfold JsonNode.member at h
  split at h
  · rename_i rootMembers
    split at h
    · rename_i value hl
      cases h
      obtain ⟨kv, hkv, e⟩ := lookup_mem key _ rootMembers hl
      exact (hroot rootMembers rfl).2 kv hkv members e
    · cases h
  · cases h

theorem readLevels_levels : ∀ (members : List (List Char × JsonNode)) (g g' : Game),
    readLevels members g = Outcome.ok g' →
      g'.levels = g.levels ++ members.map (fun kv => String.mk kv.1) := by
  intro members
  induction members with
  | nil =>
    intro g g' h
    rw [readLevels] at h
    cases h
    simp
  | cons m rest ih =>
    intro g g' h
    obtain ⟨name, node⟩ := m
    rw [readLevels] at h
    simp only at h
    split at h
    · split at h
      · split at h
        · have := ih _ _ h
          rw [this]
          simp
        · cases h
        · cases h
      · cases h
      · cases h
      · cases h
    · cases h
    · cases h

/-- C12, counterexample: in the text `configBA` the key `b.png` is written before `a.png`, but
`levels` ends as `a.png`, `b.png` and the level loaded first is `a.png`. -/
theorem levels_not_in_document_order :
    (loadExternalData scenario1Files configBA (startGame [])).toOption.map
      (fun g => (g.levels, g.loadLog)) = some (["a.png", "b.png"], ["a.png"]) := by
  decide!

/-- C12, amended: when `loadExternalData` succeeds (from an empty `levels`), `levels` lists the
keys of the top-level `levels` object in the order of the `std::map` the parser stores them in:
strictly ascending by character code, each key once, whatever their order in the document; so
level 0 is the smallest key. -/
theorem loadExternalData_levels_ascending (files : String → Option Image)
    (config : List Char) (g0 g : Game) (h0 : g0.levels = [])
    (h : loadExternalData files config g0 = Outcome.ok g) :
    ∃ root members, parse config = Outcome.ok root ∧
      root.member "levels".toList = Outcome.ok (JsonNode.object members) ∧
      g.levels = members.map (fun kv => String.mk kv.1) ∧
      g.levels.Pairwise (fun a c => keyLt a.data c.data = true) := by
  unfold loadExternalData at h
  split at h
  · rename_i g1 hcfg
    split at h
    · rename_i filepath _
      split at h
      · rename_i g2 hload
        cases h
        unfold readConfig at hcfg
        split at hcfg
        · rename_i root hparse
          split at hcfg
          · rename_i members hmem
            have hlv := readLevels_levels members g0 g1 hcfg
            rw [h0, List.nil_append] at hlv
            have hg : g.levels = members.map (fun kv => String.mk kv.1) := by
              rw [(loadBitmap_frame files filepath g1 g hload).2.2, hlv]
            refine ⟨root, members, hparse, hmem, hg, ?_⟩
            rw [hg, List.pairwise_map]
            exact member_sorted root _ members (parse_keyOrdered config root hparse) hmem
          · cases hcfg
          · cases hcfg
          · cases hcfg
        · cases hcfg
        · cases hcfg
      · cases h
    · cases h
  · cases h
  · cases h

/-- Witness for C12 amended: the text `configBA`. -/
theorem loadExternalData_levels_ascending_witness :
    ∃ g, loadExternalData scenario1Files configBA (startGame []) = Outcome.ok g ∧
      g.levels.Pairwise (fun a c => keyLt a.data c.data = true) := by
  have hok : (loadExternalData scenario1Files configBA (startGame [])).toOption.isSome = true := by
    decide!
  cases hl : loadExternalData scenario1Files configBA (startGame []) with
  | ok g =>
    exact ⟨g, rfl,
      (loadExternalData_levels_ascending scenario1Files configBA (startGame []) g rfl
        hl).choose_spec.choose_spec.2.2.2⟩
  | thrown m => rw [hl] at hok; cases hok
  | outOfFuel => rw [hl] at hok; cases hok

/-- C11, the code at the failing input: `configSpeeds` gives level `a.png` the speed 1 and level
`b.png` the speed 2; `loadExternalData` stores the speeds of all levels in one list, and when
level 1 (`b.png`) is loaded its only enemy receives (1, 1), the speed configured for level 0. -/
theorem second_level_takes_first_speeds :
    (loadExternalData enemyFiles configSpeeds (startGame [])).toOption.map
      (fun g => (g.levels, g.enemySpeeds)) = some (["a.png", "b.png"], [(1, 1), (2, 2)]) ∧
    secondLevelLoaded.map (fun g => (g.loadLog, g.enemies.map (fun e => (e.dx, e.dy))))
      = some (["a.png", "b.png"], [(1, 1)]) := by
  decide!


theorem Lexer.stringToken_unterminated (lx : Lexer)
    (h : ∀ c ∈ lx.input.drop (lx.position + 1), c.toNat ≠ 34) :
    lx.stringToken = Outcome.thrown "Unterminated string in JSON input" := by
  unfold Lexer.stringToken
  have htw : (lx.input.drop (lx.position + 1)).takeWhile (fun c => c.toNat != 34)
      = lx.input.drop (lx.position + 1) := by
    rw [List.takeWhile_eq_self_iff]
    intro c hc
    simp only [bne_iff_ne, ne_eq]
    exact h c hc
  simp only [htw, List.length_drop]
  rw [if_pos (by omega)]

theorem Lexer.nextToken_unterminated (lx : Lexer) (c : Char)
    (hc : lx.skipWhitespace.input[lx.skipWhitespace.position]? = some c) (hq : c.toNat = 34)
    (h : ∀ c' ∈ lx.skipWhitespace.input.drop (lx.skipWhitespace.position + 1), c'.toNat ≠ 34) :
    lx.nextToken = Outcome.thrown "Unterminated string in JSON input" := by
  unfold Lexer.nextToken
  simp only [hc, hq]
  rw [if_pos True.intro]
  exact Lexer.stringToken_unterminated _ h

theorem parseObjectLoop_bad_key (fuel : Nat) (jsonObject : List (List Char × JsonNode))
    (p : Parser) (h1 : p.currentToken.type ≠ TokenType.RIGHT_BRACE)
    (h2 : p.currentToken.type ≠ TokenType.STRING) :
    parseObjectLoop (fuel + 1) jsonObject p = Outcome.thrown "Expected a string" := by
  rw [parseObjectLoop, if_pos h1]
  have : p.parseString = Outcome.thrown "Expected a string" := by
    unfold Parser.parseString
    rw [if_pos h2]
  rw [this]

/-- C16, counterexample: `parse` returns a node, and raises no error, for an array and an object
whose elements are not separated by a comma (`[1 2]`, `{"a": 1 "b": 2}`), for a comma directly
before the closing bracket or brace (`[1,]`, `{"a": 1,}`), and for a second value after the
complete top-level value (`1 2`). -/
theorem parse_accepts_malformed :
    (parse "[1 2]".toList).toOption.isSome = true ∧
    (parse "\x7b\"a\": 1 \"b\": 2\x7d".toList).toOption.isSome = true ∧
    (parse "[1,]".toList).toOption.isSome = true ∧
    (parse "\x7b\"a\": 1,\x7d".toList).toOption.isSome = true ∧
    (parse "1 2".toList).toOption.isSome = true := by
  decide!

/-- C16, amended: `Lexer.nextToken` raises an error whenever, after white space, it meets a
double quote that is not followed by a second double quote, and the loop of `parseObject` raises
an error whenever the token in key position is neither a string nor the closing brace.  So
`parse` raises an error on a double quote followed by characters other than the double quote,
and on a text whose first token is the opening brace and whose second token is neither a string
nor the closing brace. -/
theorem parse_rejects :
    (∀ (lx : Lexer) (c : Char),
      lx.skipWhitespace.input[lx.skipWhitespace.position]? = some c → c.toNat = 34 →
      (∀ c' ∈ lx.skipWhitespace.input.drop (lx.skipWhitespace.position + 1), c'.toNat ≠ 34) →
      lx.nextToken = Outcome.thrown "Unterminated string in JSON input") ∧
    (∀ (fuel : Nat) (jsonObject : List (List Char × JsonNode)) (p : Parser),
      p.currentToken.type ≠ TokenType.RIGHT_BRACE → p.currentToken.type ≠ TokenType.STRING →
      parseObjectLoop (fuel + 1) jsonObject p = Outcome.thrown "Expected a string") ∧
    (∀ s : List Char, (∀ c ∈ s, c.toNat ≠ 34) →
      parse (Char.ofNat 34 :: s) = Outcome.thrown "Unterminated string in JSON input") ∧
    (∀ (input value : List Char) (lexer1 lexer2 : Lexer) (token : Token),
      (Lexer.mk input 0).nextToken = Outcome.ok (⟨TokenType.LEFT_BRACE, value⟩, lexer1) →
      lexer1.nextToken = Outcome.ok (token, lexer2) →
      token.type ≠ TokenType.RIGHT_BRACE → token.type ≠ TokenType.STRING →
      parse input = Outcome.thrown "Expected a string") := by
  refine ⟨Lexer.nextToken_unterminated, parseObjectLoop_bad_key, ?_, ?_⟩
  · intro s hs
    have hsk : (Lexer.mk (Char.ofNat 34 :: s) 0).skipWhitespace = Lexer.mk (Char.ofNat 34 :: s) 0 := by
      unfold Lexer.skipWhitespace
      simp only [List.drop_zero]
      rw [List.takeWhile_cons_of_neg (by decide)]
      rfl
    have hnt : (Lexer.mk (Char.ofNat 34 :: s) 0).nextToken
        = Outcome.thrown "Unterminated string in JSON input" := by
      apply Lexer.nextToken_unterminated _ (Char.ofNat 34)
      · rw [hsk]; simp
      · rfl
      · rw [hsk]
        exact hs
    unfold parse
    rw [hnt]
  · intro input value lexer1 lexer2 token h1 h2 h3 h4
    have hv : parseValue (2 * input.length + 1 + 1)
        { lexer := lexer1, currentToken := ⟨TokenType.LEFT_BRACE, value⟩ }
        = Outcome.thrown "Expected a string" := by
      rw [parseValue]
      simp only [Parser.consumeToken, Parser.advance, h2, ne_eq, not_true_eq_false, if_false]
      exact parseObjectLoop_bad_key (2 * input.length) []
        { lexer := lexer2, currentToken := token } h3 h4
    unfold parse
    rw [h1]
    simp only
    rw [show 2 * input.length + 2 = 2 * input.length + 1 + 1 from rfl, hv]

/-- Witness for C16 amended: the text `"abc` and the text `{1: 2}`. -/
theorem parse_rejects_witness :
    parse "\"abc".toList = Outcome.thrown "Unterminated string in JSON input" ∧
    parse "\x7b1: 2\x7d".toList = Outcome.thrown "Expected a string" :=
  ⟨parse_rejects.2.2.1 "abc".toList (by decide),
    parse_rejects.2.2.2 "\x7b1: 2\x7d".toList [Char.ofNat 123]
      ⟨"\x7b1: 2\x7d".toList, 1⟩ ⟨"\x7b1: 2\x7d".toList, 2⟩ ⟨TokenType.NUMBER, "1".toList⟩
      (by decide!) (by decide!) (by decide) (by decide)⟩

/-! ## Simulation: resolution against a platform -/

theorem resolvePlatform_of_bottom (p : Player) (platform : Object)
    (h : getCollisionDirection p.toObject platform = 2) :
    resolvePlatform p platform = { p with y := platform.y + platform.height, dy := -p.dy } := by
  have h1 : (2 : Nat) &&& 1 = 0 := by decide
  have h2 : (2 : Nat) &&& 2 = 2 := by decide
  have h4 : (2 : Nat) &&& 4 = 0 := by decide
  have h8 : (2 : Nat) &&& 8 = 0 := by decide
  simp [resolvePlatform, h, Direction.bits, h1, h2, h4, h8]

theorem resolvePlatform_of_left (p : Player) (platform : Object)
    (h : getCollisionDirection p.toObject platform = 4) :
    resolvePlatform p platform = { p with x := platform.x - p.width } := by
  have h1 : (4 : Nat) &&& 1 = 0 := by decide
  have h2 : (4 : Nat) &&& 2 = 0 := by decide
  have h4 : (4 : Nat) &&& 4 = 4 := by decide
  have h8 : (4 : Nat) &&& 8 = 0 := by decide
  simp [resolvePlatform, h, Direction.bits, h1, h2, h4, h8]

theorem resolvePlatform_of_right (p : Player) (platform : Object)
    (h : getCollisionDirection p.toObject platform = 8) :
    resolvePlatform p platform = { p with x := platform.x + platform.width } := by
  have h1 : (8 : Nat) &&& 1 = 0 := by decide
  have h2 : (8 : Nat) &&& 2 = 0 := by decide
  have h4 : (8 : Nat) &&& 4 = 0 := by decide
  have h8 : (8 : Nat) &&& 8 = 8 := by decide
  simp [resolvePlatform, h, Direction.bits, h1, h2, h4, h8]

theorem resolvePlatform_separates (p : Player) (platform : Object) :
    getCollisionDirection (resolvePlatform p platform).toObject platform = 0 := by
  rw [getCollisionDirection_eq_zero_iff]
  rcases getCollisionDirection_values p.toObject platform with h | h | h | h | h
  · rw [resolvePlatform_of_zero p platform h]
    exact (getCollisionDirection_eq_zero_iff _ _).mp h
  · rw [resolvePlatform_of_top p platform h]
    rintro ⟨_, _, _, h4⟩
    simp at h4
  · rw [resolvePlatform_of_bottom p platform h]
    rintro ⟨_, _, h3, _⟩
    simp at h3
  · rw [resolvePlatform_of_left p platform h]
    rintro ⟨_, h2, _, _⟩
    simp at h2
  · rw [resolvePlatform_of_right p platform h]
    rintro ⟨h1, _, _, _⟩
    simp at h1

/-- C21 (resolution separates): in exact arithmetic, for every player and every platform, of any
sizes, the body of the platform loop of `handleCollision` leaves the player in a position where
`getCollisionDirection` against that platform is 0, that is, not overlapping it; so the player
does not overlap the platform processed last when the platform loop is over. -/
theorem resolution_separates (p : Player) (platform : Object) (g : Game)
    (earlier : List Object) :
    getCollisionDirection (resolvePlatform p platform).toObject platform = 0 ∧
    ¬ Overlaps (resolvePlatform p platform).toObject platform ∧
    getCollisionDirection
      (platformLoop { g with platforms := earlier ++ [platform] }).player.toObject platform
        = 0 := by
  refine ⟨resolvePlatform_separates p platform,
    (getCollisionDirection_eq_zero_iff _ _).mp (resolvePlatform_separates p platform), ?_⟩
  unfold platformLoop
  simp only
  rw [List.foldl_append, List.foldl_cons, List.foldl_nil]
  exact resolvePlatform_separates _ platform

/-! ## Configuration reader: termination -/

theorem Lexer.skipWhitespace_input (lx : Lexer) : lx.skipWhitespace.input = lx.input := rfl

theorem Lexer.skipWhitespace_position (lx : Lexer) :
    lx.position ≤ lx.skipWhitespace.position := by
  unfold Lexer.skipWhitespace
  exact Nat.le_add_right _ _

theorem takeWhile_length_pos {α : Type} (f : α → Bool) (l : List α) (i : Nat) (c : α)
    (hc : l[i]? = some c) (hf : f c = true) : 1 ≤ ((l.drop i).takeWhile f).length := by
  obtain ⟨hi, hci⟩ := List.getElem?_eq_some.mp hc
  rw [List.drop_eq_getElem_cons hi, hci, List.takeWhile_cons_of_pos hf]
  simp

theorem Lexer.nextToken_progress (lx lx' : Lexer) (token : Token)
    (h : lx.nextToken = Outcome.ok (token, lx')) :
    lx'.input = lx.input ∧ lx.position ≤ lx'.position ∧
    (token.type ≠ TokenType.END_OF_FILE →
      lx.position < lx'.position ∧ lx.position < lx.input.length) := by
  have hsk := lx.skipWhitespace_position
  unfold Lexer.nextToken at h
  simp only at h
  split at h
  · cases h
    exact ⟨rfl, hsk, fun hne => absurd rfl hne⟩
  · rename_i c hc
    obtain ⟨hlt, -⟩ := List.getElem?_eq_some.mp hc
    rw [Lexer.skipWhitespace_input] at hlt
    have key : ∀ n : Nat, lx.skipWhitespace.position + 1 ≤ n →
        lx.position ≤ n ∧ (token.type ≠ TokenType.END_OF_FILE →
          lx.position < n ∧ lx.position < lx.input.length) := by
      intro n hn
      exact ⟨by omega, fun _ => ⟨by omega, by omega⟩⟩
    split_ifs at h with h1 h2 h3 h4 h5 h6 h7 h8 h9
    · cases h; exact ⟨rfl, key _ (le_refl _)⟩
    · cases h; exact ⟨rfl, key _ (le_refl _)⟩
    · cases h; exact ⟨rfl, key _ (le_refl _)⟩
    · cases h; exact ⟨rfl, key _ (le_refl _)⟩
    · cases h; exact ⟨rfl, key _ (le_refl _)⟩
    · cases h; exact ⟨rfl, key _ (le_refl _)⟩
    · unfold Lexer.stringToken at h
      simp only at h
      split_ifs at h
      cases h
      exact ⟨rfl, key _ (by simp only; omega)⟩
    · cases h
      refine ⟨rfl, key _ ?_⟩
      have := takeWhile_length_pos isNumberChar _ _ c hc (by
        rcases h8 with h8 | h8
        · simp [isNumberChar, h8]
        · simp [isNumberChar, h8])
      simp only [Lexer.numberToken]
      omega
    · have := takeWhile_length_pos isalpha _ _ c hc h9
      unfold Lexer.keywordToken at h
      simp only at h
      split_ifs at h
      · cases h
        exact ⟨rfl, key _ (by simp only; omega)⟩
      · cases h
        exact ⟨rfl, key _ (by simp only; omega)⟩

theorem Lexer.nextToken_ne_outOfFuel (lx : Lexer) : lx.nextToken ≠ Outcome.outOfFuel := by
  unfold Lexer.nextToken
  simp only
  split
  · intro h; cases h
  · split_ifs <;> try (intro h; cases h)
    · unfold Lexer.stringToken
      simp only
      split_ifs <;> (intro h; cases h)
    · unfold Lexer.keywordToken
      simp only
      split_ifs <;> (intro h; cases h)

theorem Parser.advance_ne_outOfFuel (p : Parser) : p.advance ≠ Outcome.outOfFuel := by
  unfold Parser.advance
  have := p.lexer.nextToken_ne_outOfFuel
  split
  · intro h; cases h
  · intro h; cases h
  · rename_i h; exact absurd h this

theorem Parser.advance_remaining (p p' : Parser) (h : p.advance = Outcome.ok p') :
    p'.lexer.input = p.lexer.input ∧ p.lexer.position ≤ p'.lexer.position ∧
    p'.remaining ≤ p.lexer.input.length - p.lexer.position := by
  unfold Parser.advance at h
  split at h
  · rename_i token lexer hn
    cases h
    obtain ⟨hin, hle, hlt⟩ := Lexer.nextToken_progress _ _ _ hn
    refine ⟨hin, hle, ?_⟩
    unfold Parser.remaining
    simp only [hin]
    by_cases he : token.type = TokenType.END_OF_FILE
    · rw [if_pos he]; omega
    · rw [if_neg he]
      have := hlt he
      omega
  · cases h
  · cases h

theorem Parser.advance_consumes (p p' : Parser) (h : p.advance = Outcome.ok p')
    (hne : p.currentToken.type ≠ TokenType.END_OF_FILE) : p'.remaining + 1 ≤ p.remaining := by
  have := (Parser.advance_remaining p p' h).2.2
  have hp : p.remaining = p.lexer.input.length - p.lexer.position + 1 := by
    unfold Parser.remaining
    rw [if_neg hne]
  omega

theorem Parser.consumeToken_ne_outOfFuel (p : Parser) (t : TokenType) :
    p.consumeToken t ≠ Outcome.outOfFuel := by
  unfold Parser.consumeToken
  split_ifs
  · intro h; cases h
  · exact p.advance_ne_outOfFuel

theorem Parser.consumeToken_consumes (p p' : Parser) (t : TokenType)
    (h : p.consumeToken t = Outcome.ok p') (ht : t ≠ TokenType.END_OF_FILE) :
    p'.remaining + 1 ≤ p.remaining := by
  unfold Parser.consumeToken at h
  split_ifs at h with h1
  have h1' : p.currentToken.type = t := not_not.mp h1
  exact Parser.advance_consumes p p' h (by rw [h1']; exact ht)

theorem Parser.parseString_ne_outOfFuel (p : Parser) : p.parseString ≠ Outcome.outOfFuel := by
  unfold Parser.parseString
  have := p.advance_ne_outOfFuel
  split_ifs
  · intro h; cases h
  · split
    · intro h; cases h
    · intro h; cases h
    · rename_i h; exact absurd h this

theorem Parser.parseNumber_ne_outOfFuel (p : Parser) : p.parseNumber ≠ Outcome.outOfFuel := by
  unfold Parser.parseNumber
  have := p.advance_ne_outOfFuel
  split_ifs
  · intro h; cases h
  · split
    · intro h; cases h
    · split
      · intro h; cases h
      · intro h; cases h
      · rename_i h; exact absurd h this

theorem Parser.parseBoolean_ne_outOfFuel (p : Parser) : p.parseBoolean ≠ Outcome.outOfFuel := by
  unfold Parser.parseBoolean
  have := p.advance_ne_outOfFuel
  split_ifs
  · intro h; cases h
  · split
    · intro h; cases h
    · intro h; cases h
    · rename_i h; exact absurd h this

theorem Parser.parseNull_ne_outOfFuel (p : Parser) : p.parseNull ≠ Outcome.outOfFuel := by
  unfold Parser.parseNull
  have := p.advance_ne_outOfFuel
  split_ifs
  · intro h; cases h
  · split
    · intro h; cases h
    · intro h; cases h
    · rename_i h; exact absurd h this

theorem Parser.parseString_consumes (p p' : Parser) (node : JsonNode)
    (h : p.parseString = Outcome.ok (node, p')) : p'.remaining + 1 ≤ p.remaining := by
  unfold Parser.parseString at h
  split_ifs at h with h1
  have h1' : p.currentToken.type = TokenType.STRING := not_not.mp h1
  split at h
  · rename_i p1 ha
    cases h
    exact Parser.advance_consumes p _ ha (by rw [h1']; decide)
  · cases h
  · cases h

theorem Parser.parseNumber_consumes (p p' : Parser) (node : JsonNode)
    (h : p.parseNumber = Outcome.ok (node, p')) : p'.remaining + 1 ≤ p.remaining := by
  unfold Parser.parseNumber at h
  split_ifs at h with h1
  have h1' : p.currentToken.type = TokenType.NUMBER := not_not.mp h1
  split at h
  · cases h
  · split at h
    · rename_i p1 ha
      cases h
      exact Parser.advance_consumes p _ ha (by rw [h1']; decide)
    · cases h
    · cases h

theorem Parser.parseBoolean_consumes (p p' : Parser) (node : JsonNode)
    (h : p.parseBoolean = Outcome.ok (node, p')) : p'.remaining + 1 ≤ p.remaining := by
  unfold Parser.parseBoolean at h
  split_ifs at h with h1
  have h1' : p.currentToken.type = TokenType.BOOLEAN := not_not.mp h1
  split at h
  · rename_i p1 ha
    cases h
    exact Parser.advance_consumes p _ ha (by rw [h1']; decide)
  · cases h
  · cases h

theorem Parser.parseNull_consumes (p p' : Parser) (node : JsonNode)
    (h : p.parseNull = Outcome.ok (node, p')) : p'.remaining + 1 ≤ p.remaining := by
  unfold Parser.parseNull at h
  split_ifs at h with h1
  have h1' : p.currentToken.type = TokenType.NUL := not_not.mp h1
  split at h
  · rename_i p1 ha
    cases h
    exact Parser.advance_consumes p _ ha (by rw [h1']; decide)
  · cases h
  · cases h

theorem Parser.skipComma_ne_outOfFuel (p : Parser) : p.skipComma ≠ Outcome.outOfFuel := by
  unfold Parser.skipComma
  split_ifs
  · exact p.consumeToken_ne_outOfFuel _
  · intro h; cases h

theorem Parser.skipComma_remaining (p p' : Parser) (h : p.skipComma = Outcome.ok p') :
    p'.remaining ≤ p.remaining := by
  unfold Parser.skipComma at h
  split_ifs at h
  · have := Parser.consumeToken_consumes p p' _ h (by decide)
    omega
  · cases h
    exact le_refl _

/-- Every successful call of `parseValue`, and every successful run of the two loops, leaves
fewer characters and tokens to read than it found. -/
theorem parser_consumes : ∀ fuel : Nat,
    (∀ p node p', parseValue fuel p = Outcome.ok (node, p') → p'.remaining + 1 ≤ p.remaining) ∧
    (∀ members p node p', parseObjectLoop fuel members p = Outcome.ok (node, p') →
      p'.remaining + 1 ≤ p.remaining) ∧
    (∀ items p node p', parseArrayLoop fuel items p = Outcome.ok (node, p') →
      p'.remaining + 1 ≤ p.remaining) := by
  intro fuel
  induction fuel with
  | zero =>
    refine ⟨?_, ?_, ?_⟩
    · intro p node p' h; rw [parseValue] at h; cases h
    · intro ms p node p' h; rw [parseObjectLoop] at h; cases h
    · intro xs p node p' h; rw [parseArrayLoop] at h; cases h
  | succ f ih =>
    obtain ⟨ihV, ihO, ihA⟩ := ih
    refine ⟨?_, ?_, ?_⟩
    · intro p node p' h
      rw [parseValue] at h
      split at h
      · exact Parser.parseString_consumes _ _ _ h
      · exact Parser.parseNumber_consumes _ _ _ h
      · exact Parser.parseBoolean_consumes _ _ _ h
      · exact Parser.parseNull_consumes _ _ _ h
      · split at h
        · rename_i p1 hc
          have h1 := Parser.consumeToken_consumes _ _ _ hc (by decide)
          have h2 := ihO _ _ _ _ h
          omega
        · cases h
        · cases h
      · split at h
        · rename_i p1 hc
          have h1 := Parser.consumeToken_consumes _ _ _ hc (by decide)
          have h2 := ihA _ _ _ _ h
          omega
        · cases h
        · cases h
      · cases h
    · intro ms p node p' h
      rw [parseObjectLoop] at h
      split_ifs at h
      · split at h
        · rename_i key p1 hs
          split at h
          · rename_i p2 hc
            split at h
            · rename_i value p3 hval
              split at h
              · rename_i p4 hsk
                have a1 := Parser.parseString_consumes _ _ _ hs
                have a2 := Parser.consumeToken_consumes _ _ _ hc (by decide)
                have a3 := ihV _ _ _ hval
                have a4 := Parser.skipComma_remaining _ _ hsk
                have a5 := ihO _ _ _ _ h
                omega
              · cases h
              · cases h
            · cases h
            · cases h
          · cases h
          · cases h
        · cases h
        · cases h
        · cases h
      · split at h
        · rename_i p5 hc
          cases h
          exact Parser.consumeToken_consumes _ _ _ hc (by decide)
        · cases h
        · cases h
    · intro xs p node p' h
      rw [parseArrayLoop] at h
      split_ifs at h
      · split at h
        · rename_i value p1 hval
          split at h
          · rename_i p2 hsk
            have a3 := ihV _ _ _ hval
            have a4 := Parser.skipComma_remaining _ _ hsk
            have a5 := ihA _ _ _ _ h
            omega
          · cases h
          · cases h
        · cases h
        · cases h
      · split at h
        · rename_i p3 hc
          cases h
          exact Parser.consumeToken_consumes _ _ _ hc (by decide)
        · cases h
        · cases h

/-- The bound on the depth of the calls is enough: with `2 * remaining + 1` units `parseValue`
comes to an end, and with `2 * remaining + 2` units so do the two loops. -/
theorem parser_fuel : ∀ fuel : Nat,
    (∀ p, 2 * p.remaining + 1 ≤ fuel → parseValue fuel p ≠ Outcome.outOfFuel) ∧
    (∀ members p, 2 * p.remaining + 2 ≤ fuel →
      parseObjectLoop fuel members p ≠ Outcome.outOfFuel) ∧
    (∀ items p, 2 * p.remaining + 2 ≤ fuel →
      parseArrayLoop fuel items p ≠ Outcome.outOfFuel) := by
  intro fuel
  induction fuel with
  | zero =>
    refine ⟨?_, ?_, ?_⟩
    · intro p h; omega
    · intro ms p h; omega
    · intro xs p h; omega
  | succ f ih =>
    obtain ⟨ihV, ihO, ihA⟩ := ih
    refine ⟨?_, ?_, ?_⟩
    · intro p hf
      rw [parseValue]
      split
      · exact p.parseString_ne_outOfFuel
      · exact p.parseNumber_ne_outOfFuel
      · exact p.parseBoolean_ne_outOfFuel
      · exact p.parseNull_ne_outOfFuel
      · split
        · rename_i p1 hc
          have h1 := Parser.consumeToken_consumes _ _ _ hc (by decide)
          exact ihO _ _ (by omega)
        · intro h; cases h
        · rename_i hc; exact absurd hc (p.consumeToken_ne_outOfFuel _)
      · split
        · rename_i p1 hc
          have h1 := Parser.consumeToken_consumes _ _ _ hc (by decide)
          exact ihA _ _ (by omega)
        · intro h; cases h
        · rename_i hc; exact absurd hc (p.consumeToken_ne_outOfFuel _)
      · intro h; cases h
    · intro ms p hf
      rw [parseObjectLoop]
      split_ifs
      · split
        · rename_i key p1 hs
          have a1 := Parser.parseString_consumes _ _ _ hs
          split
          · rename_i p2 hc
            have a2 := Parser.consumeToken_consumes _ _ _ hc (by decide)
            split
            · rename_i value p3 hval
              have a3 := (parser_consumes f).1 _ _ _ hval
              split
              · rename_i p4 hsk
                have a4 := Parser.skipComma_remaining _ _ hsk
                exact ihO _ _ (by omega)
              · intro h; cases h
              · rename_i hsk; exact absurd hsk (Parser.skipComma_ne_outOfFuel _)
            · intro h; cases h
            · rename_i hval; exact absurd hval (ihV _ (by omega))
          · intro h; cases h
          · rename_i hc; exact absurd hc (Parser.consumeToken_ne_outOfFuel _ _)
        · intro h; cases h
        · intro h; cases h
        · rename_i hs; exact absurd hs p.parseString_ne_outOfFuel
      · split
        · intro h; cases h
        · intro h; cases h
        · rename_i hc; exact absurd hc (p.consumeToken_ne_outOfFuel _)
    · intro xs p hf
      rw [parseArrayLoop]
      split_ifs
      · split
        · rename_i value p1 hval
          have a3 := (parser_consumes f).1 _ _ _ hval
          split
          · rename_i p2 hsk
            have a4 := Parser.skipComma_remaining _ _ hsk
            exact ihA _ _ (by omega)
          · intro h; cases h
          · rename_i hsk; exact absurd hsk (Parser.skipComma_ne_outOfFuel _)
        · intro h; cases h
        · rename_i hval; exact absurd hval (ihV _ (by omega))
      · split
        · intro h; cases h
        · intro h; cases h
        · rename_i hc; exact absurd hc (p.consumeToken_ne_outOfFuel _)

theorem parse_ne_outOfFuel (input : List Char) : parse input ≠ Outcome.outOfFuel := by
  unfold parse
  split
  · rename_i token lexer hn
    have hp := Lexer.nextToken_progress _ _ _ hn
    have hrem : (Parser.mk lexer token).remaining ≤ input.length := by
      obtain ⟨hin, hle, hlt⟩ := hp
      unfold Parser.remaining
      simp only at hin hle hlt ⊢
      rw [hin]
      by_cases he : token.type = TokenType.END_OF_FILE
      · rw [if_pos he]; omega
      · rw [if_neg he]
        have := hlt he
        omega
    have := (parser_fuel (2 * input.length + 2)).1 (Parser.mk lexer token) (by omega)
    split
    · intro h; cases h
    · intro h; cases h
    · rename_i h; exact absurd h this
  · intro h; cases h
  · rename_i h; exact absurd h (Lexer.nextToken_ne_outOfFuel _)

/-- A result other than `outOfFuel` does not depend on the bound: one more unit gives the same
result. -/
theorem parser_fuel_succ : ∀ fuel : Nat,
    (∀ p, parseValue fuel p ≠ Outcome.outOfFuel → parseValue (fuel + 1) p = parseValue fuel p) ∧
    (∀ members p, parseObjectLoop fuel members p ≠ Outcome.outOfFuel →
      parseObjectLoop (fuel + 1) members p = parseObjectLoop fuel members p) ∧
    (∀ items p, parseArrayLoop fuel items p ≠ Outcome.outOfFuel →
      parseArrayLoop (fuel + 1) items p = parseArrayLoop fuel items p) := by
  intro fuel
  induction fuel with
  | zero =>
    refine ⟨?_, ?_, ?_⟩
    · intro p h; rw [parseValue] at h; exact absurd rfl h
    · intro ms p h; rw [parseObjectLoop] at h; exact absurd rfl h
    · intro xs p h; rw [parseArrayLoop] at h; exact absurd rfl h
  | succ f ih =>
    obtain ⟨ihV, ihO, ihA⟩ := ih
    refine ⟨?_, ?_, ?_⟩
    · intro p h
      rw [parseValue] at h
      rw [parseValue, parseValue]
      split
      · rfl
      · rfl
      · rfl
      · rfl
      · rename_i ht
        cases hc : p.consumeToken TokenType.LEFT_BRACE with
        | ok p1 =>
          simp only [ht, hc] at h
          simp only
          exact ihO _ _ h
        | thrown m => rfl
        | outOfFuel => rfl
      · rename_i ht
        cases hc : p.consumeToken TokenType.LEFT_BRACKET with
        | ok p1 =>
          simp only [ht, hc] at h
          simp only
          exact ihA _ _ h
        | thrown m => rfl
        | outOfFuel => rfl
      · rfl
    · intro ms p h
      rw [parseObjectLoop] at h
      rw [parseObjectLoop, parseObjectLoop]
      split_ifs at h ⊢
      · cases hs : p.parseString with
        | ok r =>
          obtain ⟨node, p1⟩ := r
          cases node with
          | string key =>
            simp only [hs] at h ⊢
            cases hc : p1.consumeToken TokenType.COLON with
            | ok p2 =>
              simp only [hc] at h ⊢
              have hv : parseValue f p2 ≠ Outcome.outOfFuel := by
                intro e; rw [e] at h; exact h rfl
              rw [ihV p2 hv]
              cases hval : parseValue f p2 with
              | ok r2 =>
                obtain ⟨value, p3⟩ := r2
                simp only [hval] at h ⊢
                cases hsk : p3.skipComma with
                | ok p4 =>
                  simp only [hsk] at h ⊢
                  exact ihO _ _ h
                | thrown m => rfl
                | outOfFuel => rfl
              | thrown m => rfl
              | outOfFuel => exact absurd hval hv
            | thrown m => rfl
            | outOfFuel => rfl
          | object _ => rfl
          | array _ => rfl
          | number _ => rfl
          | boolean _ => rfl
          | null => rfl
        | thrown m => rfl
        | outOfFuel => rfl
      · rfl
    · intro xs p h
      rw [parseArrayLoop] at h
      rw [parseArrayLoop, parseArrayLoop]
      split_ifs at h ⊢
      · have hv : parseValue f p ≠ Outcome.outOfFuel := by
          intro e; rw [e] at h; exact h rfl
        rw [ihV p hv]
        cases hval : parseValue f p with
        | ok r2 =>
          obtain ⟨value, p1⟩ := r2
          simp only [hval] at h ⊢
          cases hsk : p1.skipComma with
          | ok p2 =>
            simp only [hsk] at h ⊢
            exact ihA _ _ h
          | thrown m => rfl
          | outOfFuel => rfl
        | thrown m => rfl
        | outOfFuel => exact absurd hval hv
      · rfl

theorem parseValue_fuel_add (fuel : Nat) (p : Parser)
    (h : parseValue fuel p ≠ Outcome.outOfFuel) :
    ∀ extra : Nat, parseValue (fuel + extra) p = parseValue fuel p := by
  intro extra
  induction extra with
  | zero => rfl
  | succ k ih =>
    rw [← Nat.add_assoc, (parser_fuel_succ (fuel + k)).1 p (by rw [ih]; exact h), ih]

/-- C22 (parser termination): for every input `parse` ends with a node or with an error, and
the result does not depend on the bound on the depth of the calls (a larger bound gives the same
result).  A call of `Lexer.nextToken` always ends; when it returns a token other than
`END_OF_FILE` the position has strictly advanced within the same input.  An iteration of the
loop of `parseObject` or of `parseArray` that raises no error continues the loop with strictly
fewer characters and tokens left to read (`Parser.remaining`). -/
theorem parse_terminates :
    (∀ input : List Char,
      (∃ node, parse input = Outcome.ok node) ∨ (∃ message, parse input = Outcome.thrown message)) ∧
    (∀ (input : List Char) (token : Token) (lexer : Lexer) (extra : Nat),
      (Lexer.mk input 0).nextToken = Outcome.ok (token, lexer) →
      parseValue (2 * input.length + 2 + extra) { lexer := lexer, currentToken := token } =
        parseValue (2 * input.length + 2) { lexer := lexer, currentToken := token }) ∧
    (∀ lx : Lexer, lx.nextToken ≠ Outcome.outOfFuel) ∧
    (∀ (lx lx' : Lexer) (token : Token), lx.nextToken = Outcome.ok (token, lx') →
      token.type ≠ TokenType.END_OF_FILE →
      lx'.input = lx.input ∧ lx.position < lx'.position) ∧
    (∀ (fuel : Nat) (jsonObject : List (List Char × JsonNode)) (p p1 p2 p3 p4 : Parser)
        (key : List Char) (value : JsonNode),
      p.currentToken.type ≠ TokenType.RIGHT_BRACE →
      p.parseString = Outcome.ok (JsonNode.string key, p1) →
      p1.consumeToken TokenType.COLON = Outcome.ok p2 →
      parseValue fuel p2 = Outcome.ok (value, p3) →
      p3.skipComma = Outcome.ok p4 →
      parseObjectLoop (fuel + 1) jsonObject p =
          parseObjectLoop fuel (mapAssign key value jsonObject) p4 ∧
        p4.remaining < p.remaining) ∧
    (∀ (fuel : Nat) (jsonArray : List JsonNode) (p p1 p2 : Parser) (value : JsonNode),
      p.currentToken.type ≠ TokenType.RIGHT_BRACKET →
      parseValue fuel p = Outcome.ok (value, p1) →
      p1.skipComma = Outcome.ok p2 →
      parseArrayLoop (fuel + 1) jsonArray p = parseArrayLoop fuel (jsonArray ++ [value]) p2 ∧
        p2.remaining < p.remaining) := by
  refine ⟨?_, ?_, Lexer.nextToken_ne_outOfFuel, ?_, ?_, ?_⟩
  · intro input
    have h := parse_ne_outOfFuel input
    cases hp : parse input with
    | ok node => exact Or.inl ⟨node, rfl⟩
    | thrown m => exact Or.inr ⟨m, rfl⟩
    | outOfFuel => exact absurd hp h
  · intro input token lexer extra hn
    refine parseValue_fuel_add _ _ ?_ extra
    have hpn := parse_ne_outOfFuel input
    unfold parse at hpn
    rw [hn] at hpn
    intro e
    simp only [e] at hpn
    exact hpn rfl
  · intro lx lx' token h hne
    obtain ⟨hin, -, hlt⟩ := Lexer.nextToken_progress lx lx' token h
    exact ⟨hin, (hlt hne).1⟩
  · intro fuel jsonObject p p1 p2 p3 p4 key value hne hs hc hval hsk
    constructor
    · rw [parseObjectLoop, if_pos hne]
      simp only [hs, hc, hval, hsk]
    · have a1 := Parser.parseString_consumes _ _ _ hs
      have a2 := Parser.consumeToken_consumes _ _ _ hc (by decide)
      have a3 := (parser_consumes fuel).1 _ _ _ hval
      have a4 := Parser.skipComma_remaining _ _ hsk
      omega
  · intro fuel jsonArray p p1 p2 value hne hval hsk
    constructor
    · rw [parseArrayLoop, if_pos hne]
      simp only [hval, hsk]
    · have a3 := (parser_consumes fuel).1 _ _ _ hval
      have a4 := Parser.skipComma_remaining _ _ hsk
      omega

/-- Witness for C22: the text `[1, [2` ends with an error, the lexer at the start of `[1]`
returns the opening bracket and moves to position 1, and the first iteration of the array loop on
`[true, null]` takes the parser from the token `true` to the token `null`. -/
theorem parse_terminates_witness :
    ((∃ node, parse "[1, [2".toList = Outcome.ok node) ∨
      (∃ message, parse "[1, [2".toList = Outcome.thrown message)) ∧
    ((Lexer.mk "[1]".toList 0).position < (Lexer.mk "[1]".toList 1).position) ∧
    (Parser.mk ⟨"[true, null]".toList, 11⟩ ⟨TokenType.NUL, "null".toList⟩).remaining <
      (Parser.mk ⟨"[true, null]".toList, 5⟩ ⟨TokenType.BOOLEAN, "true".toList⟩).remaining :=
  ⟨parse_terminates.1 "[1, [2".toList,
    (parse_terminates.2.2.2.1 ⟨"[1]".toList, 0⟩ ⟨"[1]".toList, 1⟩
      ⟨TokenType.LEFT_BRACKET, [Char.ofNat 91]⟩ (by decide!) (by decide)).2,
    (parse_terminates.2.2.2.2.2 3 []
      ⟨⟨"[true, null]".toList, 5⟩, ⟨TokenType.BOOLEAN, "true".toList⟩⟩
      ⟨⟨"[true, null]".toList, 6⟩, ⟨TokenType.COMMA, [Char.ofNat 44]⟩⟩
      ⟨⟨"[true, null]".toList, 11⟩, ⟨TokenType.NUL, "null".toList⟩⟩ (JsonNode.boolean true)
      (by decide) (by rfl) (by rfl)).2⟩

/-! ## Levels: what a level load establishes -/

theorem tryMerge_forall (P : Object → Prop)
    (hV : ∀ o p : Object, P o → P p → o.x = p.x ∧ o.width = p.width ∧ o.y + o.height = p.y →
      P { p with y := o.y, height := p.height + o.height })
    (hH : ∀ o p : Object, P o → P p → o.y = p.y ∧ o.height = p.height ∧ o.x + o.width = p.x →
      P { p with x := o.x, width := p.width + o.width })
    (o : Object) (ho : P o) :
    ∀ acc acc' : List Object, (∀ A ∈ acc, P A) → tryMerge o acc = some acc' →
      ∀ A ∈ acc', P A := by
  intro acc
  induction acc with
  | nil => intro acc' _ h; cases h
  | cons p rest ih =>
    intro acc' hacc h
    have hp := hacc p (List.mem_cons_self _ _)
    have hrest : ∀ A ∈ rest, P A := fun A hA => hacc A (List.mem_cons_of_mem _ hA)
    rw [tryMerge] at h
    split_ifs at h with h1 h2
    · cases h
      intro A hA
      rcases List.mem_cons.mp hA with rfl | hA
      · exact hV o p ho hp h1
      · exact hrest A hA
    · cases h
      intro A hA
      rcases List.mem_cons.mp hA with rfl | hA
      · exact hH o p ho hp h2
      · exact hrest A hA
    · cases hr : tryMerge o rest with
      | none => rw [hr] at h; cases h
      | some l =>
        rw [hr] at h
        cases h
        intro A hA
        rcases List.mem_cons.mp hA with rfl | hA
        · exact hp
        · exact ih l hrest hr A hA

theorem mergePass_forall (P : Object → Prop)
    (hV : ∀ o p : Object, P o → P p → o.x = p.x ∧ o.width = p.width ∧ o.y + o.height = p.y →
      P { p with y := o.y, height := p.height + o.height })
    (hH : ∀ o p : Object, P o → P p → o.y = p.y ∧ o.height = p.height ∧ o.x + o.width = p.x →
      P { p with x := o.x, width := p.width + o.width })
    (rest : List Object) :
    ∀ acc : List Object, (∀ A ∈ rest, P A) → (∀ A ∈ acc, P A) →
      ∀ A ∈ mergePass rest acc, P A := by
  induction rest with
  | nil => intro acc _ h; exact h
  | cons o rest ih =>
    intro acc hrest hacc
    have ho := hrest o (List.mem_cons_self _ _)
    have hrest' : ∀ A ∈ rest, P A := fun A hA => hrest A (List.mem_cons_of_mem _ hA)
    rw [mergePass]
    cases hm : tryMerge o acc with
    | none =>
      apply ih _ hrest'
      intro A hA
      rcases List.mem_append.mp hA with hA | hA
      · exact hacc A hA
      · rw [List.mem_singleton.mp hA]; exact ho
    | some acc' => exact ih _ hrest' (tryMerge_forall P hV hH o ho acc acc' hacc hm)

theorem aggregateObject_forall (P : Object → Prop)
    (hV : ∀ o p : Object, P o → P p → o.x = p.x ∧ o.width = p.width ∧ o.y + o.height = p.y →
      P { p with y := o.y, height := p.height + o.height })
    (hH : ∀ o p : Object, P o → P p → o.y = p.y ∧ o.height = p.height ∧ o.x + o.width = p.x →
      P { p with x := o.x, width := p.width + o.width })
    (img : Image) (r g b : Nat)
    (hruns : ∀ a : PRect, a.y0 < img.height → a.ht = 1 → 1 ≤ a.wd → a.x0 + a.wd ≤ img.width →
      P (PRect.toObject (xScaleOf img) (yScaleOf img) a)) :
    ∀ A ∈ aggregateObject img r g b, P A := by
  obtain ⟨runs, h1, h2⟩ := extractRuns_spec img r g b
  rw [aggregateObject, h1]
  apply mergePass_forall P hV hH
  · intro A hA
    obtain ⟨a, ha, rfl⟩ := List.mem_map.mp hA
    obtain ⟨s1, s2, s3⟩ := h2.shape a ha
    apply hruns a s1 s2 s3
    have hm := h2.sound a ha (a.x0 + a.wd - 1) (by omega) (by omega)
    have := hm.1
    omega
  · intro A hA
    cases hA

theorem aggregateObject_inWindow (img : Image) (r g b : Nat) :
    ∀ A ∈ aggregateObject img r g b, InWindow A := by
  apply aggregateObject_forall InWindow
  · rintro o p ⟨x, y, w, h, rfl, ho1, ho2⟩ ⟨x', y', w', h', rfl, hp1, hp2⟩ ⟨_, _, e3⟩
    simp only at e3
    have e3' : y + h = y' := by exact_mod_cast e3
    exact ⟨x', y, w', h' + h, by simp, hp1, by omega⟩
  · rintro o p ⟨x, y, w, h, rfl, ho1, ho2⟩ ⟨x', y', w', h', rfl, hp1, hp2⟩ ⟨_, _, e3⟩
    simp only at e3
    have e3' : x + w = x' := by exact_mod_cast e3
    exact ⟨x, y', w' + w, h', by simp, by omega, hp2⟩
  · intro a h1 h2 h3 h4
    refine ⟨a.x0 * (WINDOW_WIDTH / img.width), a.y0 * (WINDOW_HEIGHT / img.height),
      a.wd * (WINDOW_WIDTH / img.width), a.ht * (WINDOW_HEIGHT / img.height), ?_, ?_, ?_⟩
    · simp [PRect.toObject, xScaleOf, yScaleOf]
    · rw [← Nat.add_mul]
      calc (a.x0 + a.wd) * (WINDOW_WIDTH / img.width)
          ≤ img.width * (WINDOW_WIDTH / img.width) := Nat.mul_le_mul_right _ h4
        _ ≤ WINDOW_WIDTH := Nat.mul_div_le _ _
    · rw [← Nat.add_mul]
      calc (a.y0 + a.ht) * (WINDOW_HEIGHT / img.height)
          ≤ img.height * (WINDOW_HEIGHT / img.height) := Nat.mul_le_mul_right _ (by omega)
        _ ≤ WINDOW_HEIGHT := Nat.mul_div_le _ _

theorem aggregateObject_height_zero (img : Image) (r g b : Nat) (h : yScaleOf img = 0) :
    ∀ A ∈ aggregateObject img r g b, A.height = 0 := by
  apply aggregateObject_forall (fun A => A.height = 0)
  · intro o p ho hp _
    show p.height + o.height = 0
    rw [ho, hp, add_zero]
  · intro o p _ hp _
    exact hp
  · intro a _ _ _ _
    show (a.ht : ℚ) * yScaleOf img = 0
    rw [h, mul_zero]

theorem pixelMatches_colour (img : Image) (r g b r' g' b' x y : Nat)
    (h : pixelMatches img r g b x y = true) (h' : pixelMatches img r' g' b' x y = true) :
    r = r' ∧ g = g' ∧ b = b' := by
  unfold pixelMatches at h h'
  simp only [Bool.and_eq_true, beq_iff_eq] at h h'
  obtain ⟨⟨h1, h2⟩, h3⟩ := h
  obtain ⟨⟨h1', h2'⟩, h3'⟩ := h'
  exact ⟨h1.symm.trans h1', h2.symm.trans h2', h3.symm.trans h3'⟩

/-- Rectangles that `aggregateObject` returns for two different colours of one image do not
overlap. -/
theorem aggregateObject_cross_colour (img : Image) (r g b r' g' b' : Nat)
    (hne : ¬ (r = r' ∧ g = g' ∧ b = b')) :
    ∀ A ∈ aggregateObject img r g b, ∀ B ∈ aggregateObject img r' g' b', ¬ Overlaps A B := by
  intro A hA B hB hov
  obtain ⟨o1, o2, o3, o4⟩ := hov
  have hsx0 : (0 : ℚ) ≤ xScaleOf img := Nat.cast_nonneg _
  have hsy0 : (0 : ℚ) ≤ yScaleOf img := Nat.cast_nonneg _
  rcases eq_or_lt_of_le hsx0 with hx | hsx
  · have a1 := aggregateObject_width_zero img r g b hx.symm A hA
    have a2 := aggregateObject_width_zero img r' g' b' hx.symm B hB
    rw [a2] at o1
    rw [a1] at o2
    linarith
  rcases eq_or_lt_of_le hsy0 with hy | hsy
  · have a1 := aggregateObject_height_zero img r g b hy.symm A hA
    have a2 := aggregateObject_height_zero img r' g' b' hy.symm B hB
    rw [a2] at o3
    rw [a1] at o4
    linarith
  obtain ⟨out, hout, _, _, hinv⟩ := pixel_segmentation img r g b
  obtain ⟨out', hout', _, _, hinv'⟩ := pixel_segmentation img r' g' b'
  rw [hout hsx hsy] at hA
  rw [hout' hsx hsy] at hB
  obtain ⟨a, ha, rfl⟩ := List.mem_map.mp hA
  obtain ⟨c, hc, rfl⟩ := List.mem_map.mp hB
  have hdis : PDisjoint a c := by
    rintro px py ⟨h1, h2⟩
    have m1 := hinv.sound a ha px py h1
    have m2 := hinv'.sound c hc px py h2
    exact hne (pixelMatches_colour img r g b r' g' b' px py m1.2 m2.2)
  have hpa := hinv.pos a ha
  have hpc := hinv'.pos c hc
  have wa : (0 : ℚ) < (PRect.toObject (xScaleOf img) (yScaleOf img) a).width :=
    mul_pos (Nat.cast_pos.mpr hpa.1) hsx
  have ha' : (0 : ℚ) < (PRect.toObject (xScaleOf img) (yScaleOf img) a).height :=
    mul_pos (Nat.cast_pos.mpr hpa.2) hsy
  have wc : (0 : ℚ) < (PRect.toObject (xScaleOf img) (yScaleOf img) c).width :=
    mul_pos (Nat.cast_pos.mpr hpc.1) hsx
  have hc' : (0 : ℚ) < (PRect.toObject (xScaleOf img) (yScaleOf img) c).height :=
    mul_pos (Nat.cast_pos.mpr hpc.2) hsy
  apply toObject_disjoint _ _ hsx hsy a c hdis
    (max (PRect.toObject (xScaleOf img) (yScaleOf img) a).x
      (PRect.toObject (xScaleOf img) (yScaleOf img) c).x)
    (max (PRect.toObject (xScaleOf img) (yScaleOf img) a).y
      (PRect.toObject (xScaleOf img) (yScaleOf img) c).y)
  unfold Object.contains
  refine ⟨⟨le_max_left _ _, ?_, le_max_left _ _, ?_⟩, ⟨le_max_right _ _, ?_, le_max_right _ _, ?_⟩⟩
  · exact max_lt (by linarith) o2
  · exact max_lt (by linarith) o4
  · exact max_lt o1 (by linarith)
  · exact max_lt o3 (by linarith)

/-- What a successful `loadBitmap` leaves behind: the player stands at the spawn point, which
is the position of the first blue rectangle and has its size, and the platforms and checkpoints
are the white and the green rectangles of the image. -/
theorem loadBitmap_level (files : String → Option Image) (filepath : String) (g0 loaded : Game)
    (h : loadBitmap files filepath g0 = some loaded) :
    ∃ (image : Image) (p0 : Object), files filepath = some image ∧
      p0 ∈ aggregateObject image 0 0 255 ∧
      loaded.player.toObject = p0 ∧ loaded.spawnX = p0.x ∧ loaded.spawnY = p0.y ∧
      loaded.platforms = aggregateObject image 255 255 255 ∧
      loaded.checkpoints = aggregateObject image 0 255 0 := by
  unfold loadBitmap at h
  simp only at h
  split at h
  · cases h
  · rename_i image himg
    split at h
    · cases h
    · rename_i p0 rest hp0
      split at h
      · cases h
      · cases h
        refine ⟨image, p0, himg, ?_, rfl, rfl, rfl, ?_, ?_⟩
        · rw [hp0]; exact List.mem_cons_self _ _
        · simp [unloadBitmap]
        · simp [unloadBitmap]

/-- The level data of a state with a loaded level: the spawn rectangle is a blue rectangle of
the level image, the platforms are its white and the checkpoints its green rectangles. -/
theorem LevelLoaded.level {files : String → Option Image} {g : Game} (h : LevelLoaded files g) :
    ∃ (image : Image) (p0 : Object), p0 ∈ aggregateObject image 0 0 255 ∧
      (⟨g.spawnX, g.spawnY, g.player.width, g.player.height⟩ : Object) = p0 ∧
      g.platforms = aggregateObject image 255 255 255 ∧
      g.checkpoints = aggregateObject image 0 255 0 := by
  obtain ⟨g0, filepath, loaded, hload, e1, e2, e3, e4, e5, e6⟩ := h
  obtain ⟨image, p0, _, hp0, hp, hsx, hsy, hpl, hcp⟩ := loadBitmap_level files filepath g0 loaded hload
  refine ⟨image, p0, hp0, ?_, e5.trans hpl, e6.trans hcp⟩
  rw [e1, e2, e3, e4, hsx, hsy, ← hp]

/-- In a state with a loaded level the player rectangle placed at the spawn point lies between
the left and right window edges and is classified 0 against every platform and every
checkpoint. -/
theorem LevelLoaded.spawn_clear {files : String → Option Image} {g : Game}
    (h : LevelLoaded files g) :
    0 ≤ g.spawnX ∧ g.spawnX + g.player.width ≤ (WINDOW_WIDTH : ℚ) ∧
    (∀ q ∈ g.platforms,
      getCollisionDirection ⟨g.spawnX, g.spawnY, g.player.width, g.player.height⟩ q = 0) ∧
    (∀ c ∈ g.checkpoints,
      getCollisionDirection ⟨g.spawnX, g.spawnY, g.player.width, g.player.height⟩ c = 0) := by
  obtain ⟨image, p0, hp0, hp, hpl, hcp⟩ := h.level
  obtain ⟨x, y, w, ht, hxy, hw, hh⟩ := aggregateObject_inWindow image 0 0 255 p0 hp0
  have e := hp.trans hxy
  have ex : g.spawnX = (x : ℚ) := congrArg Object.x e
  have ew : g.player.width = (w : ℚ) := congrArg Object.width e
  refine ⟨?_, ?_, ?_, ?_⟩
  · rw [ex]; exact Nat.cast_nonneg _
  · rw [ex, ew]
    unfold WINDOW_WIDTH
    exact_mod_cast hw
  · intro q hq
    rw [hp, getCollisionDirection_eq_zero_iff]
    rw [hpl] at hq
    exact aggregateObject_cross_colour image 0 0 255 255 255 255 (by decide) p0 hp0 q hq
  · intro c hc
    rw [hp, getCollisionDirection_eq_zero_iff]
    rw [hcp] at hc
    exact aggregateObject_cross_colour image 0 0 255 0 255 0 (by decide) p0 hp0 c hc

theorem loadBitmap_levelLoaded (files : String → Option Image) (filepath : String)
    (g0 loaded : Game) (h : loadBitmap files filepath g0 = some loaded) :
    LevelLoaded files loaded :=
  ⟨g0, filepath, loaded, h, rfl, rfl, rfl, rfl, rfl, rfl⟩

/-- A step that leaves the spawn point, the size of the player, the platforms and the
checkpoints as they are keeps the level loaded. -/
theorem LevelLoaded.of_same_level {files : String → Option Image} {g g' : Game}
    (h : LevelLoaded files g)
    (e1 : g'.spawnX = g.spawnX) (e2 : g'.spawnY = g.spawnY)
    (e3 : g'.player.width = g.player.width) (e4 : g'.player.height = g.player.height)
    (e5 : g'.platforms = g.platforms) (e6 : g'.checkpoints = g.checkpoints) :
    LevelLoaded files g' := by
  obtain ⟨g0, filepath, loaded, hload, f1, f2, f3, f4, f5, f6⟩ := h
  exact ⟨g0, filepath, loaded, hload, e1.trans f1, e2.trans f2, e3.trans f3, e4.trans f4,
    e5.trans f5, e6.trans f6⟩

theorem updatePlayer_levelLoaded {files : String → Option Image} {g : Game}
    (h : LevelLoaded files g) : LevelLoaded files (updatePlayer g) :=
  h.of_same_level rfl rfl rfl rfl rfl rfl

theorem updateEnemies_levelLoaded {files : String → Option Image} {g : Game}
    (h : LevelLoaded files g) : LevelLoaded files (updateEnemies g) :=
  h.of_same_level rfl rfl rfl rfl rfl rfl

theorem keyCallback_levelLoaded {files : String → Option Image} {g : Game}
    (key : Key) (action : Action) (h : LevelLoaded files g) :
    LevelLoaded files (keyCallback key action g) := by
  apply h.of_same_level <;> (unfold keyCallback; simp only; split_ifs <;> rfl)

theorem resolvePlatform_size (p : Player) (platform : Object) :
    (resolvePlatform p platform).width = p.width ∧
    (resolvePlatform p platform).height = p.height := by
  unfold resolvePlatform
  simp only
  split_ifs <;> exact ⟨rfl, rfl⟩

theorem foldl_resolvePlatform_size (ps : List Object) (p : Player) :
    (ps.foldl resolvePlatform p).width = p.width ∧
    (ps.foldl resolvePlatform p).height = p.height := by
  induction ps generalizing p with
  | nil => exact ⟨rfl, rfl⟩
  | cons q qs ih =>
    rw [List.foldl_cons]
    obtain ⟨h1, h2⟩ := ih (resolvePlatform p q)
    obtain ⟨h3, h4⟩ := resolvePlatform_size p q
    exact ⟨h1.trans h3, h2.trans h4⟩

theorem beforeCheckpoints_levelLoaded {files : String → Option Image} {g : Game}
    (h : LevelLoaded files g) : LevelLoaded files (beforeCheckpoints g) := by
  have hfr := beforeCheckpoints_frame g
  have hsz : (beforeCheckpoints g).player.width = g.player.width ∧
      (beforeCheckpoints g).player.height = g.player.height := by
    unfold beforeCheckpoints platformLoop
    simp only
    obtain ⟨h1, h2⟩ := foldl_resolvePlatform_size (clampPlayer (fallCheck g)).platforms
      (clampPlayer (fallCheck g)).player
    rw [h1, h2]
    unfold clampPlayer fallCheck die
    split_ifs <;> exact ⟨rfl, rfl⟩
  exact h.of_same_level hfr.2.2.2.1 hfr.2.2.2.2.1 hsz.1 hsz.2 hfr.2.2.1 hfr.1

theorem checkpointLoop_levelLoaded (files : String → Option Image) :
    ∀ (cs : List Object) (g g' : Game), LevelLoaded files g →
      checkpointLoop files cs g = some g' → LevelLoaded files g' := by
  intro cs
  induction cs with
  | nil =>
    intro g g' h hc
    rw [checkpointLoop] at hc
    cases hc
    exact h
  | cons c cs ih =>
    intro g g' h hc
    rw [checkpointLoop] at hc
    split_ifs at hc
    · simp only at hc
      split at hc
      · cases hc
      · split at hc
        · cases hc
        · rename_i g2 hload
          exact ih g2 g' (loadBitmap_levelLoaded files _ _ g2 hload) hc
    · exact ih g g' h hc

theorem enemyLoop_levelLoaded {files : String → Option Image} (es : List Enemy) {g : Game}
    (h : LevelLoaded files g) : LevelLoaded files (enemyLoop es g) := by
  rcases enemyLoop_cases es g with e | e
  · rw [e]; exact h
  · rw [e]; exact h.of_same_level rfl rfl rfl rfl rfl rfl

/-- Every function that the loop of `main` calls keeps the level loaded. -/
theorem handleCollision_levelLoaded {files : String → Option Image} {g g' : Game}
    (h : LevelLoaded files g) (hc : handleCollision files g = some g') :
    LevelLoaded files g' := by
  rw [handleCollision_eq] at hc
  obtain ⟨g4, h4, rfl⟩ := Option.map_eq_some'.mp hc
  exact enemyLoop_levelLoaded _
    (checkpointLoop_levelLoaded files _ _ _ (beforeCheckpoints_levelLoaded h) h4)

/-- After a level load, every sequence of frames and key events ends in a state with a loaded
level. -/
theorem runEvents_levelLoaded (files : String → Option Image) :
    ∀ (events : List Event) (g g' : Game), LevelLoaded files g →
      runEvents files events g = some g' → LevelLoaded files g' := by
  intro events
  induction events with
  | nil =>
    intro g g' h hr
    rw [runEvents] at hr
    cases hr
    exact h
  | cons ev rest ih =>
    intro g g' h hr
    cases ev with
    | frame =>
      rw [runEvents] at hr
      split at hr
      · cases hr
      · rename_i g1 hf
        exact ih g1 g' (handleCollision_levelLoaded
          (updateEnemies_levelLoaded (updatePlayer_levelLoaded h)) hf) hr
    | key k a =>
      rw [runEvents] at hr
      exact ih _ g' (keyCallback_levelLoaded k a h) hr

theorem eq_some_getD {α : Type} (o : Option α) (d : α) (h : o.isSome = true) :
    o = some (o.getD d) := by
  cases o with
  | none => cases h
  | some a => rfl

theorem soloFalling_levelLoaded : LevelLoaded soloFiles soloFalling :=
  (loadBitmap_levelLoaded soloFiles "solo" (startGame ["solo"]) soloLevel
    (eq_some_getD _ _ (by decide!))).of_same_level rfl rfl rfl rfl rfl rfl

/-! ## Float arithmetic: theorems -/

theorem F32.pow2_eq (e : ℤ) : F32.pow2 e = (2 : ℚ) ^ e := by
  unfold F32.pow2
  split_ifs with h
  · obtain ⟨n, rfl⟩ := Int.eq_ofNat_of_zero_le h
    simp
  · have h' : 0 ≤ -e := by omega
    obtain ⟨n, hn⟩ := Int.eq_ofNat_of_zero_le h'
    have he : e = -(n : ℤ) := by omega
    rw [hn, he]
    simp

theorem F32.pow2_pos (e : ℤ) : 0 < F32.pow2 e := by
  rw [F32.pow2_eq]
  positivity

theorem F32.log2Aux_spec : ∀ fuel n : ℕ, n ≤ fuel → n ≠ 0 →
    2 ^ F32.log2Aux fuel n ≤ n ∧ n < 2 ^ (F32.log2Aux fuel n + 1) := by
  intro fuel
  induction fuel with
  | zero => intro n h h0; omega
  | succ f ih =>
    intro n h h0
    rw [F32.log2Aux]
    split_ifs with h2
    · constructor
      · simp; omega
      · simp; omega
    · obtain ⟨i1, i2⟩ := ih (n / 2) (by omega) (by omega)
      constructor
      · rw [pow_succ]; omega
      · rw [pow_succ]; omega

theorem F32.log2_spec (n : ℕ) (h : n ≠ 0) :
    2 ^ F32.log2 n ≤ n ∧ n < 2 ^ (F32.log2 n + 1) :=
  F32.log2Aux_spec n n (le_refl n) h

theorem F32.exponent_spec (q : ℚ) (hq : q ≠ 0) :
    F32.pow2 (F32.exponent q) ≤ |q| ∧ |q| < F32.pow2 (F32.exponent q + 1) := by
  have hn : q.num.natAbs ≠ 0 := by
    rw [Ne, Int.natAbs_eq_zero, Rat.num_eq_zero]
    exact hq
  have hd : q.den ≠ 0 := q.den_nz
  obtain ⟨a1, a2⟩ := F32.log2_spec _ hn
  obtain ⟨b1, b2⟩ := F32.log2_spec _ hd
  have habs : |q| = (q.num.natAbs : ℚ) / (q.den : ℚ) := by
    rw [Nat.cast_natAbs, Int.cast_abs]
    conv_lhs => rw [← Rat.num_div_den q]
    rw [abs_div, Nat.abs_cast]
  have hdpos : (0 : ℚ) < (q.den : ℚ) := by exact_mod_cast q.den_pos
  have A1 : ((2 : ℚ) ^ (F32.log2 q.num.natAbs)) ≤ (q.num.natAbs : ℚ) := by exact_mod_cast a1
  have A2 : (q.num.natAbs : ℚ) < (2 : ℚ) ^ (F32.log2 q.num.natAbs + 1) := by exact_mod_cast a2
  have B1 : ((2 : ℚ) ^ (F32.log2 q.den)) ≤ (q.den : ℚ) := by exact_mod_cast b1
  have B2 : (q.den : ℚ) < (2 : ℚ) ^ (F32.log2 q.den + 1) := by exact_mod_cast b2
  have two : (2 : ℚ) ≠ 0 := by norm_num
  unfold F32.exponent
  simp only
  split_ifs with h
  · refine ⟨h, ?_⟩
    rw [F32.pow2_eq, habs, div_lt_iff₀ hdpos]
    have e1 : (2 : ℚ) ^ ((F32.log2 q.num.natAbs : ℤ) - (F32.log2 q.den : ℤ) + 1)
        = (2 : ℚ) ^ (F32.log2 q.num.natAbs + 1) / (2 : ℚ) ^ (F32.log2 q.den) := by
      rw [show ((F32.log2 q.num.natAbs : ℤ) - (F32.log2 q.den : ℤ) + 1)
        = ((F32.log2 q.num.natAbs + 1 : ℕ) : ℤ) - ((F32.log2 q.den : ℕ) : ℤ) by push_cast; ring]
      rw [zpow_sub₀ two, zpow_natCast, zpow_natCast]
    rw [e1]
    have hp : (0 : ℚ) < (2 : ℚ) ^ (F32.log2 q.den) := by positivity
    calc (q.num.natAbs : ℚ) < (2 : ℚ) ^ (F32.log2 q.num.natAbs + 1) := A2
      _ = (2 : ℚ) ^ (F32.log2 q.num.natAbs + 1) / (2 : ℚ) ^ (F32.log2 q.den)
            * (2 : ℚ) ^ (F32.log2 q.den) := by field_simp
      _ ≤ (2 : ℚ) ^ (F32.log2 q.num.natAbs + 1) / (2 : ℚ) ^ (F32.log2 q.den) * (q.den : ℚ) := by
            apply mul_le_mul_of_nonneg_left B1
            positivity
  · constructor
    · rw [F32.pow2_eq, habs, le_div_iff₀ hdpos]
      have e1 : (2 : ℚ) ^ ((F32.log2 q.num.natAbs : ℤ) - (F32.log2 q.den : ℤ) - 1)
          = (2 : ℚ) ^ (F32.log2 q.num.natAbs) / (2 : ℚ) ^ (F32.log2 q.den + 1) := by
        rw [show ((F32.log2 q.num.natAbs : ℤ) - (F32.log2 q.den : ℤ) - 1)
          = ((F32.log2 q.num.natAbs : ℕ) : ℤ) - ((F32.log2 q.den + 1 : ℕ) : ℤ) by push_cast; ring]
        rw [zpow_sub₀ two, zpow_natCast, zpow_natCast]
      rw [e1]
      have hp : (0 : ℚ) < (2 : ℚ) ^ (F32.log2 q.den + 1) := by positivity
      calc (2 : ℚ) ^ (F32.log2 q.num.natAbs) / (2 : ℚ) ^ (F32.log2 q.den + 1) * (q.den : ℚ)
          ≤ (2 : ℚ) ^ (F32.log2 q.num.natAbs) / (2 : ℚ) ^ (F32.log2 q.den + 1)
              * (2 : ℚ) ^ (F32.log2 q.den + 1) := by
            apply mul_le_mul_of_nonneg_left (le_of_lt B2)
            positivity
        _ = (2 : ℚ) ^ (F32.log2 q.num.natAbs) := by field_simp
        _ ≤ (q.num.natAbs : ℚ) := A1
    · rw [show (F32.log2 q.num.natAbs : ℤ) - (F32.log2 q.den : ℤ) - 1 + 1
        = (F32.log2 q.num.natAbs : ℤ) - (F32.log2 q.den : ℤ) by ring]
      exact not_le.mp h

theorem F32.roundHalfEven_intCast (m : ℤ) : F32.roundHalfEven (m : ℚ) = m := by
  unfold F32.roundHalfEven
  rw [Int.floor_intCast, sub_self, if_pos (by norm_num)]

theorem F32.roundHalfEven_le (k : ℚ) (m : ℤ) (h : k ≤ (m : ℚ)) : F32.roundHalfEven k ≤ m := by
  have hf : ⌊k⌋ ≤ m := by
    have := Int.floor_le k
    have h2 : ((⌊k⌋ : ℤ) : ℚ) ≤ (m : ℚ) := le_trans this h
    exact_mod_cast h2
  rcases lt_or_eq_of_le hf with hlt | heq
  · unfold F32.roundHalfEven
    split_ifs <;> omega
  · unfold F32.roundHalfEven
    rw [if_pos]
    · exact hf
    · rw [heq]
      linarith

/-- Below `2 ^ 24` the binary32 numbers are at most one apart, and their spacing is one over a
power of two. -/
theorem F32.ulp_of_lt (q : ℚ) (hq : q ≠ 0) (h : |q| < 2 ^ 24) :
    ∃ k : ℕ, F32.ulp q = 1 / ((2 ^ k : ℕ) : ℚ) := by
  have he : F32.exponent q < 24 := by
    have h1 := (F32.exponent_spec q hq).1
    rw [F32.pow2_eq] at h1
    have h2 : (2 : ℚ) ^ (F32.exponent q) < (2 : ℚ) ^ (24 : ℤ) := by
      refine lt_of_le_of_lt h1 ?_
      rw [zpow_ofNat]
      exact h
    exact (zpow_lt_zpow_iff_right₀ (by norm_num : (1 : ℚ) < 2)).mp h2
  unfold F32.ulp
  have hs : max (F32.exponent q) (-126) - 23 ≤ 0 := by omega
  obtain ⟨k, hk⟩ := Int.eq_ofNat_of_zero_le (show 0 ≤ -(max (F32.exponent q) (-126) - 23) by omega)
  refine ⟨k, ?_⟩
  rw [show max (F32.exponent q) (-126) - 23 = -(k : ℤ) by omega, F32.pow2_eq]
  simp

/-- A whole number of magnitude below `2 ^ 24` is a binary32 number. -/
theorem F32.round_intCast (n : ℤ) (h : |(n : ℚ)| < 2 ^ 24) : F32.round (n : ℚ) = n := by
  unfold F32.round
  split_ifs with h0
  · exact h0.symm
  · obtain ⟨k, hk⟩ := F32.ulp_of_lt (n : ℚ) h0 h
    rw [hk]
    have hpos : (0 : ℚ) < ((2 ^ k : ℕ) : ℚ) := by positivity
    have e : (n : ℚ) / (1 / ((2 ^ k : ℕ) : ℚ)) = ((n * (2 ^ k : ℕ) : ℤ) : ℚ) := by
      push_cast
      field_simp
    rw [e, F32.roundHalfEven_intCast]
    push_cast
    field_simp

/-- Rounding does not step over a whole number below `2 ^ 24`. -/
theorem F32.round_le_natCast (q : ℚ) (n : ℕ) (hn : n < 2 ^ 24) (h : q ≤ (n : ℚ)) :
    F32.round q ≤ (n : ℚ) := by
  unfold F32.round
  split_ifs with h0
  · exact Nat.cast_nonneg n
  · have hu := F32.pow2_pos (max (F32.exponent q) (-126) - 23)
    rcases lt_or_gt_of_ne h0 with hneg | hpos
    · have hk : q / F32.ulp q ≤ ((0 : ℤ) : ℚ) := by
        rw [Int.cast_zero]
        exact le_of_lt (div_neg_of_neg_of_pos hneg hu)
      have := F32.roundHalfEven_le _ 0 hk
      have h2 : ((F32.roundHalfEven (q / F32.ulp q) : ℤ) : ℚ) ≤ 0 := by exact_mod_cast this
      calc ((F32.roundHalfEven (q / F32.ulp q) : ℤ) : ℚ) * F32.ulp q ≤ 0 :=
            mul_nonpos_of_nonpos_of_nonneg h2 (le_of_lt hu)
        _ ≤ (n : ℚ) := Nat.cast_nonneg n
    · have habs : |q| < 2 ^ 24 := by
        rw [abs_of_pos hpos]
        have : (n : ℚ) < 2 ^ 24 := by exact_mod_cast hn
        linarith
      obtain ⟨k, hk⟩ := F32.ulp_of_lt q h0 habs
      rw [hk]
      have hkpos : (0 : ℚ) < ((2 ^ k : ℕ) : ℚ) := by positivity
      have hle : q / (1 / ((2 ^ k : ℕ) : ℚ)) ≤ (((n * 2 ^ k : ℕ) : ℤ) : ℚ) := by
        rw [div_div_eq_mul_div, div_one]
        push_cast
        exact mul_le_mul_of_nonneg_right h (by positivity)
      have := F32.roundHalfEven_le _ _ hle
      have h2 : ((F32.roundHalfEven (q / (1 / ((2 ^ k : ℕ) : ℚ))) : ℤ) : ℚ)
          ≤ (((n * 2 ^ k : ℕ) : ℤ) : ℚ) := by exact_mod_cast this
      calc ((F32.roundHalfEven (q / (1 / ((2 ^ k : ℕ) : ℚ))) : ℤ) : ℚ) * (1 / ((2 ^ k : ℕ) : ℚ))
          ≤ (((n * 2 ^ k : ℕ) : ℤ) : ℚ) * (1 / ((2 ^ k : ℕ) : ℚ)) :=
            mul_le_mul_of_nonneg_right h2 (by positivity)
        _ = (n : ℚ) := by
            push_cast
            field_simp

theorem F32.getCollisionDirection_values_float (a b : Object) :
    F32.getCollisionDirection a b = 0 ∨ F32.getCollisionDirection a b = 1 ∨
    F32.getCollisionDirection a b = 2 ∨ F32.getCollisionDirection a b = 4 ∨
    F32.getCollisionDirection a b = 8 := by
  unfold F32.getCollisionDirection
  simp only [Direction.bits, Nat.zero_or]
  split_ifs <;> simp

theorem F32.resolvePlatform_of_top_float (p : Player) (platform : Object)
    (h : F32.getCollisionDirection p.toObject platform = 1) :
    F32.resolvePlatform p platform =
      { p with y := F32.sub platform.y p.height, dy := 0, onGround := true } := by
  simp [F32.resolvePlatform, h, Direction.bits]

/-- The coordinates of a rectangle in the window are binary32 numbers, and so are the
differences and sums of two of them. -/
theorem F32.round_natCast_sub (a b : ℕ) (ha : a ≤ 800) (hb : b ≤ 800) :
    F32.round ((a : ℚ) - (b : ℚ)) = (a : ℚ) - (b : ℚ) := by
  have e : ((a : ℚ) - (b : ℚ)) = (((a : ℤ) - (b : ℤ) : ℤ) : ℚ) := by push_cast; ring
  rw [e]
  apply F32.round_intCast
  rw [← Int.cast_abs]
  have h1 : |(a : ℤ) - (b : ℤ)| < 2 ^ 24 := by
    rw [abs_lt]
    constructor <;> omega
  exact_mod_cast h1

theorem F32.round_natCast (a : ℕ) (ha : a ≤ 800) : F32.round (a : ℚ) = (a : ℚ) := by
  have := F32.round_natCast_sub a 0 ha (by omega)
  simpa using this

theorem towerLanding_levelLoaded : LevelLoaded towerFiles towerLanding :=
  (loadBitmap_levelLoaded towerFiles "tower" (startGame ["tower"]) towerLevel
    (eq_some_getD _ _ (by decide!))).of_same_level rfl rfl rfl rfl rfl rfl

theorem F32.add_natCast (a b : ℕ) (h : a + b ≤ 800) :
    F32.add (a : ℚ) (b : ℚ) = (a : ℚ) + (b : ℚ) := by
  unfold F32.add
  have := F32.round_natCast (a + b) h
  push_cast at this
  exact this

/-- On rectangles in the window with whole-number coordinates that do not overlap, the `float`
classification is 0 as well. -/
theorem F32.getCollisionDirection_of_not_overlaps_float (A B : Object) (hA : InWindow A)
    (hB : InWindow B) (h : ¬ Overlaps A B) : F32.getCollisionDirection A B = 0 := by
  obtain ⟨x, y, w, ht, rfl, hx, hy⟩ := hA
  obtain ⟨x', y', w', ht', rfl, hx', hy'⟩ := hB
  unfold F32.getCollisionDirection
  simp only
  rw [F32.add_natCast y ht (by omega), F32.add_natCast y' ht' (by omega),
    F32.add_natCast x w hx, F32.add_natCast x' w' hx']
  by_cases c1 : (y : ℚ) + (ht : ℚ) > (y' : ℚ) ∧ (y : ℚ) < (y' : ℚ) + (ht' : ℚ)
  · rw [if_pos c1]
    by_cases c2 : (x : ℚ) + (w : ℚ) > (x' : ℚ) ∧ (x : ℚ) < (x' : ℚ) + (w' : ℚ)
    · exact absurd ⟨c2.2, c2.1, c1.2, c1.1⟩ h
    · rw [if_neg c2]
  · rw [if_neg c1]

theorem F32.resolvePlatform_of_zero_float (p : Player) (platform : Object)
    (h : F32.getCollisionDirection p.toObject platform = 0) :
    F32.resolvePlatform p platform = p := by
  simp [F32.resolvePlatform, h]

theorem F32.foldl_resolvePlatform_of_zero_float (ps : List Object) (p : Player)
    (h : ∀ q ∈ ps, F32.getCollisionDirection p.toObject q = 0) :
    ps.foldl F32.resolvePlatform p = p := by
  induction ps with
  | nil => rfl
  | cons q qs ih =>
    rw [List.foldl_cons, F32.resolvePlatform_of_zero_float p q (h q (List.mem_cons_self q qs))]
    exact ih (fun q' hq' => h q' (List.mem_cons_of_mem q hq'))

theorem F32.checkpointLoop_of_zero_float (files : String → Option Image) (cs : List Object) (g : Game)
    (h : ∀ c ∈ cs, F32.getCollisionDirection g.player.toObject c = 0) :
    F32.checkpointLoop files cs g = some g := by
  induction cs with
  | nil => rfl
  | cons c cs ih =>
    have hc := h c (List.mem_cons_self c cs)
    simp only [F32.checkpointLoop, hc, ne_eq, not_true_eq_false, if_false]
    exact ih (fun c' hc' => h c' (List.mem_cons_of_mem c hc'))

theorem F32.enemyLoop_die_float (es : List Enemy) (g : Game) :
    F32.enemyLoop es (die g) = die g := by
  induction es with
  | nil => rfl
  | cons e es ih =>
    unfold F32.enemyLoop
    split_ifs
    · rw [die_die]; exact ih
    · exact ih

theorem F32.enemyLoop_of_zero_float (es : List Enemy) (g : Game)
    (h : ∀ e ∈ es, F32.getCollisionDirection g.player.toObject e.toObject = 0) :
    F32.enemyLoop es g = g := by
  induction es with
  | nil => rfl
  | cons e es ih =>
    have he := h e (List.mem_cons_self e es)
    simp only [F32.enemyLoop, he, ne_eq, not_true_eq_false, if_false]
    exact ih (fun e' he' => h e' (List.mem_cons_of_mem e he'))

theorem F32.enemyLoop_of_hit_float (es : List Enemy) (g : Game)
    (h : ∃ e ∈ es, F32.getCollisionDirection g.player.toObject e.toObject ≠ 0) :
    F32.enemyLoop es g = die g := by
  induction es with
  | nil => obtain ⟨e, he, _⟩ := h; cases he
  | cons e es ih =>
    unfold F32.enemyLoop
    by_cases he : F32.getCollisionDirection g.player.toObject e.toObject ≠ 0
    · rw [if_pos he]; exact F32.enemyLoop_die_float es g
    · rw [if_neg he]
      apply ih
      obtain ⟨e', he', hhit⟩ := h
      rcases List.mem_cons.mp he' with rfl | hmem
      · exact absurd hhit he
      · exact ⟨e', hmem, hhit⟩

theorem F32.enemyLoop_cases_float (es : List Enemy) (g : Game) :
    F32.enemyLoop es g = g ∨ F32.enemyLoop es g = die g := by
  by_cases h : ∃ e ∈ es, F32.getCollisionDirection g.player.toObject e.toObject ≠ 0
  · exact Or.inr (F32.enemyLoop_of_hit_float es g h)
  · left
    apply F32.enemyLoop_of_zero_float
    intro e he
    by_contra hne
    exact h ⟨e, he, hne⟩

theorem F32.beforeCheckpoints_frame_float (g : Game) :
    (F32.beforeCheckpoints g).checkpoints = g.checkpoints ∧
    (F32.beforeCheckpoints g).enemies = g.enemies ∧
    (F32.beforeCheckpoints g).spawnX = g.spawnX ∧
    (F32.beforeCheckpoints g).spawnY = g.spawnY := by
  unfold F32.beforeCheckpoints F32.platformLoop F32.clampPlayer F32.fallCheck die
  split_ifs <;> exact ⟨rfl, rfl, rfl, rfl⟩

theorem F32.handleCollision_eq_float (files : String → Option Image) (g : Game) :
    F32.handleCollision files g =
      (F32.checkpointLoop files g.checkpoints (F32.beforeCheckpoints g)).map
        (fun g4 => F32.enemyLoop g4.enemies g4) := by
  have h : F32.handleCollision files g =
      (F32.checkpointLoop files (F32.beforeCheckpoints g).checkpoints
        (F32.beforeCheckpoints g)).map (fun g4 => F32.enemyLoop g4.enemies g4) := by
    show (match F32.checkpointLoop files (F32.beforeCheckpoints g).checkpoints
        (F32.beforeCheckpoints g) with
      | none => none
      | some g4 => some (F32.enemyLoop g4.enemies g4)) = _
    cases F32.checkpointLoop files (F32.beforeCheckpoints g).checkpoints
      (F32.beforeCheckpoints g) <;> rfl
  rw [h, (F32.beforeCheckpoints_frame_float g).1]

/-- In a state with a loaded level the spawn rectangle, the platforms and the checkpoints lie
in the window and have whole-number coordinates. -/
theorem LevelLoaded.inWindow {files : String → Option Image} {g : Game}
    (h : LevelLoaded files g) :
    InWindow ⟨g.spawnX, g.spawnY, g.player.width, g.player.height⟩ ∧
    (∀ q ∈ g.platforms, InWindow q) ∧ (∀ c ∈ g.checkpoints, InWindow c) := by
  obtain ⟨image, p0, hp0, hp, hpl, hcp⟩ := h.level
  refine ⟨?_, ?_, ?_⟩
  · rw [hp]; exact aggregateObject_inWindow image 0 0 255 p0 hp0
  · intro q hq
    rw [hpl] at hq
    exact aggregateObject_inWindow image 255 255 255 q hq
  · intro c hc
    rw [hcp] at hc
    exact aggregateObject_inWindow image 0 255 0 c hc

/-- After `die`, in a state with a loaded level, the clamp and the platform loop leave the
player at the spawn point, in `float` arithmetic as well. -/
theorem F32.beforeCheckpoints_die {files : String → Option Image} {g : Game}
    (h : LevelLoaded files g) :
    F32.platformLoop (F32.clampPlayer (die g)) = die g := by
  obtain ⟨hs0, hs1, hsp, _⟩ := h.spawn_clear
  obtain ⟨hw, hwp, _⟩ := h.inWindow
  have hcl : F32.clampPlayer (die g) = die g := by
    obtain ⟨x, y, w, ht, e, hx, _⟩ := hw
    have ex : g.spawnX = (x : ℚ) := congrArg Object.x e
    have ew : g.player.width = (w : ℚ) := congrArg Object.width e
    have c1 : ¬ (die g).player.x < 0 := not_lt.mpr hs0
    have c2 : ¬ F32.add (die g).player.x (die g).player.width > (WINDOW_WIDTH : ℚ) := by
      show ¬ F32.add g.spawnX g.player.width > (WINDOW_WIDTH : ℚ)
      rw [ex, ew, F32.add_natCast x w hx, not_lt]
      unfold WINDOW_WIDTH
      exact_mod_cast hx
    unfold F32.clampPlayer
    rw [if_neg c1, if_neg c2]
  rw [hcl]
  unfold F32.platformLoop
  have hz : ∀ q ∈ (die g).platforms,
      F32.getCollisionDirection (die g).player.toObject q = 0 := by
    intro q hq
    apply F32.getCollisionDirection_of_not_overlaps_float _ _ hw (hwp q hq)
    exact (getCollisionDirection_eq_zero_iff _ _).mp (hsp q hq)
  rw [F32.foldl_resolvePlatform_of_zero_float (die g).platforms (die g).player hz]

theorem F32.resolvePlatform_size_float (p : Player) (platform : Object) :
    (F32.resolvePlatform p platform).width = p.width ∧
    (F32.resolvePlatform p platform).height = p.height := by
  unfold F32.resolvePlatform
  simp only
  split_ifs <;> exact ⟨rfl, rfl⟩

theorem F32.foldl_resolvePlatform_size_float (ps : List Object) (p : Player) :
    (ps.foldl F32.resolvePlatform p).width = p.width ∧
    (ps.foldl F32.resolvePlatform p).height = p.height := by
  induction ps generalizing p with
  | nil => exact ⟨rfl, rfl⟩
  | cons q qs ih =>
    rw [List.foldl_cons]
    obtain ⟨h1, h2⟩ := ih (F32.resolvePlatform p q)
    obtain ⟨h3, h4⟩ := F32.resolvePlatform_size_float p q
    exact ⟨h1.trans h3, h2.trans h4⟩

theorem F32.beforeCheckpoints_levelLoaded_float {files : String → Option Image} {g : Game}
    (h : LevelLoaded files g) : LevelLoaded files (F32.beforeCheckpoints g) := by
  have hfr := F32.beforeCheckpoints_frame_float g
  have hpl : (F32.beforeCheckpoints g).platforms = g.platforms := by
    unfold F32.beforeCheckpoints F32.platformLoop F32.clampPlayer F32.fallCheck die
    split_ifs <;> rfl
  have hsz : (F32.beforeCheckpoints g).player.width = g.player.width ∧
      (F32.beforeCheckpoints g).player.height = g.player.height := by
    unfold F32.beforeCheckpoints F32.platformLoop
    simp only
    obtain ⟨h1, h2⟩ := F32.foldl_resolvePlatform_size_float
      (F32.clampPlayer (F32.fallCheck g)).platforms (F32.clampPlayer (F32.fallCheck g)).player
    rw [h1, h2]
    unfold F32.clampPlayer F32.fallCheck die
    split_ifs <;> exact ⟨rfl, rfl⟩
  exact h.of_same_level hfr.2.2.1 hfr.2.2.2 hsz.1 hsz.2 hpl hfr.1

theorem F32.checkpointLoop_levelLoaded_float (files : String → Option Image) :
    ∀ (cs : List Object) (g g' : Game), LevelLoaded files g →
      F32.checkpointLoop files cs g = some g' → LevelLoaded files g' := by
  intro cs
  induction cs with
  | nil =>
    intro g g' h hc
    rw [F32.checkpointLoop] at hc
    cases hc
    exact h
  | cons c cs ih =>
    intro g g' h hc
    rw [F32.checkpointLoop] at hc
    split_ifs at hc
    · simp only at hc
      split at hc
      · cases hc
      · split at hc
        · cases hc
        · rename_i g2 hload
          exact ih g2 g' (loadBitmap_levelLoaded files _ _ g2 hload) hc
    · exact ih g g' h hc

/-- The pass in `float` arithmetic keeps the level loaded as well. -/
theorem F32.handleCollision_levelLoaded_float {files : String → Option Image} {g g' : Game}
    (h : LevelLoaded files g) (hc : F32.handleCollision files g = some g') :
    LevelLoaded files g' := by
  rw [F32.handleCollision_eq_float] at hc
  obtain ⟨g4, h4, rfl⟩ := Option.map_eq_some'.mp hc
  have h5 := F32.checkpointLoop_levelLoaded_float files _ _ _
    (F32.beforeCheckpoints_levelLoaded_float h) h4
  rcases F32.enemyLoop_cases_float g4.enemies g4 with e | e
  · rw [e]; exact h5
  · rw [e]; exact h5.of_same_level rfl rfl rfl rfl rfl rfl

/-! ## Simulation: respawn and landing in a loaded level -/

/-- C7 (respawn correctness): in every state with a loaded level, if the fall check of a
`handleCollision` pass calls `die` (the player's bottom edge is below the window bottom), or if
the player overlaps no checkpoint when the checkpoint loop of the pass tests it and the enemy
loop calls `die` (the player overlaps an enemy), then the pass ends with the player at
(spawnX, spawnY), `dx = 0`, `dy = 0` and `onGround = false`, the spawn point being the one
recorded at the level load.  This holds with the tests of the pass taken in exact arithmetic
and with the tests taken in the `float` arithmetic of the source. -/
theorem respawn_correct (files : String → Option Image) (g : Game)
    (hloaded : LevelLoaded files g) :
    ((g.player.y + g.player.height > (WINDOW_HEIGHT : ℚ) ∨
        ((∀ c ∈ g.checkpoints,
            getCollisionDirection (beforeCheckpoints g).player.toObject c = 0) ∧
          ∃ e ∈ g.enemies,
            getCollisionDirection (beforeCheckpoints g).player.toObject e.toObject ≠ 0)) →
      ∃ g', handleCollision files g = some g' ∧
        g'.spawnX = g.spawnX ∧ g'.spawnY = g.spawnY ∧
        g'.player.x = g'.spawnX ∧ g'.player.y = g'.spawnY ∧
        g'.player.dx = 0 ∧ g'.player.dy = 0 ∧ g'.player.onGround = false) ∧
    ((F32.add g.player.y g.player.height > (WINDOW_HEIGHT : ℚ) ∨
        ((∀ c ∈ g.checkpoints,
            F32.getCollisionDirection (F32.beforeCheckpoints g).player.toObject c = 0) ∧
          ∃ e ∈ g.enemies,
            F32.getCollisionDirection (F32.beforeCheckpoints g).player.toObject e.toObject
              ≠ 0)) →
      ∃ g', F32.handleCollision files g = some g' ∧
        g'.spawnX = g.spawnX ∧ g'.spawnY = g.spawnY ∧
        g'.player.x = g'.spawnX ∧ g'.player.y = g'.spawnY ∧
        g'.player.dx = 0 ∧ g'.player.dy = 0 ∧ g'.player.onGround = false) := by
  obtain ⟨hs0, hs1, hsp, hsc⟩ := hloaded.spawn_clear
  obtain ⟨hw, _, hwc⟩ := hloaded.inWindow
  constructor
  · have hfr := beforeCheckpoints_frame g
    rintro (hfall | ⟨hcp, hen⟩)
    · have hfc : fallCheck g = die g := by unfold fallCheck; rw [if_pos hfall]
      have hcl2 : clampPlayer (die g) = die g := clampPlayer_of_inside (die g) hs0 hs1
      have hpl : platformLoop (die g) = die g := by
        unfold platformLoop
        rw [foldl_resolvePlatform_of_zero (die g).platforms (die g).player hsp]
      have hb : beforeCheckpoints g = die g := by
        unfold beforeCheckpoints; rw [hfc, hcl2, hpl]
      have hrun : handleCollision files g = some (enemyLoop (die g).enemies (die g)) := by
        rw [handleCollision_eq, hb, checkpointLoop_of_zero files _ _ hsc]
        rfl
      refine ⟨_, hrun, ?_⟩
      rcases enemyLoop_cases (die g).enemies (die g) with h | h
      · rw [h]; exact ⟨rfl, rfl, rfl, rfl, rfl, rfl, rfl⟩
      · rw [h]; exact ⟨rfl, rfl, rfl, rfl, rfl, rfl, rfl⟩
    · have hrun : handleCollision files g
          = some (enemyLoop (beforeCheckpoints g).enemies (beforeCheckpoints g)) := by
        rw [handleCollision_eq, checkpointLoop_of_zero files _ _ hcp]
        rfl
      refine ⟨_, hrun, ?_⟩
      rw [enemyLoop_of_hit _ _ (hfr.2.1.symm ▸ hen)]
      exact ⟨hfr.2.2.2.1, hfr.2.2.2.2.1, rfl, rfl, rfl, rfl, rfl⟩
  · have hfr := F32.beforeCheckpoints_frame_float g
    rintro (hfall | ⟨hcp, hen⟩)
    · have hfc : F32.fallCheck g = die g := by unfold F32.fallCheck; rw [if_pos hfall]
      have hb : F32.beforeCheckpoints g = die g := by
        unfold F32.beforeCheckpoints
        rw [hfc, F32.beforeCheckpoints_die hloaded]
      have hz : ∀ c ∈ g.checkpoints,
          F32.getCollisionDirection (die g).player.toObject c = 0 := by
        intro c hc
        apply F32.getCollisionDirection_of_not_overlaps_float _ _ hw (hwc c hc)
        exact (getCollisionDirection_eq_zero_iff _ _).mp (hsc c hc)
      have hrun : F32.handleCollision files g
          = some (F32.enemyLoop (die g).enemies (die g)) := by
        rw [F32.handleCollision_eq_float, hb, F32.checkpointLoop_of_zero_float files _ _ hz]
        rfl
      refine ⟨_, hrun, ?_⟩
      rcases F32.enemyLoop_cases_float (die g).enemies (die g) with h | h
      · rw [h]; exact ⟨rfl, rfl, rfl, rfl, rfl, rfl, rfl⟩
      · rw [h]; exact ⟨rfl, rfl, rfl, rfl, rfl, rfl, rfl⟩
    · have hrun : F32.handleCollision files g
          = some (F32.enemyLoop (F32.beforeCheckpoints g).enemies (F32.beforeCheckpoints g)) := by
        rw [F32.handleCollision_eq_float, F32.checkpointLoop_of_zero_float files _ _ hcp]
        rfl
      refine ⟨_, hrun, ?_⟩
      rw [F32.enemyLoop_of_hit_float _ _ (hfr.2.1.symm ▸ hen)]
      exact ⟨hfr.2.2.1, hfr.2.2.2, rfl, rfl, rfl, rfl, rfl⟩

/-- Witness for C7: on the level `soloImage` the first `updatePlayer` moves the player below the
window; the pass puts the player back at the spawn point (0, 0), in exact and in `float`
arithmetic. -/
theorem respawn_correct_witness :
    soloFalling.player.y + soloFalling.player.height = 600 + 13421773 / 67108864 ∧
    soloFalling.spawnX = 0 ∧ soloFalling.spawnY = 0 ∧
    (∃ g', handleCollision soloFiles soloFalling = some g' ∧
      g'.spawnX = soloFalling.spawnX ∧ g'.spawnY = soloFalling.spawnY ∧
      g'.player.x = g'.spawnX ∧ g'.player.y = g'.spawnY ∧
      g'.player.dx = 0 ∧ g'.player.dy = 0 ∧ g'.player.onGround = false) ∧
    (∃ g', F32.handleCollision soloFiles soloFalling = some g' ∧
      g'.spawnX = soloFalling.spawnX ∧ g'.spawnY = soloFalling.spawnY ∧
      g'.player.x = g'.spawnX ∧ g'.player.y = g'.spawnY ∧
      g'.player.dx = 0 ∧ g'.player.dy = 0 ∧ g'.player.onGround = false) :=
  ⟨by decide!, by decide!, by decide!,
    (respawn_correct soloFiles soloFalling soloFalling_levelLoaded).1 (Or.inl (by decide!)),
    (respawn_correct soloFiles soloFalling soloFalling_levelLoaded).2 (Or.inl (by decide!))⟩

/-- Outside a loaded level the `float` difference and sum need not cancel: with the platform top
at the `float` nearest to 0.1 and a player of height 1, `(0.1f - 1) + 1` is the `float`
0.10000002, three spacings above `0.1f`. -/
theorem F32.sub_add_inexact :
    F32.round (1 / 10) = 13421773 / 134217728 ∧
    F32.add (F32.sub (F32.round (1 / 10)) 1) 1 = 13421776 / 134217728 := by
  decide!

/-- C8 (landing): in every state with a loaded level, a single platform, no checkpoint, no
enemy and the player inside the window, a `TOP` classification makes the pass end with
`onGround = true`, `dy = 0`, the player's bottom edge on the platform's top edge, and `x` and
`dx` as before.  This holds with the pass taken in exact arithmetic, and with the pass taken in
the `float` arithmetic of the source, where the bottom edge equals the top edge both as the
exact sum `y + height` and as the `float` sum that the source computes. -/
theorem landing_on_top (files : String → Option Image) (g : Game) (platform : Object)
    (hloaded : LevelLoaded files g)
    (hpl : g.platforms = [platform]) (hcp : g.checkpoints = []) (hen : g.enemies = [])
    (hx0 : 0 ≤ g.player.x) (hx1 : g.player.x + g.player.width ≤ (WINDOW_WIDTH : ℚ))
    (hy1 : g.player.y + g.player.height ≤ (WINDOW_HEIGHT : ℚ)) :
    (getCollisionDirection g.player.toObject platform &&& Direction.TOP.bits ≠ 0 →
      ∃ g', handleCollision files g = some g' ∧
        g'.player.onGround = true ∧ g'.player.dy = 0 ∧
        g'.player.y + g'.player.height = platform.y ∧
        g'.player.x = g.player.x ∧ g'.player.dx = g.player.dx) ∧
    (F32.getCollisionDirection g.player.toObject platform &&& Direction.TOP.bits ≠ 0 →
      ∃ g', F32.handleCollision files g = some g' ∧
        g'.player.onGround = true ∧ g'.player.dy = 0 ∧
        g'.player.y + g'.player.height = platform.y ∧
        F32.add g'.player.y g'.player.height = platform.y ∧
        g'.player.x = g.player.x ∧ g'.player.dx = g.player.dx) := by
  constructor
  · intro htop
    have hdir : getCollisionDirection g.player.toObject platform = 1 := by
      rcases getCollisionDirection_values g.player.toObject platform with h | h | h | h | h
      · rw [h] at htop; exact absurd rfl htop
      · exact h
      · rw [h] at htop; exact absurd rfl htop
      · rw [h] at htop; exact absurd rfl htop
      · rw [h] at htop; exact absurd rfl htop
    have hfc : fallCheck g = g := by unfold fallCheck; rw [if_neg (not_lt.mpr hy1)]
    have hb : beforeCheckpoints g =
        { g with player :=
            { g.player with y := platform.y - g.player.height, dy := 0, onGround := true } } := by
      unfold beforeCheckpoints
      rw [hfc, clampPlayer_of_inside g hx0 hx1]
      unfold platformLoop
      rw [hpl, List.foldl_cons, List.foldl_nil, resolvePlatform_of_top g.player platform hdir]
    refine ⟨enemyLoop [] (beforeCheckpoints g), ?_, ?_⟩
    · rw [handleCollision_eq, hcp]
      show some (enemyLoop (beforeCheckpoints g).enemies (beforeCheckpoints g)) = _
      rw [(beforeCheckpoints_frame g).2.1, hen]
    · rw [hb]
      refine ⟨rfl, rfl, ?_, rfl, rfl⟩
      show platform.y - g.player.height + g.player.height = platform.y
      ring
  · intro htop
    have hdir : F32.getCollisionDirection g.player.toObject platform = 1 := by
      rcases F32.getCollisionDirection_values_float g.player.toObject platform with h | h | h | h | h
      · rw [h] at htop; exact absurd rfl htop
      · exact h
      · rw [h] at htop; exact absurd rfl htop
      · rw [h] at htop; exact absurd rfl htop
      · rw [h] at htop; exact absurd rfl htop
    obtain ⟨image, p0, hp0, hp, hplat, _⟩ := hloaded.level
    obtain ⟨px, py, pw, ph, hpxy, _, hph⟩ := aggregateObject_inWindow image 0 0 255 p0 hp0
    have eh : g.player.height = (ph : ℚ) := congrArg Object.height (hp.trans hpxy)
    have hmem : platform ∈ aggregateObject image 255 255 255 := by
      rw [← hplat, hpl]; exact List.mem_singleton.mpr rfl
    obtain ⟨qx, qy, qw, qh, hqxy, _, hqh⟩ :=
      aggregateObject_inWindow image 255 255 255 platform hmem
    have ey : platform.y = (qy : ℚ) := congrArg Object.y hqxy
    have hsub : F32.sub platform.y g.player.height = platform.y - g.player.height := by
      unfold F32.sub
      rw [ey, eh]
      exact F32.round_natCast_sub qy ph (by omega) (by omega)
    have hfc : F32.fallCheck g = g := by
      unfold F32.fallCheck
      rw [if_neg]
      rw [not_lt]
      exact F32.round_le_natCast _ WINDOW_HEIGHT (by decide) hy1
    have hcl : F32.clampPlayer g = g := by
      unfold F32.clampPlayer
      rw [if_neg (not_lt.mpr hx0), if_neg]
      rw [not_lt]
      exact F32.round_le_natCast _ WINDOW_WIDTH (by decide) hx1
    have hb : F32.platformLoop (F32.clampPlayer (F32.fallCheck g)) =
        { g with player :=
            { g.player with y := platform.y - g.player.height, dy := 0, onGround := true } } := by
      rw [hfc, hcl]
      unfold F32.platformLoop
      rw [hpl, List.foldl_cons, List.foldl_nil,
        F32.resolvePlatform_of_top_float g.player platform hdir, hsub]
    refine ⟨{ g with player :=
        { g.player with y := platform.y - g.player.height, dy := 0, onGround := true } }, ?_, ?_⟩
    · unfold F32.handleCollision
      simp only
      rw [hb]
      simp only [hcp, hen, F32.checkpointLoop, F32.enemyLoop]
    · refine ⟨rfl, rfl, ?_, ?_, rfl, rfl⟩
      · show platform.y - g.player.height + g.player.height = platform.y
        ring
      · show F32.add (platform.y - g.player.height) g.player.height = platform.y
        unfold F32.add
        rw [show platform.y - g.player.height + g.player.height = platform.y by ring, ey]
        exact F32.round_natCast qy (by omega)

/-- Witness for C8: on the level `towerImage` the first frame moves the player by the `float`
nearest to one fifth into the platform below; the pass puts the player back on top of it. -/
theorem landing_on_top_witness :
    towerLanding.platforms = [⟨0, 300, 800, 300⟩] ∧
    towerLanding.player.toObject = ⟨0, 13421773 / 67108864, 800, 300⟩ ∧
    (∃ g', handleCollision towerFiles towerLanding = some g' ∧
      g'.player.onGround = true ∧ g'.player.dy = 0 ∧
      g'.player.y + g'.player.height = 300 ∧
      g'.player.x = towerLanding.player.x ∧ g'.player.dx = towerLanding.player.dx) ∧
    (∃ g', F32.handleCollision towerFiles towerLanding = some g' ∧
      g'.player.onGround = true ∧ g'.player.dy = 0 ∧
      g'.player.y + g'.player.height = 300 ∧
      F32.add g'.player.y g'.player.height = 300 ∧
      g'.player.x = towerLanding.player.x ∧ g'.player.dx = towerLanding.player.dx) :=
  ⟨by decide!, by decide!,
    (landing_on_top towerFiles towerLanding ⟨0, 300, 800, 300⟩ towerLanding_levelLoaded
      (by decide!) (by decide!) (by decide!) (by decide!) (by decide!) (by decide!)).1
      (by decide!),
    (landing_on_top towerFiles towerLanding ⟨0, 300, 800, 300⟩ towerLanding_levelLoaded
      (by decide!) (by decide!) (by decide!) (by decide!) (by decide!) (by decide!)).2
      (by decide!)⟩

end Platformer
